import Mathlib

/-!
# Verification of `Utils::ConsoleProcess` (src/libs/utils/consoleprocess.cpp)
and of the key registry (src/libs/languageserverprotocol/jsonkeys.h)

Shallow embedding of the console process runner of Qt Creator:

* the Windows command line quoting (`quoteWinCommand`, `quoteWinArgument`,
  `createWinCommandline`);
* the Unix variant of the stub protocol (`readStubOutput`, `stubExited`,
  `finish`, `emitError`, the control bytes, `start`, the connect timer);
* the Windows variant of `start` with its environment file;
* the terminal emulators (`TerminalCommand`, `defaultTerminalEmulator`,
  `availableTerminalEmulators`, `terminalEmulator`, `setTerminalEmulator`);

and, in the namespace `LanguageServerProtocol`, of the table of the protocol
keys with a model of the JSON-RPC messages that use them.

`QString` and `QByteArray` are lists of characters; a byte of a `QByteArray`
is the Latin-1 character of the same code.  Signals are recorded in a trace.
-/

namespace Utils

/-! ## Strings -/

/-- A `QString`: its sequence of characters. -/
abbrev QString := List Char

/-- A `QByteArray`: its sequence of bytes, each seen as a Latin-1 character. -/
abbrev QByteArray := List Char

/-- A `QStringList`. -/
abbrev QStringList := List QString

/-- `QString::replace(QChar before, QChar after)`. -/
def replaceChar (before after : Char) (s : QString) : QString :=
  s.map (fun c => if c = before then after else c)

/-- `QString::startsWith(QChar)`. -/
def startsWithChar (s : QString) (c : Char) : Bool :=
  match s with
  | [] => false
  | x :: _ => x == c

/-- `QString::endsWith(QChar)`. -/
def endsWithChar (s : QString) (c : Char) : Bool :=
  match s.getLast? with
  | none => false
  | some x => x == c

/-! ## Windows command line quoting -/

/-- `quoteWinCommand`: slashes become backslashes, and a program name with a
space that neither starts nor ends with a double quote is wrapped in quotes. -/
def quoteWinCommand (program : QString) : QString :=
  let programName := replaceChar '/' '\\' program
  if !startsWithChar programName '"' && !endsWithChar programName '"'
      && programName.contains ' ' then
    '"' :: (programName ++ ['"'])
  else
    programName

/-- The global replacement
`ret.replace(QRegularExpression("(\\\\*)\""), "\\1\\1\\\"")`, that is the
regular expression `(\\*)"` replaced by `\1\1\"`.  Scanning from the left, `n`
is the length of the backslash run read so far.  A run followed by a double
quote is the (leftmost, greedy) match: the run is written twice, then a
backslash and the quote.  A run followed by anything else, or by the end of the
string, matches nowhere and is copied. -/
def escapeQuotes (n : Nat) : QString → QString
  | [] => List.replicate n '\\'
  | c :: cs =>
    if c = '\\' then escapeQuotes (n + 1) cs
    else if c = '"' then
      List.replicate n '\\' ++ (List.replicate n '\\' ++ ('\\' :: '"' :: escapeQuotes 0 cs))
    else List.replicate n '\\' ++ (c :: escapeQuotes 0 cs)

/-- The class `\s` of `QRegularExpression` (PCRE without Unicode properties):
space, tab, line feed, vertical tab, form feed, carriage return. -/
def isRegexSpace (c : Char) : Bool :=
  c == ' ' || c == '\t' || c == '\n' || c == Char.ofNat 11 || c == Char.ofNat 12 || c == '\r'

/-- The loop `while (i > 0 && ret.at(i - 1) == '\\') --i;` started at `i`. -/
def skipTrailingBackslashes (ret : QString) : Nat → Nat
  | 0 => 0
  | i + 1 => if ret.get? i = some '\\' then skipTrailingBackslashes ret i else i + 1

/-- `quoteWinArgument`. -/
def quoteWinArgument (arg : QString) : QString :=
  if arg.isEmpty then ['"', '"']
  else
    let ret := escapeQuotes 0 arg
    if ret.any isRegexSpace then
      let i := skipTrailingBackslashes ret ret.length
      -- ret.insert(i, '"'); ret.prepend('"');
      '"' :: (ret.take i ++ '"' :: ret.drop i)
    else ret

/-- `createWinCommandline(const QString &program, const QStringList &args)`. -/
def createWinCommandline (program : QString) (args : QStringList) : QString :=
  args.foldl (fun programName arg => (programName ++ [' ']) ++ quoteWinArgument arg)
    (quoteWinCommand program)

/-! ## The argv parser of the receiving side

The parser is not part of the repository.  It is written after the documented
argument splitting of `CommandLineToArgvW` and of the Microsoft C runtime
(`CreateProcess` hands the command line over unchanged), applied to the part
of the command line after the program name. -/

/-- State of the argv parser. -/
structure ArgvParser where
  /-- The arguments completed so far. -/
  args : List QString
  /-- The characters of the argument being read. -/
  cur : QString
  /-- An argument has been started. -/
  inArg : Bool
  /-- The parser is inside a quoted part. -/
  inQuotes : Bool
  /-- The number of backslashes read and not yet interpreted. -/
  bs : Nat
  /-- The previous character was a double quote read inside a quoted part. -/
  closing : Bool
deriving DecidableEq, Repr

/-- The parser before the first character. -/
def ArgvParser.init : ArgvParser :=
  { args := [], cur := [], inArg := false, inQuotes := false, bs := 0, closing := false }

/-- One character, when no closing quote is pending.
* backslashes are counted;
* `2n` backslashes and a double quote give `n` backslashes and the quote
  opens or closes a quoted part;
* `2n+1` backslashes and a double quote give `n` backslashes and a literal
  double quote;
* backslashes followed by another character are literal;
* a space or a tab outside a quoted part ends the argument. -/
def ArgvParser.plain (p : ArgvParser) (c : Char) : ArgvParser :=
  if c = '\\' then { p with inArg := true, bs := p.bs + 1 }
  else if c = '"' then
    if p.bs % 2 = 1 then
      { p with inArg := true, cur := p.cur ++ (List.replicate (p.bs / 2) '\\' ++ ['"']), bs := 0 }
    else if p.inQuotes then
      { p with inArg := true, cur := p.cur ++ List.replicate (p.bs / 2) '\\', bs := 0,
               closing := true }
    else
      { p with inArg := true, cur := p.cur ++ List.replicate (p.bs / 2) '\\', bs := 0,
               inQuotes := true }
  else if (c = ' ' ∨ c = '\t') ∧ p.inQuotes = false then
    if p.inArg then
      { args := p.args ++ [p.cur ++ List.replicate p.bs '\\'], cur := [], inArg := false,
        inQuotes := false, bs := 0, closing := false }
    else p
  else
    { p with inArg := true, cur := p.cur ++ (List.replicate p.bs '\\' ++ [c]), bs := 0 }

/-- One character.  A double quote read inside a quoted part closes it, unless
it is directly followed by a second double quote: the pair is one literal
double quote, after which the parser stays inside the quoted part
(`stayQuoted`, the C runtime since 2008) or leaves it (`CommandLineToArgvW`). -/
def ArgvParser.step (stayQuoted : Bool) (p : ArgvParser) (c : Char) : ArgvParser :=
  if p.closing then
    if c = '"' then
      { p with cur := p.cur ++ ['"'], closing := false, inQuotes := stayQuoted }
    else
      ArgvParser.plain { p with closing := false, inQuotes := false } c
  else ArgvParser.plain p c

/-- The arguments at the end of the command line. -/
def ArgvParser.finish (p : ArgvParser) : List QString :=
  if p.inArg then p.args ++ [p.cur ++ List.replicate p.bs '\\'] else p.args

/-- The parser run over a string. -/
def ArgvParser.run (stayQuoted : Bool) (p : ArgvParser) (s : QString) : ArgvParser :=
  s.foldl (ArgvParser.step stayQuoted) p

/-- The argument list that the parser decodes from a command line tail. -/
def parseWinArgs (stayQuoted : Bool) (tail : QString) : List QString :=
  (ArgvParser.run stayQuoted ArgvParser.init tail).finish

/-- The part of `createWinCommandline program args` after the program. -/
def winCommandlineTail (args : QStringList) : QString :=
  (args.map (fun arg => ' ' :: quoteWinArgument arg)).flatten

/-- Neither a space nor a tab occurs in the string. -/
def noSeparator (s : QString) : Prop := ∀ c ∈ s, c ≠ ' ' ∧ c ≠ '\t'

/-- The parser between two arguments, `A` being the arguments read. -/
def ArgvParser.between (A : List QString) : ArgvParser :=
  { args := A, cur := [], inArg := false, inQuotes := false, bs := 0, closing := false }

/-- The parser has read the arguments `A`, the last one being complete but
not yet closed by a separator. -/
def ArgvParser.Done (p : ArgvParser) (A : List QString) : Prop :=
  p.finish = A ∧ ∀ sq, ArgvParser.step sq p ' ' = ArgvParser.between A

/-! ## Qt and Utils types used by `ConsoleProcess` -/

/-- `ConsoleProcess::Mode`. -/
inductive Mode where
  | Run
  | Debug
  | Suspend
deriving DecidableEq, Repr

/-- `QProcess::ExitStatus`. -/
inductive ExitStatus where
  | NormalExit
  | CrashExit
deriving DecidableEq, Repr

/-- `QProcess::ProcessError`. -/
inductive ProcessError where
  | FailedToStart
  | Crashed
  | Timedout
  | ReadError
  | WriteError
  | UnknownError
deriving DecidableEq, Repr

/-- `QProcess::ProcessState`. -/
inductive ProcessState where
  | NotRunning
  | Starting
  | Running
deriving DecidableEq, Repr

/-- `QLocalSocket::LocalSocketState`. -/
inductive LocalSocketState where
  | UnconnectedState
  | ConnectingState
  | ConnectedState
  | ClosingState
deriving DecidableEq, Repr

/-- `ProcessArgs::SplitError`. -/
inductive SplitError where
  | SplitOk
  | BadQuoting
  | FoundMeta
deriving DecidableEq, Repr

/-- The signals of `ConsoleProcess`. -/
inductive Signal where
  | started
  | finished
  | errorOccurred (err : ProcessError)
deriving DecidableEq, Repr

/-- `Utils::CommandLine`: the executable and the argument string. -/
structure CommandLine where
  executable : QString
  arguments : QString
deriving DecidableEq, Repr

/-- `Utils::TerminalCommand`. -/
structure TerminalCommand where
  command : QString
  openArgs : QString
  executeArgs : QString
  needsQuotes : Bool
deriving DecidableEq, Repr

/-- `Utils::Environment`: the variables with their values. -/
abbrev Environment := List (QString × QString)

/-- `Environment::unset`. -/
def Environment.unset (env : Environment) (key : QString) : Environment :=
  env.filter (fun kv => kv.1 != key)

/-- `Environment::toStringList`: one `key=value` string for each variable. -/
def Environment.toStringList (env : Environment) : QStringList :=
  env.map (fun kv => kv.1 ++ '=' :: kv.2)

/-- `Utils::ProcessArgs`, as the argument list that `toUnixArgs` returns. -/
structure ProcessArgs where
  toUnixArgs : QStringList
deriving DecidableEq, Repr

/-- `ProcessArgs::createUnixArgs`. -/
def ProcessArgs.createUnixArgs (args : QStringList) : ProcessArgs := ⟨args⟩

/-- The `QLocalSocket` of the stub connection. -/
structure LocalSocket where
  /-- The bytes received from the stub that have not been read yet. -/
  readBuffer : QByteArray
  /-- `isWritable()`. -/
  writable : Bool
  /-- `isOpen()`. -/
  isOpen : Bool
  /-- `state()`. -/
  state : LocalSocketState
deriving DecidableEq, Repr

/-- The `QLocalServer` the stub connects to. -/
structure LocalServer where
  /-- `isListening()`. -/
  listening : Bool
  /-- `fullServerName()`. -/
  fullServerName : QString
deriving DecidableEq, Repr

/-- The `QTemporaryFile` that carries the environment. -/
structure TemporaryFile where
  fileName : QString
  contents : QByteArray
deriving DecidableEq, Repr

/-- The `QTimer` that watches for the stub connection; its `timeout` signal is
connected to `stopProcess`. -/
structure Timer where
  singleShot : Bool
  /-- The interval in milliseconds. -/
  interval : Nat
  active : Bool
deriving DecidableEq, Repr

/-- The `QtcProcess` that runs the terminal emulator. -/
structure QtcProcess where
  /-- `state()`. -/
  state : ProcessState
  /-- `setEnvironment`. -/
  environment : Environment
  /-- `setCommand`: the program and its arguments. -/
  command : QString × QStringList
  /-- The number of calls of `terminate()`. -/
  terminateCalls : Nat
  /-- The number of calls of `kill()`. -/
  killCalls : Nat
deriving DecidableEq, Repr

/-- `QProcess::terminate()`: the request is recorded. -/
def QtcProcess.terminate (p : QtcProcess) : QtcProcess :=
  { p with terminateCalls := p.terminateCalls + 1 }

/-- A `ConsoleProcess` object: the members of `ConsoleProcessPrivate` (Unix
variant) under their names, the trace of the signals emitted so far, the bytes
written to the stub socket so far, the directories removed with `rmdir`, and
the timers that the object still owns without a member pointing to them. -/
structure ConsoleProcess where
  m_mode : Mode
  m_workingDir : QString
  m_environment : Environment
  m_processId : Int
  m_exitCode : Int
  m_commandLine : CommandLine
  m_appStatus : ExitStatus
  m_stubServer : LocalServer
  m_stubSocket : Option LocalSocket
  m_tempFile : Option TemporaryFile
  m_error : ProcessError
  m_errorString : QString
  m_abortOnMetaChars : Bool
  m_runAsRoot : Bool
  m_process : QtcProcess
  m_stubConnectTimer : Option Timer
  m_stubServerDir : QByteArray
  /-- The signals emitted so far, oldest first. -/
  emitted : List Signal
  /-- The bytes written to the stub socket so far, oldest first. -/
  written : QByteArray
  /-- The directories removed with `rmdir` so far. -/
  removedDirs : List QByteArray
  /-- The timers of earlier calls of `start` that `m_stubConnectTimer` no
  longer points to.  They were created with `new QTimer(this)`, so they stay
  alive as children of the object, connected to `stopProcess`. -/
  orphanedTimers : List Timer
deriving DecidableEq, Repr

/-- A `ConsoleProcess` after its constructor: the default member values of
`ConsoleProcessPrivate`. -/
def ConsoleProcess.new : ConsoleProcess :=
  { m_mode := Mode.Run
    m_workingDir := []
    m_environment := []
    m_processId := 0
    m_exitCode := 0
    m_commandLine := ⟨[], []⟩
    m_appStatus := ExitStatus.NormalExit
    m_stubServer := ⟨false, []⟩
    m_stubSocket := none
    m_tempFile := none
    m_error := ProcessError.UnknownError
    m_errorString := []
    m_abortOnMetaChars := true
    m_runAsRoot := false
    m_process := ⟨ProcessState.NotRunning, [], ([], []), 0, 0⟩
    m_stubConnectTimer := none
    m_stubServerDir := []
    emitted := []
    written := []
    removedDirs := []
    orphanedTimers := [] }

/-! ## Messages -/

/-- `modeOption`. -/
def modeOption (m : Mode) : QString :=
  match m with
  | Mode.Debug => "debug".toList
  | Mode.Suspend => "suspend".toList
  | Mode.Run => "run".toList

/-- `msgCommChannelFailed`. -/
def msgCommChannelFailed (error : QString) : QString :=
  "Cannot set up communication channel: ".toList ++ error

/-- `msgPromptToClose`. -/
def msgPromptToClose : QString := "Press <RETURN> to close this window...".toList

/-- `msgCannotCreateTempFile`. -/
def msgCannotCreateTempFile (why : QString) : QString :=
  "Cannot create temporary file: ".toList ++ why

/-- `msgCannotWriteTempFile`. -/
def msgCannotWriteTempFile : QString := "Cannot write temporary file. Disk full?".toList

/-- `msgCannotCreateTempDir`. -/
def msgCannotCreateTempDir (dir why : QString) : QString :=
  "Cannot create temporary directory \"".toList ++ dir ++ "\": ".toList ++ why

/-- `msgUnexpectedOutput`; `QString::fromLatin1` keeps each byte as the
character of the same code. -/
def msgUnexpectedOutput (what : QByteArray) : QString :=
  "Unexpected output from helper program (".toList ++ what ++ ").".toList

/-- `msgCannotChangeToWorkDir`. -/
def msgCannotChangeToWorkDir (dir why : QString) : QString :=
  "Cannot change to working directory \"".toList ++ dir ++ "\": ".toList ++ why

/-- `msgCannotExecute`. -/
def msgCannotExecute (p why : QString) : QString :=
  "Cannot execute \"".toList ++ p ++ "\": ".toList ++ why

/-! ## `QByteArray` functions -/

/-- `QByteArray::startsWith(const char *)`. -/
def startsWith (s pre : QByteArray) : Bool := pre.isPrefixOf s

/-- The white space of the number conversions of Qt (`ascii_isspace`):
the space and the characters from tab to carriage return. -/
def isAsciiSpace (c : Char) : Bool :=
  c == ' ' || (9 ≤ c.toNat && c.toNat ≤ 13)

/-- The value of a string of decimal digits, most significant digit first,
continuing the value `acc`. -/
def digitsValue (acc : Nat) (ds : List Char) : Nat :=
  ds.foldl (fun a c => a * 10 + (c.toNat - 48)) acc

/-- The number that follows the sign: decimal digits, at least one, then
white space only.  Without a valid number the conversion fails. -/
def parseUnsigned (s : QByteArray) : Option Nat :=
  let ds := s.takeWhile Char.isDigit
  let trail := s.dropWhile Char.isDigit
  if ds.isEmpty || !trail.all isAsciiSpace then none else some (digitsValue 0 ds)

/-- `QByteArray::toInt()` in base 10.  The array is read up to its first NUL
byte; leading white space is skipped, a sign may precede the digits, white
space may follow them.  The result is 0 when the conversion fails or when the
number is not in the range of `int`. -/
def toInt (s : QByteArray) : Int :=
  let str := s.takeWhile (fun c => c != Char.ofNat 0)
  let body := str.dropWhile isAsciiSpace
  let negative := startsWithChar body '-'
  let digits := if negative || startsWithChar body '+' then body.drop 1 else body
  match parseUnsigned digits with
  | none => 0
  | some v =>
    let value : Int := if negative then - (v : Int) else (v : Int)
    if -2147483648 ≤ value ∧ value ≤ 2147483647 then value else 0

/-- The decimal digits of a number, least significant digit first (`fuel`
bounds the number of digits). -/
def decimalDigits : Nat → Nat → List Nat
  | 0, _ => []
  | fuel + 1, n => if n < 10 then [n] else (n % 10) :: decimalDigits fuel (n / 10)

/-- The character of a decimal digit. -/
def digitChar (d : Nat) : Char := Char.ofNat (48 + d)

/-- The decimal text of a natural number. -/
def decimalNat (n : Nat) : QByteArray :=
  ((decimalDigits (n + 1) n).map digitChar).reverse

/-- The decimal text of an integer, as `QByteArray::number` writes it. -/
def decimal (n : Int) : QByteArray :=
  if n < 0 then '-' :: decimalNat n.natAbs else decimalNat n.natAbs

/-- `QIODevice::readLine` (when `canReadLine`): the first line of the buffer
with its line feed, and the rest of the buffer; `none` when the buffer holds
no line feed (`canReadLine` is false). -/
def readLine : QByteArray → Option (QByteArray × QByteArray)
  | [] => none
  | c :: cs =>
    if c = '\n' then some ([c], cs)
    else
      match readLine cs with
      | none => none
      | some (line, rest) => some (c :: line, rest)

/-! ## The stub protocol (Unix variant) -/

/-- `ConsoleProcess::emitError`. -/
def emitError (c : ConsoleProcess) (err : ProcessError) (errorString : QString) :
    ConsoleProcess :=
  { c with m_error := err, m_errorString := errorString,
           emitted := c.emitted ++ [Signal.errorOccurred err] }

/-- `ConsoleProcess::finish`. -/
def finish (c : ConsoleProcess) (exitCode : Int) (exitStatus : ExitStatus) : ConsoleProcess :=
  { c with m_processId := 0, m_exitCode := exitCode, m_appStatus := exitStatus,
           emitted := c.emitted ++ [Signal.finished] }

/-- The write of one control byte, `c` being the byte:
`if (d->m_stubSocket && d->m_stubSocket->isWritable()) { write(..., 1); flush(); }`. -/
def writeControl (c : ConsoleProcess) (byte : Char) : ConsoleProcess :=
  match c.m_stubSocket with
  | some sock => if sock.writable then { c with written := c.written ++ [byte] } else c
  | none => c

/-- `ConsoleProcess::kickoffProcess`. -/
def kickoffProcess (c : ConsoleProcess) : ConsoleProcess := writeControl c 'c'

/-- `ConsoleProcess::interruptProcess`. -/
def interruptProcess (c : ConsoleProcess) : ConsoleProcess := writeControl c 'i'

/-- `ConsoleProcess::killProcess`. -/
def killProcess (c : ConsoleProcess) : ConsoleProcess :=
  { writeControl c 'k' with m_processId := 0 }

/-- The body of the loop of `readStubOutput` for the line `out` (the line feed
chopped).  `errorMsg` is the platform text of an error code (`strerror`).  The
second component is false when the loop is left with `break`. -/
def stubLine (errorMsg : Int → QString) (c : ConsoleProcess) (out : QByteArray) :
    ConsoleProcess × Bool :=
  if startsWith out "err:chdir ".toList then
    (emitError c ProcessError.FailedToStart
      (msgCannotChangeToWorkDir c.m_workingDir (errorMsg (toInt (out.drop 10)))), true)
  else if startsWith out "err:exec ".toList then
    (emitError c ProcessError.FailedToStart
      (msgCannotExecute c.m_commandLine.executable (errorMsg (toInt (out.drop 9)))), true)
  else if startsWith out "spid ".toList then
    ({ c with m_tempFile := none }, true)
  else if startsWith out "pid ".toList then
    ({ c with m_processId := toInt (out.drop 4), emitted := c.emitted ++ [Signal.started] }, true)
  else if startsWith out "exit ".toList then
    (finish c (toInt (out.drop 5)) ExitStatus.NormalExit, true)
  else if startsWith out "crash ".toList then
    (finish c (toInt (out.drop 6)) ExitStatus.CrashExit, true)
  else
    let c1 := emitError c ProcessError.UnknownError (msgUnexpectedOutput out)
    ({ c1 with m_process := c1.m_process.terminate }, false)

/-- The loop of `readStubOutput`, at most `fuel` iterations.  The result is
`none` when `m_stubSocket` is null, which the code dereferences, or when the
iterations are used up. -/
def readStubOutputLoop (errorMsg : Int → QString) : Nat → ConsoleProcess → Option ConsoleProcess
  | 0, _ => none
  | fuel + 1, c =>
    match c.m_stubSocket with
    | none => none
    | some sock =>
      match readLine sock.readBuffer with
      | none => some c
      | some (line, rest) =>
        let c1 := { c with m_stubSocket := some { sock with readBuffer := rest } }
        let r := stubLine errorMsg c1 line.dropLast
        if r.2 then readStubOutputLoop errorMsg fuel r.1 else some r.1

/-- The length of the read buffer of the stub socket. -/
def pendingBytes (c : ConsoleProcess) : Nat :=
  match c.m_stubSocket with
  | some sock => sock.readBuffer.length
  | none => 0

/-- `ConsoleProcess::readStubOutput` (Unix variant).  Every iteration takes a
line out of the buffer, so one iteration more than the buffer has bytes is
enough. -/
def readStubOutput (errorMsg : Int → QString) (c : ConsoleProcess) : Option ConsoleProcess :=
  readStubOutputLoop errorMsg (pendingBytes c + 1) c

/-- Bytes arrive from the stub: they are appended to the read buffer. -/
def socketReceive (bytes : QByteArray) (c : ConsoleProcess) : ConsoleProcess :=
  match c.m_stubSocket with
  | some sock => { c with m_stubSocket := some { sock with readBuffer := sock.readBuffer ++ bytes } }
  | none => c

/-- `ConsoleProcess::stubServerShutdown` (Unix variant). -/
def stubServerShutdown (errorMsg : Int → QString) (c : ConsoleProcess) : Option ConsoleProcess :=
  let r :=
    match c.m_stubSocket with
    | some _ => readStubOutput errorMsg c
    | none => some c
  r.map fun c1 =>
    let c2 := { c1 with m_stubSocket := none }
    if c2.m_stubServer.listening then
      { c2 with m_stubServer := { c2.m_stubServer with listening := false },
                removedDirs := c2.removedDirs ++ [c2.m_stubServerDir] }
    else c2

/-- The first statement of `stubExited`:
`if (d->m_stubSocket && d->m_stubSocket->state() == QLocalSocket::ConnectedState)
d->m_stubSocket->waitForDisconnected();`, after which the socket is no longer
connected.  Bytes that arrive before the disconnection are received with
`socketReceive`. -/
def waitForDisconnected (c : ConsoleProcess) : ConsoleProcess :=
  match c.m_stubSocket with
  | some sock =>
    if sock.state = LocalSocketState.ConnectedState then
      { c with m_stubSocket := some { sock with state := LocalSocketState.UnconnectedState } }
    else c
  | none => c

/-- `ConsoleProcess::stubExited` (Unix variant), the slot of the
`disconnected` signal of the stub socket. -/
def stubExited (errorMsg : Int → QString) (c : ConsoleProcess) : Option ConsoleProcess :=
  (stubServerShutdown errorMsg (waitForDisconnected c)).map fun c1 =>
    let c2 := { c1 with m_tempFile := none }
    if c2.m_processId ≠ 0 then finish c2 (-1) ExitStatus.CrashExit else c2

/-! ## Starting the terminal (Unix variant) -/

/-- `ConsoleProcess::isRunning` (Unix variant). -/
def isRunning (c : ConsoleProcess) : Bool :=
  c.m_process.state != ProcessState.NotRunning ||
    (match c.m_stubSocket with
     | some sock => sock.isOpen
     | none => false)

/-- How the search for a private socket directory in `stubServerListen` ends:
the temporary file cannot be opened, `mkdir` fails with another error than
`EEXIST`, the server cannot listen in the directory, or the server listens. -/
inductive ListenOutcome where
  | tempFileFailed (errorString : QString)
  | mkdirFailed (dir : QString) (why : QString)
  | listenFailed (dir : QString) (errorString : QString)
  | listening (dir : QString)
deriving DecidableEq, Repr

/-- What `start` gets from the system and from the functions of `Utils` that
it calls. -/
structure StartHost where
  /-- `ProcessArgs::prepareArgs` on the host: command, environment, working
  directory, `abortOnMeta`. -/
  prepareArgs : QString → Environment → QString → Bool → ProcessArgs × SplitError
  /-- `ProcessArgs::quoteArg`. -/
  quoteArg : QString → QString
  /-- `ProcessArgs::joinArgs`. -/
  joinArgs : QStringList → QString
  /-- The value of `terminalEmulator()`. -/
  terminal : TerminalCommand
  /-- The environment variable `SHELL`, when set. -/
  shell : Option QString
  /-- The temporary names for which `mkdir` fails with `EEXIST`, in turn. -/
  existingDirs : List QString
  /-- The end of the directory search of `stubServerListen`. -/
  listenOutcome : ListenOutcome
  /-- `QTemporaryFile::open` for the environment: the error string or the
  file name. -/
  tempFile : Except QString QString
  /-- The environment is written and flushed completely. -/
  tempFileWritten : Bool
  /-- `QString::toLocal8Bit`: the bytes of a string in the encoding of the
  locale. -/
  toLocal8Bit : QString → QByteArray
  /-- `QCoreApplication::applicationDirPath()`. -/
  applicationDirPath : QString
  /-- The value of `RELATIVE_LIBEXEC_PATH`. -/
  relativeLibexecPath : QString
  /-- `getpid()`. -/
  pid : Int
  /-- `waitForStarted` of the terminal process. -/
  terminalStarts : Bool

/-- `ConsoleProcess::stubServerListen` (Unix variant): the changed object and
the error message, empty on success. -/
def stubServerListen (h : StartHost) (c : ConsoleProcess) : ConsoleProcess × QString :=
  let c1 := h.existingDirs.foldl (fun c dir => { c with m_stubServerDir := dir }) c
  match h.listenOutcome with
  | ListenOutcome.tempFileFailed e => (c1, msgCannotCreateTempFile e)
  | ListenOutcome.mkdirFailed dir why =>
    ({ c1 with m_stubServerDir := dir }, msgCannotCreateTempDir dir why)
  | ListenOutcome.listenFailed dir e =>
    ({ c1 with m_stubServerDir := dir, removedDirs := c1.removedDirs ++ [dir] },
      "Cannot create socket \"".toList ++ (dir ++ "/stub-socket".toList) ++ "\": ".toList ++ e)
  | ListenOutcome.listening dir =>
    ({ c1 with m_stubServerDir := dir,
               m_stubServer := ⟨true, dir ++ "/stub-socket".toList⟩ }, [])

/-- `ConsoleProcess::cleanupAfterStartFailure`. -/
def cleanupAfterStartFailure (errorMsg : Int → QString) (c : ConsoleProcess)
    (errorMessage : QString) : Option ConsoleProcess :=
  (stubServerShutdown errorMsg c).map fun c1 =>
    { emitError c1 ProcessError.FailedToStart errorMessage with m_tempFile := none }

/-- The command of `start` (lines 541-567): the program and the arguments
handed to the stub, or the message of the error that ends `start`. -/
def startCommand (h : StartHost) (c : ConsoleProcess) : Except QString (QString × ProcessArgs) :=
  let r := h.prepareArgs c.m_commandLine.arguments c.m_environment c.m_workingDir
    c.m_abortOnMetaChars
  if r.2 = SplitError.SplitOk then
    Except.ok (c.m_commandLine.executable, r.1)
  else if r.2 ≠ SplitError.FoundMeta then
    Except.error "Quoting error in command.".toList
  else if c.m_mode = Mode.Debug then
    Except.error
      "Debugging complex shell commands in a terminal is currently not supported.".toList
  else
    Except.ok (h.shell.getD "/bin/sh".toList,
      ProcessArgs.createUnixArgs
        ["-c".toList, h.quoteArg c.m_commandLine.executable ++ ' ' :: c.m_commandLine.arguments])

/-- The bytes of the environment file of `start` (lines 598-602): for every
variable string its local 8-bit encoding `l8b` with the terminating NUL, as
`contents.append(l8b.constData(), l8b.size() + 1)` appends them. -/
def environmentContents (toLocal8Bit : QString → QByteArray) (env : QStringList) :
    QByteArray :=
  (env.map (fun var => toLocal8Bit var ++ [Char.ofNat 0])).flatten

/-- The end of `start` (lines 609-641): the terminal emulator is started with
the stub and the command as arguments, and the connect timer is armed. -/
def startTerminal (errorMsg : Int → QString) (h : StartHost) (c : ConsoleProcess)
    (terminalArgs : ProcessArgs) (pcmd : QString) (pargs : ProcessArgs) :
    Option ConsoleProcess :=
  let stubPath := h.applicationDirPath ++ "/".toList ++ h.relativeLibexecPath
    ++ "/qtcreator_process_stub".toList
  let allArgs := terminalArgs.toUnixArgs
    ++ (if c.m_runAsRoot then ["sudo".toList, "-A".toList] else [])
    ++ [stubPath, modeOption c.m_mode, c.m_stubServer.fullServerName, msgPromptToClose,
        c.m_workingDir,
        (match c.m_tempFile with
         | some f => f.fileName
         | none => []),
        decimal h.pid, pcmd]
    ++ pargs.toUnixArgs
  let allArgs := if h.terminal.needsQuotes then [h.joinArgs allArgs] else allArgs
  let c1 := { c with m_process :=
    { c.m_process with environment := c.m_environment,
                       command := (h.terminal.command, allArgs),
                       state := if h.terminalStarts then ProcessState.Running
                                else ProcessState.NotRunning } }
  if !h.terminalStarts then
    cleanupAfterStartFailure errorMsg c1
      ("Cannot start the terminal emulator \"".toList ++ h.terminal.command
        ++ "\", change the setting in the Environment options.".toList)
  else
    some { c1 with m_stubConnectTimer := some ⟨true, 10000, true⟩,
                   orphanedTimers := c1.orphanedTimers ++ c1.m_stubConnectTimer.toList }

/-- The environment file of `start` (lines 591-607), then the terminal. -/
def startEnvironment (errorMsg : Int → QString) (h : StartHost) (c : ConsoleProcess)
    (terminalArgs : ProcessArgs) (pcmd : QString) (pargs : ProcessArgs) :
    Option ConsoleProcess :=
  let env := c.m_environment.toStringList
  if !env.isEmpty then
    match h.tempFile with
    | Except.error why =>
      cleanupAfterStartFailure errorMsg { c with m_tempFile := some ⟨[], []⟩ }
        (msgCannotCreateTempFile why)
    | Except.ok name =>
      if !h.tempFileWritten then
        cleanupAfterStartFailure errorMsg { c with m_tempFile := some ⟨name, []⟩ }
          msgCannotWriteTempFile
      else
        startTerminal errorMsg h
          { c with m_tempFile := some ⟨name, environmentContents h.toLocal8Bit env⟩ }
          terminalArgs pcmd pargs
  else
    startTerminal errorMsg h c terminalArgs pcmd pargs

/-- `ConsoleProcess::start` (Unix variant). -/
def start (errorMsg : Int → QString) (h : StartHost) (c : ConsoleProcess) :
    Option ConsoleProcess :=
  if isRunning c then some c
  else
    let c := { c with m_errorString := [], m_error := ProcessError.UnknownError }
    match startCommand h c with
    | Except.error msg => some (emitError c ProcessError.FailedToStart msg)
    | Except.ok (pcmd, pargs) =>
      let q := h.prepareArgs h.terminal.executeArgs c.m_environment c.m_workingDir true
      if q.2 ≠ SplitError.SplitOk then
        some (emitError c ProcessError.FailedToStart
          (if q.2 = SplitError.BadQuoting then "Quoting error in terminal command.".toList
           else "Terminal command may not be a shell command.".toList))
      else
        let r := stubServerListen h c
        if !r.2.isEmpty then
          some (emitError r.1 ProcessError.FailedToStart (msgCommChannelFailed r.2))
        else
          startEnvironment errorMsg h
            { r.1 with m_environment := r.1.m_environment.unset "TERM".toList }
            q.1 pcmd pargs

/-! ## Scenarios -/

/-- A session whose stub socket holds the bytes `buffer`: a new
`ConsoleProcess` with a connected, writable socket. -/
def sessionWithBuffer (buffer : QByteArray) : ConsoleProcess :=
  { ConsoleProcess.new with
    m_stubSocket := some ⟨buffer, true, true, LocalSocketState.ConnectedState⟩ }

/-- The control operations of the owner of a running session. -/
inductive ControlOp where
  | kickoff
  | interrupt
  | kill
deriving DecidableEq, Repr

/-- The member function of a control operation. -/
def ControlOp.apply (op : ControlOp) (c : ConsoleProcess) : ConsoleProcess :=
  match op with
  | ControlOp.kickoff => kickoffProcess c
  | ControlOp.interrupt => interruptProcess c
  | ControlOp.kill => killProcess c

/-- The recognised line prefixes of the stub protocol, in the order in which
`readStubOutput` tests them. -/
def stubPrefixes : List QByteArray :=
  ["err:chdir ".toList, "err:exec ".toList, "spid ".toList, "pid ".toList, "exit ".toList,
   "crash ".toList]

/-- The cases of the loop body of `readStubOutput`. -/
inductive StubCase where
  | errChdir
  | errExec
  | spid
  | pid
  | exit
  | crash
  | unexpected
deriving DecidableEq, Repr

/-- The condition of a case: the line starts with the prefix of the case; the
line is unexpected when it starts with none of the prefixes. -/
def StubCase.holds (k : StubCase) (out : QByteArray) : Bool :=
  match k with
  | StubCase.errChdir => startsWith out "err:chdir ".toList
  | StubCase.errExec => startsWith out "err:exec ".toList
  | StubCase.spid => startsWith out "spid ".toList
  | StubCase.pid => startsWith out "pid ".toList
  | StubCase.exit => startsWith out "exit ".toList
  | StubCase.crash => startsWith out "crash ".toList
  | StubCase.unexpected => !stubPrefixes.any (startsWith out)

/-- The case that the `if` chain of `readStubOutput` takes for a line. -/
def lineCase (out : QByteArray) : StubCase :=
  if startsWith out "err:chdir ".toList then StubCase.errChdir
  else if startsWith out "err:exec ".toList then StubCase.errExec
  else if startsWith out "spid ".toList then StubCase.spid
  else if startsWith out "pid ".toList then StubCase.pid
  else if startsWith out "exit ".toList then StubCase.exit
  else if startsWith out "crash ".toList then StubCase.crash
  else StubCase.unexpected

/-- The branch of the loop body of `readStubOutput` for each case. -/
def stubCaseStep (errorMsg : Int → QString) (c : ConsoleProcess) (out : QByteArray) :
    StubCase → ConsoleProcess × Bool
  | StubCase.errChdir =>
    (emitError c ProcessError.FailedToStart
      (msgCannotChangeToWorkDir c.m_workingDir (errorMsg (toInt (out.drop 10)))), true)
  | StubCase.errExec =>
    (emitError c ProcessError.FailedToStart
      (msgCannotExecute c.m_commandLine.executable (errorMsg (toInt (out.drop 9)))), true)
  | StubCase.spid => ({ c with m_tempFile := none }, true)
  | StubCase.pid =>
    ({ c with m_processId := toInt (out.drop 4), emitted := c.emitted ++ [Signal.started] }, true)
  | StubCase.exit => (finish c (toInt (out.drop 5)) ExitStatus.NormalExit, true)
  | StubCase.crash => (finish c (toInt (out.drop 6)) ExitStatus.CrashExit, true)
  | StubCase.unexpected =>
    ({ emitError c ProcessError.UnknownError (msgUnexpectedOutput out) with
       m_process := c.m_process.terminate }, false)

/-- Two prefixes that differ within their common length. -/
def prefixesDiffer (p q : QByteArray) : Bool :=
  p.take (min p.length q.length) != q.take (min p.length q.length)

/-- The stub socket exists and is writable:
`d->m_stubSocket && d->m_stubSocket->isWritable()`. -/
def canWrite (c : ConsoleProcess) : Bool :=
  match c.m_stubSocket with
  | some sock => sock.writable
  | none => false

/-- A host for `start` on which `prepareArgs` reports `FoundMeta` for a
command with a vertical bar and splits at spaces otherwise. -/
def exampleHost : StartHost :=
  { prepareArgs := fun cmd _ _ _ =>
      if cmd.contains '|' then (⟨[]⟩, SplitError.FoundMeta)
      else (⟨cmd.splitOn ' '⟩, SplitError.SplitOk)
    quoteArg := fun s => '"' :: (s ++ ['"'])
    joinArgs := fun l => [' '].intercalate l
    terminal := ⟨"xterm".toList, [], "-e".toList, false⟩
    shell := none
    existingDirs := []
    listenOutcome := ListenOutcome.listening "/tmp/qt_temp.abc".toList
    tempFile := Except.ok "/tmp/qt_temp.def".toList
    tempFileWritten := true
    toLocal8Bit := fun s => s
    applicationDirPath := "/opt/qtcreator/bin".toList
    relativeLibexecPath := "../libexec/qtcreator".toList
    pid := 1000
    terminalStarts := true }

/-- A session that is about to debug `/bin/echo a | b`. -/
def debugPipeSession : ConsoleProcess :=
  { ConsoleProcess.new with
    m_mode := Mode.Debug
    m_commandLine := ⟨"/bin/echo".toList, "a | b".toList⟩ }

/-! ## Backslash runs of an argument -/

/-- A maximal run of backslashes of a string: its length and the character
that follows it, `none` at the end of the string. -/
structure BackslashRun where
  backslashes : Nat
  next : Option Char
deriving DecidableEq, Repr

/-- The maximal backslash runs of a string, from the left, each with the
character that follows it; `n` backslashes have been read before the string.
Every character that is not a backslash ends a run, which may be empty. -/
def backslashRuns (n : Nat) : QString → List BackslashRun
  | [] => [⟨n, none⟩]
  | c :: cs =>
    if c = '\\' then backslashRuns (n + 1) cs else ⟨n, some c⟩ :: backslashRuns 0 cs

/-- The text of a run: the backslashes and the character that follows. -/
def BackslashRun.text (r : BackslashRun) : QString :=
  List.replicate r.backslashes '\\' ++ r.next.toList

/-- The rule for one run, as the specification words it: a run of `n`
backslashes followed by a double quote becomes `2n` backslashes followed by
backslash and double quote; every other run keeps its text. -/
def BackslashRun.escaped (r : BackslashRun) : QString :=
  if r.next = some '"' then List.replicate (2 * r.backslashes) '\\' ++ ['\\', '"']
  else r.text

/-- The escaping that the specification describes: the rule applied to every
maximal backslash run of the argument. -/
def escapeRuns (arg : QString) : QString :=
  ((backslashRuns 0 arg).map BackslashRun.escaped).flatten

/-! ## The parts of `start` -/

/-- The part of `start` after the command is settled (lines 569-641): the
arguments of the terminal, the stub server, the environment file and the
terminal process; `pcmd` and `pargs` are the program and the arguments handed
to the stub. -/
def startLaunch (errorMsg : Int → QString) (h : StartHost) (c : ConsoleProcess)
    (pcmd : QString) (pargs : ProcessArgs) : Option ConsoleProcess :=
  let q := h.prepareArgs h.terminal.executeArgs c.m_environment c.m_workingDir true
  if q.2 ≠ SplitError.SplitOk then
    some (emitError c ProcessError.FailedToStart
      (if q.2 = SplitError.BadQuoting then "Quoting error in terminal command.".toList
       else "Terminal command may not be a shell command.".toList))
  else
    let r := stubServerListen h c
    if !r.2.isEmpty then
      some (emitError r.1 ProcessError.FailedToStart (msgCommChannelFailed r.2))
    else
      startEnvironment errorMsg h
        { r.1 with m_environment := r.1.m_environment.unset "TERM".toList }
        q.1 pcmd pargs

/-- A session that is about to run `/bin/echo a | b` with the variables
`TERM=xterm` and `A=b`. -/
def runPipeSession : ConsoleProcess :=
  { ConsoleProcess.new with
    m_commandLine := ⟨"/bin/echo".toList, "a | b".toList⟩
    m_environment := [("TERM".toList, "xterm".toList), ("A".toList, "b".toList)] }

/-- A monitor of the lines that the stub sends: in the monitor state `s` the
line `out` is refused (`δ s out = none`) or leads to a next state.  The lines
of `buf` are accepted from the state `s`; `cur` holds the bytes of the current
line read so far, the last one first, and an incomplete last line is not
looked at. -/
def linesAccepted {S : Type} (δ : S → QByteArray → Option S) (s : S) (cur : QByteArray) :
    QByteArray → Bool
  | [] => true
  | c :: cs =>
    if c = '\n' then
      match δ s cur.reverse with
      | none => false
      | some s' => linesAccepted δ s' [] cs
    else linesAccepted δ s (c :: cur) cs

/-- `ConsoleProcess::killStub` (Unix variant). -/
def killStub (errorMsg : Int → QString) (c : ConsoleProcess) : Option ConsoleProcess :=
  stubServerShutdown errorMsg (writeControl c 's')

/-- `ConsoleProcess::stopProcess` on a Unix host.  `finishedOnTerminate` is
the result of `waitForFinished(1000)` after `terminate()`, `finishedOnKill`
the result of `waitForFinished()` after `kill()`. -/
def stopProcess (errorMsg : Int → QString) (finishedOnTerminate finishedOnKill : Bool)
    (c : ConsoleProcess) : Option ConsoleProcess :=
  (killStub errorMsg (killProcess c)).map fun c1 =>
    if isRunning c1 then
      let p1 := c1.m_process.terminate
      if finishedOnTerminate then
        { c1 with m_process := { p1 with state := ProcessState.NotRunning } }
      else if p1.state = ProcessState.Running then
        { c1 with m_process :=
          { p1 with killCalls := p1.killCalls + 1,
                    state := if finishedOnKill then ProcessState.NotRunning else p1.state } }
      else { c1 with m_process := p1 }
    else c1

/-- `ConsoleProcess::stubConnectionAvailable` on a Unix host, `pending` being
the socket that `nextPendingConnection()` returns. -/
def stubConnectionAvailable (pending : LocalSocket) (c : ConsoleProcess) : ConsoleProcess :=
  { c with m_stubConnectTimer := none, m_stubSocket := some pending }

/-- What happens to a connected session besides the disconnection: the stub
sends bytes, upon which `readyRead` runs `readStubOutput`, or the owner calls
a control operation. -/
inductive SessionEvent where
  | received (bytes : QByteArray)
  | control (op : ControlOp)
deriving DecidableEq, Repr

/-- The bytes that an event brings from the stub. -/
def SessionEvent.bytes : SessionEvent → QByteArray
  | SessionEvent.received bytes => bytes
  | SessionEvent.control _ => []

/-- The bytes that the stub sends during the events. -/
def eventBytes (events : List SessionEvent) : QByteArray :=
  (events.map SessionEvent.bytes).flatten

/-- One event. -/
def runEvent (errorMsg : Int → QString) (e : SessionEvent) (c : ConsoleProcess) :
    Option ConsoleProcess :=
  match e with
  | SessionEvent.received bytes => readStubOutput errorMsg (socketReceive bytes c)
  | SessionEvent.control op => some (op.apply c)

/-- A sequence of events, the first one first. -/
def runEvents (errorMsg : Int → QString) : List SessionEvent → ConsoleProcess →
    Option ConsoleProcess
  | [], c => some c
  | e :: es, c =>
    match runEvent errorMsg e c with
    | none => none
    | some c1 => runEvents errorMsg es c1

/-- The monitor that accepts every line. -/
def anyLine : Unit → QByteArray → Option Unit := fun _ _ => some ()

/-- The monitor that refuses `pid` lines. -/
def noPidLine : Unit → QByteArray → Option Unit :=
  fun _ out => if startsWith out "pid ".toList then none else some ()

/-- The monitor that accepts at most one `pid` line; its state tells whether
the `pid` line has been seen. -/
def onePidLine : Bool → QByteArray → Option Bool :=
  fun seen out =>
    if startsWith out "pid ".toList then (if seen then none else some true) else some seen

/-- A step of a session: a public operation of the owner (`start` with what
the host answers, `kickoffProcess`, `interruptProcess`, `killProcess`,
`killStub`, `stopProcess` with the answers of the terminal process), or
something the stub does (it connects, it sends bytes, its connection ends). -/
inductive SessionStep where
  | start (h : StartHost)
  | kickoffProcess
  | interruptProcess
  | killProcess
  | killStub
  | stopProcess (finishedOnTerminate finishedOnKill : Bool)
  | connected (pending : LocalSocket)
  | received (bytes : QByteArray)
  | disconnected

/-- The step calls `killStub`. -/
def SessionStep.stopsStub : SessionStep → Bool
  | SessionStep.killStub => true
  | SessionStep.stopProcess _ _ => true
  | _ => false

/-- One step: the member function or the slot that runs. -/
def runStep (errorMsg : Int → QString) (step : SessionStep) (c : ConsoleProcess) :
    Option ConsoleProcess :=
  match step with
  | SessionStep.start h => start errorMsg h c
  | SessionStep.kickoffProcess => some (kickoffProcess c)
  | SessionStep.interruptProcess => some (interruptProcess c)
  | SessionStep.killProcess => some (killProcess c)
  | SessionStep.killStub => killStub errorMsg c
  | SessionStep.stopProcess t k => stopProcess errorMsg t k c
  | SessionStep.connected pending => some (stubConnectionAvailable pending c)
  | SessionStep.received bytes => readStubOutput errorMsg (socketReceive bytes c)
  | SessionStep.disconnected => stubExited errorMsg c

/-- A sequence of steps, the first one first. -/
def runSteps (errorMsg : Int → QString) : List SessionStep → ConsoleProcess →
    Option ConsoleProcess
  | [], c => some c
  | step :: steps, c =>
    match runStep errorMsg step c with
    | none => none
    | some c1 => runSteps errorMsg steps c1

/-- A session in the running state: the stub is connected and has reported
the pid 4242. -/
def runningSession : ConsoleProcess :=
  { sessionWithBuffer [] with m_processId := 4242, emitted := [Signal.started] }

/-- The steps of a short session: the stub connects, the owner kicks the
process off and then stops the stub. -/
def kickoffThenKillStub : List SessionStep :=
  [SessionStep.connected ⟨[], true, true, LocalSocketState.ConnectedState⟩,
   SessionStep.kickoffProcess, SessionStep.killStub]

/-- The session after the steps `kickoffThenKillStub`. -/
def stoppedSession : ConsoleProcess :=
  (runSteps (fun _ => []) kickoffThenKillStub ConsoleProcess.new).getD ConsoleProcess.new

/-! ## The occurrences of a session, line by line -/

/-- What happens in a connected session before the channel disconnects: a
line of the stub arrives and is read, or the owner calls an operation. -/
inductive Occurrence where
  | line (out : QByteArray)
  | kickoffProcess
  | interruptProcess
  | killProcess
  | stopProcess (finishedOnTerminate finishedOnKill : Bool)
deriving DecidableEq, Repr

/-- The step of the session that an occurrence is: a line arrives with its
line feed. -/
def Occurrence.step : Occurrence → SessionStep
  | Occurrence.line out => SessionStep.received (out ++ ['\n'])
  | Occurrence.kickoffProcess => SessionStep.kickoffProcess
  | Occurrence.interruptProcess => SessionStep.interruptProcess
  | Occurrence.killProcess => SessionStep.killProcess
  | Occurrence.stopProcess t k => SessionStep.stopProcess t k

/-- A connected session with an environment file, the line `spid 77` in the
buffer of the stub socket. -/
def spidSession : ConsoleProcess :=
  { sessionWithBuffer "spid 77\n".toList with
    m_tempFile := some ⟨"/tmp/qt_temp.env".toList, "A=b".toList⟩ }

/-! ## Terminal commands -/

/-- The UTF-16 code units of a character: one unit below `0x10000`, a high
and a low surrogate from there on. -/
def utf16Units (c : Char) : List Nat :=
  if c.toNat < 0x10000 then [c.toNat]
  else [0xD800 + (c.toNat - 0x10000) / 0x400, 0xDC00 + (c.toNat - 0x10000) % 0x400]

/-- The UTF-16 code units of a `QString`. -/
def toUtf16 (s : QString) : List Nat := (s.map utf16Units).flatten

/-- The comparison of two sequences of code units by their numeric values,
the first difference deciding, a proper prefix being less. -/
def unitsLess : List Nat → List Nat → Bool
  | _, [] => false
  | [], _ :: _ => true
  | a :: as, b :: bs => decide (a < b) || (a == b && unitsLess as bs)

/-- The operator `<` of `QString`: the case sensitive comparison of the
numeric values of the code units. -/
def stringLess (a b : QString) : Bool := unitsLess (toUtf16 a) (toUtf16 b)

/-- `TerminalCommand::operator==`. -/
def TerminalCommand.equals (t other : TerminalCommand) : Bool :=
  other.command == t.command && other.openArgs == t.openArgs
    && other.executeArgs == t.executeArgs

/-- `TerminalCommand::operator<`. -/
def TerminalCommand.less (t other : TerminalCommand) : Bool :=
  if t.command == other.command then
    if t.openArgs == other.openArgs then
      stringLess t.executeArgs other.executeArgs
    else
      stringLess t.openArgs other.openArgs
  else
    stringLess t.command other.command

/-- What the terminal functions get from the host and from the functions of
`Utils` and Qt that they call. -/
structure TerminalHost where
  /-- `HostOsInfo::isMacHost()`. -/
  isMacHost : Bool
  /-- `HostOsInfo::isAnyUnixHost()`. -/
  isAnyUnixHost : Bool
  /-- `QCoreApplication::applicationDirPath()`. -/
  applicationDirPath : QString
  /-- `QFileInfo::exists`. -/
  fileExists : QString → Bool
  /-- `Environment::systemEnvironment().searchInPath(...)` as a string, empty
  when the command is not found. -/
  searchInPath : QString → QString
  /-- The value of `needsQuotes` of a `TerminalCommand` that is built without
  it (the declaration of the type is in the header). -/
  needsQuotesDefault : Bool
  /-- `QString::trimmed`. -/
  trimmed : QString → QString
  /-- `ProcessArgs::splitArgs`. -/
  splitArgs : QString → QStringList
  /-- `ProcessArgs::quoteArgUnix`. -/
  quoteArgUnix : QString → QString

/-- The table `knownTerminals`; `q` is the value of `needsQuotes` where the
table leaves it out. -/
def knownTerminals (q : Bool) : List TerminalCommand :=
  [⟨"x-terminal-emulator".toList, [], "-e".toList, q⟩,
   ⟨"xdg-terminal".toList, [], [], true⟩,
   ⟨"xterm".toList, [], "-e".toList, q⟩,
   ⟨"aterm".toList, [], "-e".toList, q⟩,
   ⟨"Eterm".toList, [], "-e".toList, q⟩,
   ⟨"rxvt".toList, [], "-e".toList, q⟩,
   ⟨"urxvt".toList, [], "-e".toList, q⟩,
   ⟨"xfce4-terminal".toList, [], "-x".toList, q⟩,
   ⟨"konsole".toList, "--separate --workdir .".toList, "-e".toList, q⟩,
   ⟨"gnome-terminal".toList, [], "--".toList, q⟩]

/-- `ConsoleProcess::defaultTerminalEmulator`.  `defaultTerm` is the value of
the static variable of the function at the call; the result is the value that
the call returns, which is also the value of the static variable after it. -/
def defaultTerminalEmulator (h : TerminalHost) (defaultTerm : TerminalCommand) :
    TerminalCommand :=
  if defaultTerm.command.isEmpty then
    if h.isMacHost then
      let termCmd := h.applicationDirPath ++ "/../Resources/scripts/openTerminal.py".toList
      if h.fileExists termCmd then
        ⟨termCmd, [], [], h.needsQuotesDefault⟩
      else
        ⟨"/usr/X11/bin/xterm".toList, [], "-e".toList, h.needsQuotesDefault⟩
    else if h.isAnyUnixHost then
      match (knownTerminals h.needsQuotesDefault).find?
          (fun term => !(h.searchInPath term.command).isEmpty) with
      | some term => ⟨h.searchInPath term.command, term.openArgs, term.executeArgs,
          term.needsQuotes⟩
      | none => ⟨"xterm".toList, [], "-e".toList, h.needsQuotesDefault⟩
    else
      defaultTerm
  else
    defaultTerm

/-- One step of a stable sort by `operator<`: `t` is put in front of the first
element that is not less than `t`. -/
def insertSorted (t : TerminalCommand) : List TerminalCommand → List TerminalCommand
  | [] => [t]
  | x :: xs => if x.less t then x :: insertSorted t xs else t :: x :: xs

/-- `Utils::sort` of a container of terminal commands, that is
`std::stable_sort` with `operator<`: ascending, elements that are not ordered
by `operator<` keep their order. -/
def sort (l : List TerminalCommand) : List TerminalCommand :=
  l.foldr insertSorted []

/-- `ConsoleProcess::availableTerminalEmulators`, `defaultTerm` being the
static variable of `defaultTerminalEmulator`. -/
def availableTerminalEmulators (h : TerminalHost) (defaultTerm : TerminalCommand) :
    List TerminalCommand :=
  if h.isAnyUnixHost then
    let result := (knownTerminals h.needsQuotesDefault).filterMap fun term =>
      let command := h.searchInPath term.command
      if !command.isEmpty then
        some ⟨command, term.openArgs, term.executeArgs, h.needsQuotesDefault⟩
      else
        none
    let defaultTerm := defaultTerminalEmulator h defaultTerm
    let result := result.filter (fun t => !t.equals defaultTerm)
    defaultTerm :: sort result
  else
    []

/-- A `QSettings` store: the keys with their values, which are strings here. -/
abbrev Settings := List (QString × QString)

/-- The value stored for a key, when there is one. -/
def Settings.find : Settings → QString → Option QString
  | [], _ => none
  | kv :: rest, key => if kv.1 = key then some kv.2 else Settings.find rest key

/-- `QSettings::value(key).toString()`: the empty string for a missing key. -/
def Settings.value (s : Settings) (key : QString) : QString :=
  (s.find key).getD []

/-- `QSettings::contains`. -/
def Settings.contains (s : Settings) (key : QString) : Bool :=
  (s.find key).isSome

/-- `QSettings::setValue`. -/
def Settings.setValue (s : Settings) (key value : QString) : Settings :=
  (key, value) :: s.filter (fun kv => kv.1 != key)

/-- `QSettings::remove`: the setting `key` and the settings below it. -/
def Settings.remove (s : Settings) (key : QString) : Settings :=
  s.filter (fun kv => kv.1 != key && !(key ++ ['/']).isPrefixOf kv.1)

/-- The constant `kTerminalVersion`. -/
def kTerminalVersion : QString := "4.8".toList

/-- The constant `kTerminalVersionKey`. -/
def kTerminalVersionKey : QString := "General/Terminal/SettingsVersion".toList

/-- The constant `kTerminalCommandKey`. -/
def kTerminalCommandKey : QString := "General/Terminal/Command".toList

/-- The constant `kTerminalOpenOptionsKey`. -/
def kTerminalOpenOptionsKey : QString := "General/Terminal/OpenOptions".toList

/-- The constant `kTerminalExecuteOptionsKey`. -/
def kTerminalExecuteOptionsKey : QString := "General/Terminal/ExecuteOptions".toList

/-- `QStringList::join(' ')`. -/
def joinSpace (l : QStringList) : QString := [' '].intercalate l

/-- `ConsoleProcess::terminalEmulator`.  `s_settings` is the settings store,
when one is installed, `defaultTerm` the static variable of
`defaultTerminalEmulator`. -/
def terminalEmulator (h : TerminalHost) (s_settings : Option Settings)
    (defaultTerm : TerminalCommand) : TerminalCommand :=
  match s_settings with
  | some settings =>
    if h.isAnyUnixHost then
      if settings.value kTerminalVersionKey == kTerminalVersion then
        if settings.contains kTerminalCommandKey then
          ⟨settings.value kTerminalCommandKey, settings.value kTerminalOpenOptionsKey,
            settings.value kTerminalExecuteOptionsKey, h.needsQuotesDefault⟩
        else
          defaultTerminalEmulator h defaultTerm
      else
        let value := h.trimmed (settings.value "General/TerminalEmulator".toList)
        if !value.isEmpty then
          match h.splitArgs value with
          | command :: args =>
            ⟨command, [], joinSpace (args.map h.quoteArgUnix), h.needsQuotesDefault⟩
          | [] => defaultTerminalEmulator h defaultTerm
        else
          defaultTerminalEmulator h defaultTerm
    else
      defaultTerminalEmulator h defaultTerm
  | none => defaultTerminalEmulator h defaultTerm

/-- `ConsoleProcess::setTerminalEmulator`: the settings store after the
call. -/
def setTerminalEmulator (h : TerminalHost) (s_settings : Option Settings)
    (defaultTerm : TerminalCommand) (term : TerminalCommand) : Option Settings :=
  match s_settings with
  | some settings =>
    if h.isAnyUnixHost then
      let settings := settings.setValue kTerminalVersionKey kTerminalVersion
      if term.equals (defaultTerminalEmulator h defaultTerm) then
        some (((settings.remove kTerminalCommandKey).remove kTerminalOpenOptionsKey).remove
          kTerminalExecuteOptionsKey)
      else
        some (((settings.setValue kTerminalCommandKey term.command).setValue
          kTerminalOpenOptionsKey term.openArgs).setValue
          kTerminalExecuteOptionsKey term.executeArgs)
    else
      some settings
  | none => none

/-- A Linux host on which `konsole` and `xterm` are found in the `PATH`. -/
def linuxTerminalHost : TerminalHost :=
  { isMacHost := false
    isAnyUnixHost := true
    applicationDirPath := "/opt/qtcreator/bin".toList
    fileExists := fun _ => false
    searchInPath := fun command =>
      if command = "konsole".toList ∨ command = "xterm".toList then
        "/usr/bin/".toList ++ command
      else []
    needsQuotesDefault := false
    trimmed := fun s => s
    splitArgs := fun s => [s]
    quoteArgUnix := fun s => s }

/-- The value of a `TerminalCommand` after its default constructor. -/
def emptyTerminalCommand : TerminalCommand := ⟨[], [], [], false⟩

/-! ## Starting the stub (Windows variant) -/

/-- `PROCESS_INFORMATION`. -/
structure ProcessInformation where
  hProcess : Nat
  hThread : Nat
  dwProcessId : Nat
  dwThreadId : Nat
deriving DecidableEq, Repr

/-- A `ConsoleProcess` object under `Q_OS_WIN`: the members of
`ConsoleProcessPrivate` that the Windows variant of `start` reads or writes,
under their names, and the trace of the signals emitted so far. -/
structure WinConsoleProcess where
  m_mode : Mode
  m_workingDir : QString
  m_environment : Environment
  m_commandLine : CommandLine
  m_stubServer : LocalServer
  m_stubSocket : Option LocalSocket
  m_tempFile : Option TemporaryFile
  m_error : ProcessError
  m_errorString : QString
  m_pid : Option ProcessInformation
  /-- The process handle that `processFinishedNotifier` watches. -/
  processFinishedNotifier : Option Nat
  /-- The signals emitted so far, oldest first. -/
  emitted : List Signal
deriving DecidableEq, Repr

/-- A `ConsoleProcess` under `Q_OS_WIN` after its constructor. -/
def WinConsoleProcess.new : WinConsoleProcess :=
  { m_mode := Mode.Run
    m_workingDir := []
    m_environment := []
    m_commandLine := ⟨[], []⟩
    m_stubServer := ⟨false, []⟩
    m_stubSocket := none
    m_tempFile := none
    m_error := ProcessError.UnknownError
    m_errorString := []
    m_pid := none
    processFinishedNotifier := none
    emitted := [] }

/-- A timer after its `timeout` signal: a single-shot timer has stopped. -/
def Timer.expired (t : Timer) : Timer :=
  { t with active := !t.singleShot && t.active }

/-- The watchdog timers of the object that are alive: the one that
`m_stubConnectTimer` points to and the orphaned ones. -/
def watchdogTimers (c : ConsoleProcess) : List Timer :=
  c.m_stubConnectTimer.toList ++ c.orphanedTimers

/-- A `timeout` signal can still come: a watchdog timer is alive and
active. -/
def timeoutPending (c : ConsoleProcess) : Bool :=
  (watchdogTimers c).any (fun t => t.active)

/-- The `timeout` signal of the timer that `m_stubConnectTimer` points to,
with the slot `stopProcess` connected in `start`; `none` also when there is no
such active timer. -/
def stubConnectTimeout (errorMsg : Int → QString) (finishedOnTerminate finishedOnKill : Bool)
    (c : ConsoleProcess) : Option ConsoleProcess :=
  match c.m_stubConnectTimer with
  | some timer =>
    if timer.active then
      stopProcess errorMsg finishedOnTerminate finishedOnKill
        { c with m_stubConnectTimer := some timer.expired }
    else none
  | none => none

/-- The `timeout` signal of the orphaned timer number `i`, with the slot
`stopProcess` connected in `start`; `none` also when there is no such active
timer. -/
def orphanedTimeout (errorMsg : Int → QString) (finishedOnTerminate finishedOnKill : Bool)
    (i : Nat) (c : ConsoleProcess) : Option ConsoleProcess :=
  match c.orphanedTimers.get? i with
  | some timer =>
    if timer.active then
      stopProcess errorMsg finishedOnTerminate finishedOnKill
        { c with orphanedTimers := c.orphanedTimers.set i timer.expired }
    else none
  | none => none

/-- The steps of a session that is stopped by its owner while the stub has
not connected and is started again at once: the stub connects to the second
terminal and reports the child pid 5. -/
def restartSteps : List SessionStep :=
  [SessionStep.start exampleHost, SessionStep.stopProcess true true,
   SessionStep.start exampleHost,
   SessionStep.connected ⟨[], true, true, LocalSocketState.ConnectedState⟩,
   SessionStep.received "pid 5\n".toList]

end Utils

namespace LanguageServerProtocol

/-! ## The key registry (src/libs/languageserverprotocol/jsonkeys.h) -/

/-- A `Key`: the text of the field name. -/
abbrev Key := String

/-- The declarations of `jsonkeys.h` in the order of the file: the
identifier of each constant and its value. -/
def keyTable : List (String × Key) :=
  [("actionsKey", "actions"),
   ("activeParameterKey", "activeParameter"),
   ("activeParameterSupportKey", "activeParameterSupport"),
   ("activeSignatureKey", "activeSignature"),
   ("addedKey", "added"),
   ("additionalTextEditsKey", "additionalTextEdits"),
   ("alphaKey", "alpha"),
   ("appliedKey", "applied"),
   ("applyEditKey", "applyEdit"),
   ("argumentsKey", "arguments"),
   ("blueKey", "blue"),
   ("callHierarchyKey", "callHierarchy"),
   ("callHierarchyProviderKey", "callHierarchyProvider"),
   ("cancellableKey", "cancellable"),
   ("capabilitiesKey", "capabilities"),
   ("chKey", "ch"),
   ("changeKey", "change"),
   ("changeNotificationsKey", "changeNotifications"),
   ("changesKey", "changes"),
   ("characterKey", "character"),
   ("childrenKey", "children"),
   ("clientInfoKey", "clientInfo"),
   ("codeActionKey", "codeAction"),
   ("codeActionKindKey", "codeActionKind"),
   ("codeActionKindsKey", "codeActionKinds"),
   ("codeActionLiteralSupportKey", "codeActionLiteralSupport"),
   ("codeActionProviderKey", "codeActionProvider"),
   ("codeKey", "code"),
   ("codeLensKey", "codeLens"),
   ("codeLensProviderKey", "codeLensProvider"),
   ("colorInfoKey", "colorInfo"),
   ("colorKey", "color"),
   ("colorProviderKey", "colorProvider"),
   ("commandKey", "command"),
   ("commandsKey", "commands"),
   ("commitCharacterSupportKey", "commitCharacterSupport"),
   ("commitCharactersKey", "commitCharacters"),
   ("completionItemKey", "completionItem"),
   ("completionItemKindKey", "completionItemKind"),
   ("completionKey", "completion"),
   ("completionProviderKey", "completionProvider"),
   ("configurationKey", "configuration"),
   ("containerNameKey", "containerName"),
   ("contentChangesKey", "contentChanges"),
   ("contentFormatKey", "contentFormat"),
   ("contentKey", "value"),
   ("contentsKey", "contents"),
   ("contextKey", "context"),
   ("contextSupportKey", "contextSupport"),
   ("dataKey", "data"),
   ("definitionKey", "definition"),
   ("definitionProviderKey", "definitionProvider"),
   ("deleteCountKey", "deleteCount"),
   ("deltaKey", "delta"),
   ("deprecatedKey", "deprecated"),
   ("detailKey", "detail"),
   ("diagnosticsKey", "diagnostics"),
   ("didChangeConfigurationKey", "didChangeConfiguration"),
   ("didChangeWatchedFilesKey", "didChangeWatchedFiles"),
   ("didSaveKey", "didSave"),
   ("documentChangesKey", "documentChanges"),
   ("documentFormattingProviderKey", "documentFormattingProvider"),
   ("documentHighlightKey", "documentHighlight"),
   ("documentHighlightProviderKey", "documentHighlightProvider"),
   ("documentLinkKey", "documentLink"),
   ("documentLinkProviderKey", "documentLinkProvider"),
   ("documentRangeFormattingProviderKey", "documentRangeFormattingProvider"),
   ("documentSelectorKey", "documentSelector"),
   ("documentSymbolKey", "documentSymbol"),
   ("documentSymbolProviderKey", "documentSymbolProvider"),
   ("documentationFormatKey", "documentationFormat"),
   ("documentationKey", "documentation"),
   ("dynamicRegistrationKey", "dynamicRegistration"),
   ("editKey", "edit"),
   ("editsKey", "edits"),
   ("endKey", "end"),
   ("errorKey", "error"),
   ("eventKey", "event"),
   ("executeCommandKey", "executeCommand"),
   ("executeCommandProviderKey", "executeCommandProvider"),
   ("experimentalKey", "experimental"),
   ("filterTextKey", "filterText"),
   ("firstTriggerCharacterKey", "firstTriggerCharacter"),
   ("formatsKey", "formats"),
   ("formattingKey", "formatting"),
   ("fromKey", "from"),
   ("fromRangesKey", "fromRanges"),
   ("fullKey", "full"),
   ("greenKey", "green"),
   ("hierarchicalDocumentSymbolSupportKey", "hierarchicalDocumentSymbolSupport"),
   ("hoverKey", "hover"),
   ("hoverProviderKey", "hoverProvider"),
   ("idKey", "id"),
   ("ignoreIfExistsKey", "ignoreIfExists"),
   ("ignoreIfNotExistsKey", "ignoreIfNotExists"),
   ("implementationKey", "implementation"),
   ("implementationProviderKey", "implementationProvider"),
   ("includeDeclarationKey", "includeDeclaration"),
   ("includeTextKey", "includeText"),
   ("initializationOptionsKey", "initializationOptions"),
   ("insertFinalNewlineKey", "insertFinalNewline"),
   ("insertSpaceKey", "insertSpace"),
   ("insertTextFormatKey", "insertTextFormat"),
   ("insertTextKey", "insertText"),
   ("isIncompleteKey", "isIncomplete"),
   ("itemKey", "item"),
   ("itemsKey", "items"),
   ("jsonRpcVersionKey", "jsonrpc"),
   ("kindKey", "kind"),
   ("labelKey", "label"),
   ("languageIdKey", "languageId"),
   ("languageKey", "language"),
   ("legendKey", "legend"),
   ("limitKey", "limit"),
   ("lineKey", "line"),
   ("linesKey", "lines"),
   ("locationKey", "location"),
   ("messageKey", "message"),
   ("methodKey", "method"),
   ("moreTriggerCharacterKey", "moreTriggerCharacter"),
   ("multiLineTokenSupportKey", "multiLineTokenSupport"),
   ("nameKey", "name"),
   ("newNameKey", "newName"),
   ("newTextKey", "newText"),
   ("newUriKey", "newUri"),
   ("oldUriKey", "oldUri"),
   ("onTypeFormattingKey", "onTypeFormatting"),
   ("onlyKey", "only"),
   ("openCloseKey", "openClose"),
   ("optionsKey", "options"),
   ("overlappingTokenSupportKey", "overlappingTokenSupport"),
   ("overwriteKey", "overwrite"),
   ("parametersKey", "parameters"),
   ("paramsKey", "params"),
   ("patternKey", "pattern"),
   ("percentageKey", "percentage"),
   ("placeHolderKey", "placeHolder"),
   ("positionKey", "position"),
   ("prepareProviderKey", "prepareProvider"),
   ("prepareSupportKey", "prepareSupport"),
   ("previousResultIdKey", "previousResultId"),
   ("processIdKey", "processId"),
   ("queryKey", "query"),
   ("rangeFormattingKey", "rangeFormatting"),
   ("rangeKey", "range"),
   ("rangeLengthKey", "rangeLength"),
   ("reasonKey", "reason"),
   ("recursiveKey", "recursive"),
   ("redKey", "red"),
   ("referencesKey", "references"),
   ("referencesProviderKey", "referencesProvider"),
   ("refreshSupportKey", "refreshSupport"),
   ("registerOptionsKey", "registerOptions"),
   ("registrationsKey", "registrations"),
   ("removedKey", "removed"),
   ("renameKey", "rename"),
   ("renameProviderKey", "renameProvider"),
   ("requestsKey", "requests"),
   ("resolveProviderKey", "resolveProvider"),
   ("resourceOperationsKey", "resourceOperations"),
   ("resultIdKey", "resultId"),
   ("resultKey", "result"),
   ("retryKey", "retry"),
   ("rootPathKey", "rootPath"),
   ("rootUriKey", "rootUri"),
   ("saveKey", "save"),
   ("schemeKey", "scheme"),
   ("scopeUriKey", "scopeUri"),
   ("sectionKey", "section"),
   ("selectionRangeKey", "selectionRange"),
   ("semanticTokensKey", "semanticTokens"),
   ("semanticTokensProviderKey", "semanticTokensProvider"),
   ("serverInfoKey", "serverInfo"),
   ("settingsKey", "settings"),
   ("severityKey", "severity"),
   ("signatureHelpKey", "signatureHelp"),
   ("signatureHelpProviderKey", "signatureHelpProvider"),
   ("signatureInformationKey", "signatureInformation"),
   ("signaturesKey", "signatures"),
   ("snippetSupportKey", "snippetSupport"),
   ("sortTextKey", "sortText"),
   ("sourceKey", "source"),
   ("startKey", "start"),
   ("supportedKey", "supported"),
   ("symbolKey", "symbol"),
   ("symbolKindKey", "symbolKind"),
   ("syncKindKey", "syncKind"),
   ("synchronizationKey", "synchronization"),
   ("tabSizeKey", "tabSize"),
   ("tagsKey", "tags"),
   ("targetKey", "target"),
   ("textDocumentKey", "textDocument"),
   ("textDocumentSyncKey", "textDocumentSync"),
   ("textEditKey", "textEdit"),
   ("textKey", "text"),
   ("titleKey", "title"),
   ("toKey", "to"),
   ("tokenKey", "token"),
   ("tokenModifiersKey", "tokenModifiers"),
   ("tokenTypesKey", "tokenTypes"),
   ("traceKey", "trace"),
   ("triggerCharacterKey", "triggerCharacter"),
   ("triggerCharactersKey", "triggerCharacters"),
   ("triggerKindKey", "triggerKind"),
   ("trimFinalNewlinesKey", "trimFinalNewlines"),
   ("trimTrailingWhitespaceKey", "trimTrailingWhitespace"),
   ("typeDefinitionKey", "typeDefinition"),
   ("typeDefinitionProviderKey", "typeDefinitionProvider"),
   ("typeKey", "type"),
   ("unregistrationsKey", "unregistrations"),
   ("uriKey", "uri"),
   ("valueKey", "value"),
   ("valueSetKey", "valueSet"),
   ("versionKey", "version"),
   ("willSaveKey", "willSave"),
   ("willSaveWaitUntilKey", "willSaveWaitUntil"),
   ("windowKey", "window"),
   ("workDoneProgressKey", "workDoneProgress"),
   ("workspaceEditKey", "workspaceEdit"),
   ("workspaceFoldersKey", "workspaceFolders"),
   ("workspaceKey", "workspace"),
   ("workspaceSymbolProviderKey", "workspaceSymbolProvider")]

/-- The value of the constant with the identifier `name`, when the table
declares it. -/
def keyValue (name : String) : Option Key :=
  (keyTable.find? (fun entry => entry.1 == name)).map (fun entry => entry.2)

/-- The identifiers of the constants whose value is `text`. -/
def identifiersOf (text : Key) : List String :=
  (keyTable.filter (fun entry => entry.2 == text)).map (fun entry => entry.1)

/-- The entries whose identifier is not the value followed by `Key`. -/
def irregularKeys : List (String × Key) :=
  keyTable.filter (fun entry => entry.1 != entry.2 ++ "Key")

/-- The code points of a string. -/
def codePoints (s : String) : List Nat := s.toList.map Char.toNat

/-- The strings of the list stand in strictly ascending order (of the code
points, the first difference deciding). -/
def strictlyAscending : List String → Bool
  | a :: b :: rest =>
    Utils.unitsLess (codePoints a) (codePoints b) && strictlyAscending (b :: rest)
  | _ => true

/-! ## The message model -/

/-- The constant `jsonRpcVersionKey` of the registry. -/
def jsonRpcVersionKey : Key := (keyValue "jsonRpcVersionKey").getD ""

/-- The constant `idKey` of the registry. -/
def idKey : Key := (keyValue "idKey").getD ""

/-- The constant `methodKey` of the registry. -/
def methodKey : Key := (keyValue "methodKey").getD ""

/-- The constant `paramsKey` of the registry. -/
def paramsKey : Key := (keyValue "paramsKey").getD ""

/-- The constant `resultKey` of the registry. -/
def resultKey : Key := (keyValue "resultKey").getD ""

/-- The constant `errorKey` of the registry. -/
def errorKey : Key := (keyValue "errorKey").getD ""

/-- Modelled from the spec: the generic JSON representation under the typed
messages (`jsonobject.h` and the message classes are not among the sources),
"a tagged union/variant tree (object/array/string/number/bool/null) with
insertion-order-preserving object maps".  Numbers are the integers. -/
inductive JsonValue where
  | null : JsonValue
  | bool (b : Bool) : JsonValue
  | number (n : Int) : JsonValue
  | string (s : String) : JsonValue
  | array (items : List JsonValue) : JsonValue
  | object (fields : List (Key × JsonValue)) : JsonValue

/-- Modelled from the spec: the value of the field `key` of an object, the
first one in the order of insertion. -/
def field : List (Key × JsonValue) → Key → Option JsonValue
  | [], _ => none
  | f :: rest, key => if f.1 = key then some f.2 else field rest key

/-- Modelled from the spec: the `id` of a request, a number or a string as
in JSON-RPC 2.0. -/
inductive MessageId where
  | number (n : Int)
  | text (s : String)
deriving DecidableEq, Repr

/-- Modelled from the spec: the JSON value of an `id`. -/
def MessageId.toJson : MessageId → JsonValue
  | MessageId.number n => JsonValue.number n
  | MessageId.text s => JsonValue.string s

/-- Modelled from the spec: the `id` that a JSON value holds. -/
def MessageId.fromJson : JsonValue → Option MessageId
  | JsonValue.number n => some (MessageId.number n)
  | JsonValue.string s => some (MessageId.text s)
  | _ => none

/-- Modelled from the spec: "exactly one of `result`/`error` is present in a
Response". -/
inductive ResponseOutcome where
  | result (value : JsonValue)
  | error (value : JsonValue)

/-- Modelled from the spec: "a Request (has `id`, `method`, `params`), a
Response (has `id`, `result`-or-`error`), or a Notification (has `method`,
`params`, no `id`)". -/
inductive Message where
  | request (id : MessageId) (method : String) (params : JsonValue)
  | response (id : MessageId) (outcome : ResponseOutcome)
  | notification (method : String) (params : JsonValue)

/-- Modelled from the spec: the failures of parsing, "kind: `MissingField`,
`TypeMismatch`, `InvalidJson`". -/
inductive ParseError where
  | MissingField (key : Key)
  | TypeMismatch (key : Key)
  | InvalidJson
deriving DecidableEq, Repr

/-- Modelled from the spec: the fields of the JSON-RPC 2.0 object of a
message, in the order of insertion, the names taken from the registry. -/
def serializeFields : Message → List (Key × JsonValue)
  | Message.request id method params =>
    [(jsonRpcVersionKey, JsonValue.string "2.0"), (idKey, id.toJson),
     (methodKey, JsonValue.string method), (paramsKey, params)]
  | Message.response id (ResponseOutcome.result value) =>
    [(jsonRpcVersionKey, JsonValue.string "2.0"), (idKey, id.toJson), (resultKey, value)]
  | Message.response id (ResponseOutcome.error value) =>
    [(jsonRpcVersionKey, JsonValue.string "2.0"), (idKey, id.toJson), (errorKey, value)]
  | Message.notification method params =>
    [(jsonRpcVersionKey, JsonValue.string "2.0"), (methodKey, JsonValue.string method),
     (paramsKey, params)]

/-- Modelled from the spec: the serialization of a message, as the JSON
object that is written out. -/
def serialize (m : Message) : JsonValue := JsonValue.object (serializeFields m)

/-- Modelled from the spec: the response that the fields of an object
without `method` hold. -/
def parseResponse (fields : List (Key × JsonValue)) : Except ParseError Message :=
  match field fields idKey with
  | none => Except.error (ParseError.MissingField idKey)
  | some idValue =>
    match MessageId.fromJson idValue with
    | none => Except.error (ParseError.TypeMismatch idKey)
    | some id =>
      match field fields resultKey, field fields errorKey with
      | some value, none => Except.ok (Message.response id (ResponseOutcome.result value))
      | none, some value => Except.ok (Message.response id (ResponseOutcome.error value))
      | none, none => Except.error (ParseError.MissingField resultKey)
      | some _, some _ => Except.error (ParseError.TypeMismatch errorKey)

/-- Modelled from the spec: the request or the notification with the method
`method` that the fields of an object hold; without `id` it is a
notification. -/
def parseCall (fields : List (Key × JsonValue)) (method : String) :
    Except ParseError Message :=
  match field fields paramsKey with
  | none => Except.error (ParseError.MissingField paramsKey)
  | some params =>
    match field fields idKey with
    | none => Except.ok (Message.notification method params)
    | some idValue =>
      match MessageId.fromJson idValue with
      | none => Except.error (ParseError.TypeMismatch idKey)
      | some id => Except.ok (Message.request id method params)

/-- Modelled from the spec: the parsing of a JSON value into a message.  A
missing required field and a field of the wrong type are reported, never a
crash. -/
def parse : JsonValue → Except ParseError Message
  | JsonValue.object fields =>
    match field fields jsonRpcVersionKey with
    | none => Except.error (ParseError.MissingField jsonRpcVersionKey)
    | some (JsonValue.string _) =>
      match field fields methodKey with
      | some (JsonValue.string method) => parseCall fields method
      | some _ => Except.error (ParseError.TypeMismatch methodKey)
      | none => parseResponse fields
    | some _ => Except.error (ParseError.TypeMismatch jsonRpcVersionKey)
  | _ => Except.error ParseError.InvalidJson

/-- The notification of scenario D, as a JSON object. -/
def hoverNotification : JsonValue :=
  JsonValue.object [("jsonrpc", JsonValue.string "2.0"),
    ("method", JsonValue.string "textDocument/hover"),
    ("params", JsonValue.object [("position", JsonValue.object
      [("line", JsonValue.number 3), ("character", JsonValue.number 7)])])]

end LanguageServerProtocol

/-! # Theorems -/

namespace Utils


/-! ## Round trip of the Windows quoting -/

theorem ArgvParser.run_cons (sq : Bool) (p : ArgvParser) (c : Char) (s : QString) :
    ArgvParser.run sq p (c :: s) = ArgvParser.run sq (ArgvParser.step sq p c) s := rfl

theorem ArgvParser.run_append (sq : Bool) (p : ArgvParser) (s t : QString) :
    ArgvParser.run sq p (s ++ t) = ArgvParser.run sq (ArgvParser.run sq p s) t := by
  simp [ArgvParser.run, List.foldl_append]

/-- A run of backslashes is only counted. -/
theorem ArgvParser.run_backslashes (sq : Bool) (n : Nat) :
    ∀ p : ArgvParser, p.closing = false → p.inArg = true →
      ArgvParser.run sq p (List.replicate n '\\') = { p with bs := p.bs + n } := by
  induction n with
  | zero => intro p _ _; rfl
  | succ n ih =>
    intro p hc ha
    obtain ⟨args, cur, inArg, inQuotes, bs, closing⟩ := p
    simp only at hc ha
    subst hc ha
    rw [List.replicate_succ, ArgvParser.run_cons]
    have hs : ArgvParser.step sq ⟨args, cur, true, inQuotes, bs, false⟩ '\\'
        = ⟨args, cur, true, inQuotes, bs + 1, false⟩ := by
      simp [ArgvParser.step, ArgvParser.plain]
    rw [hs, ih _ rfl rfl]
    show (⟨args, cur, true, inQuotes, bs + 1 + n, false⟩ : ArgvParser)
      = ⟨args, cur, true, inQuotes, bs + (n + 1), false⟩
    rw [Nat.add_assoc, Nat.add_comm 1 n]

/-- The parser reads the escaped text as the original text: the characters go
to the current argument, except the trailing backslashes, which stay counted. -/
theorem ArgvParser.run_escapeQuotes (sq : Bool) (s : QString) :
    ∀ (n : Nat) (p : ArgvParser), p.closing = false → p.inArg = true → p.bs = 0 →
      (p.inQuotes = true ∨ noSeparator (escapeQuotes n s)) →
      ∃ X Y, ArgvParser.run sq p (escapeQuotes n s) = { p with cur := p.cur ++ X, bs := Y } ∧
        X ++ List.replicate Y '\\' = List.replicate n '\\' ++ s := by
  induction s with
  | nil =>
    intro n p hc ha hb _
    refine ⟨[], n, ?_, by simp⟩
    rw [escapeQuotes, ArgvParser.run_backslashes sq n p hc ha]
    simp [hb]
  | cons c cs ih =>
    intro n p hc ha hb hq
    obtain ⟨args, cur, inArg, inQuotes, bs, closing⟩ := p
    simp only at hc ha hb hq
    subst hc ha hb
    by_cases h1 : c = '\\'
    · subst h1
      rw [escapeQuotes, if_pos rfl] at hq ⊢
      obtain ⟨X, Y, hrun, hXY⟩ := ih (n + 1) ⟨args, cur, true, inQuotes, 0, false⟩ rfl rfl rfl hq
      refine ⟨X, Y, hrun, ?_⟩
      rw [hXY, List.replicate_succ', List.append_assoc]
      rfl
    · by_cases h2 : c = '"'
      · subst h2
        rw [escapeQuotes, if_neg h1, if_pos rfl] at hq ⊢
        have hq' : inQuotes = true ∨ noSeparator (escapeQuotes 0 cs) := by
          rcases hq with hq | hq
          · exact Or.inl hq
          · refine Or.inr (fun x hx => hq x ?_)
            simp [hx]
        obtain ⟨X, Y, hrun, hXY⟩ := ih 0
          ⟨args, cur ++ (List.replicate n '\\' ++ ['"']), true, inQuotes, 0, false⟩ rfl rfl rfl hq'
        refine ⟨List.replicate n '\\' ++ ['"'] ++ X, Y, ?_, ?_⟩
        · rw [ArgvParser.run_append, ArgvParser.run_backslashes sq n _ rfl rfl,
            ArgvParser.run_append, ArgvParser.run_backslashes sq n _ rfl rfl,
            ArgvParser.run_cons, ArgvParser.run_cons]
          have hs1 : ArgvParser.step sq ⟨args, cur, true, inQuotes, 0 + n + n, false⟩ '\\'
              = ⟨args, cur, true, inQuotes, 2 * n + 1, false⟩ := by
            simp [ArgvParser.step, ArgvParser.plain]
            omega
          have hs2 : ArgvParser.step sq ⟨args, cur, true, inQuotes, 2 * n + 1, false⟩ '"'
              = ⟨args, cur ++ (List.replicate n '\\' ++ ['"']), true, inQuotes, 0, false⟩ := by
            have e1 : (2 * n + 1) % 2 = 1 := by omega
            have e2 : (2 * n + 1) / 2 = n := by omega
            simp [ArgvParser.step, ArgvParser.plain, e1, e2]
          rw [hs1, hs2, hrun]
          simp
        · simp only [List.replicate_zero, List.nil_append] at hXY
          simp [hXY]
      · rw [escapeQuotes, if_neg h1, if_neg h2] at hq ⊢
        have hq' : inQuotes = true ∨ noSeparator (escapeQuotes 0 cs) := by
          rcases hq with hq | hq
          · exact Or.inl hq
          · refine Or.inr (fun x hx => hq x ?_)
            simp [hx]
        have hc' : ¬ ((c = ' ' ∨ c = '\t') ∧ inQuotes = false) := by
          rintro ⟨hsp, hf⟩
          rcases hq with hq | hq
          · rw [hf] at hq; exact Bool.noConfusion hq
          · have := hq c (by simp)
            rcases hsp with hsp | hsp
            · exact this.1 hsp
            · exact this.2 hsp
        obtain ⟨X, Y, hrun, hXY⟩ := ih 0
          ⟨args, cur ++ (List.replicate n '\\' ++ [c]), true, inQuotes, 0, false⟩ rfl rfl rfl hq'
        refine ⟨List.replicate n '\\' ++ [c] ++ X, Y, ?_, ?_⟩
        · rw [ArgvParser.run_append, ArgvParser.run_backslashes sq n _ rfl rfl,
            ArgvParser.run_cons]
          have hs : ArgvParser.step sq ⟨args, cur, true, inQuotes, 0 + n, false⟩ c
              = ⟨args, cur ++ (List.replicate n '\\' ++ [c]), true, inQuotes, 0, false⟩ := by
            simp only [ArgvParser.step, ArgvParser.plain, if_neg h1, if_neg h2, if_neg hc']
            simp
          rw [hs, hrun]
          simp
        · simp only [List.replicate_zero, List.nil_append] at hXY
          simp [hXY]

/-- A string of backslashes is copied by the replacement. -/
theorem escapeQuotes_replicate (k : Nat) :
    ∀ n, escapeQuotes n (List.replicate k '\\') = List.replicate (n + k) '\\' := by
  induction k with
  | zero => intro n; rfl
  | succ k ih =>
    intro n
    show escapeQuotes n ('\\' :: List.replicate k '\\') = _
    rw [escapeQuotes, if_pos rfl, ih]
    congr 1
    omega

/-- Trailing backslashes of the argument are copied by the replacement. -/
theorem escapeQuotes_append_backslashes (k : Nat) (s : QString) :
    ∀ n, escapeQuotes n (s ++ List.replicate k '\\')
      = escapeQuotes n s ++ List.replicate k '\\' := by
  induction s with
  | nil =>
    intro n
    rw [List.nil_append, escapeQuotes_replicate, escapeQuotes, List.replicate_add]
  | cons c cs ih =>
    intro n
    rw [List.cons_append, escapeQuotes, escapeQuotes]
    split_ifs <;> simp [ih]

/-- Every string is a body that does not end in a backslash, followed by
backslashes. -/
theorem exists_body_backslashes (s : QString) :
    ∃ body k, s = body ++ List.replicate k '\\' ∧
      (body = [] ∨ ∃ pre x, body = pre ++ [x] ∧ x ≠ '\\') := by
  induction s using List.reverseRecOn with
  | nil => exact ⟨[], 0, rfl, Or.inl rfl⟩
  | append_singleton l a ih =>
    by_cases ha : a = '\\'
    · obtain ⟨body, k, hs, hb⟩ := ih
      refine ⟨body, k + 1, ?_, hb⟩
      rw [hs, ha, List.replicate_succ', List.append_assoc]
    · exact ⟨l ++ [a], 0, by simp, Or.inr ⟨l, a, rfl, ha⟩⟩

/-- The replacement of a string that ends in another character than a
backslash ends in another character than a backslash. -/
theorem escapeQuotes_last (s : QString) :
    ∀ n x, x ≠ '\\' → ∃ pre y, escapeQuotes n (s ++ [x]) = pre ++ [y] ∧ y ≠ '\\' := by
  induction s with
  | nil =>
    intro n x hx
    rw [List.nil_append, escapeQuotes, if_neg hx]
    by_cases h2 : x = '"'
    · rw [if_pos h2]
      refine ⟨List.replicate n '\\' ++ (List.replicate n '\\' ++ ['\\']), '"', ?_, by decide⟩
      simp [escapeQuotes]
    · rw [if_neg h2]
      exact ⟨List.replicate n '\\', x, by simp [escapeQuotes], hx⟩
  | cons c cs ih =>
    intro n x hx
    rw [List.cons_append, escapeQuotes]
    split_ifs
    · exact ih (n + 1) x hx
    · obtain ⟨pre, y, h, hy⟩ := ih 0 x hx
      exact ⟨List.replicate n '\\' ++ (List.replicate n '\\' ++ ('\\' :: '"' :: pre)), y,
        by simp [h], hy⟩
    · obtain ⟨pre, y, h, hy⟩ := ih 0 x hx
      exact ⟨List.replicate n '\\' ++ (c :: pre), y, by simp [h], hy⟩

/-- The loop stops at the end of the body. -/
theorem skipTrailingBackslashes_eq (B : QString) (m : Nat)
    (hB : B = [] ∨ ∃ pre x, B = pre ++ [x] ∧ x ≠ '\\') :
    ∀ k, k ≤ m →
      skipTrailingBackslashes (B ++ List.replicate m '\\') (B.length + k) = B.length := by
  intro k
  induction k with
  | zero =>
    intro _
    rcases hB with hB | ⟨pre, x, hB, hx⟩
    · subst hB; rfl
    · subst hB
      have hlen : (pre ++ [x]).length + 0 = pre.length + 1 := by simp
      rw [hlen, skipTrailingBackslashes]
      have hget : (pre ++ [x] ++ List.replicate m '\\').get? pre.length = some x := by
        rw [List.get?_eq_getElem?, List.append_assoc,
          List.getElem?_append_right (le_refl _)]
        simp
      rw [hget, if_neg (by simpa using hx)]
      simp
  | succ k ih =>
    intro hk
    have hlen : B.length + (k + 1) = (B.length + k) + 1 := by omega
    rw [hlen, skipTrailingBackslashes]
    have hget : (B ++ List.replicate m '\\').get? (B.length + k) = some '\\' := by
      rw [List.get?_eq_getElem?, List.getElem?_append_right (by omega)]
      simp [List.getElem?_replicate]
      omega
    rw [hget, if_pos rfl]
    exact ih (by omega)

theorem ArgvParser.done_between (A : List QString) :
    (ArgvParser.between A).Done A := by
  refine ⟨rfl, fun sq => ?_⟩
  simp [ArgvParser.step, ArgvParser.plain, ArgvParser.between]

/-- A state that holds a complete argument is `Done`. -/
theorem ArgvParser.done_of_ready (A : List QString) (cur : QString) (inQuotes : Bool)
    (bs : Nat) (closing : Bool) (h : closing = true ∨ inQuotes = false) :
    (ArgvParser.mk A cur true inQuotes bs closing).Done (A ++ [cur ++ List.replicate bs '\\']) := by
  refine ⟨rfl, fun sq => ?_⟩
  rcases h with h | h
  · subst h
    simp [ArgvParser.step, ArgvParser.plain, ArgvParser.between]
  · subst h
    cases closing <;> simp [ArgvParser.step, ArgvParser.plain, ArgvParser.between]

/-- A character that is no separator starts an argument if none is started. -/
theorem ArgvParser.step_between (sq : Bool) (A : List QString) (c : Char)
    (h1 : c ≠ ' ') (h2 : c ≠ '\t') :
    ArgvParser.step sq (ArgvParser.between A) c
      = ArgvParser.step sq ⟨A, [], true, false, 0, false⟩ c := by
  simp only [ArgvParser.step, ArgvParser.plain, ArgvParser.between]
  simp [h1, h2]

/-- The backslashes after the closing quote. -/
theorem ArgvParser.run_after_closing (sq : Bool) (A : List QString) (cur : QString) (k : Nat) :
    ∃ q c, ArgvParser.run sq ⟨A, cur, true, true, 0, true⟩ (List.replicate k '\\')
      = ⟨A, cur, true, q, k, c⟩ ∧ (c = true ∨ q = false) := by
  cases k with
  | zero => exact ⟨true, true, rfl, Or.inl rfl⟩
  | succ k =>
    refine ⟨false, false, ?_, Or.inr rfl⟩
    rw [List.replicate_succ, ArgvParser.run_cons]
    have hs : ArgvParser.step sq ⟨A, cur, true, true, 0, true⟩ '\\'
        = ⟨A, cur, true, false, 1, false⟩ := by
      simp [ArgvParser.step, ArgvParser.plain]
    rw [hs, ArgvParser.run_backslashes sq k _ rfl rfl]
    show (⟨A, cur, true, false, 1 + k, false⟩ : ArgvParser) = _
    rw [Nat.add_comm]

theorem any_isRegexSpace_false {s : QString} (h : s.any isRegexSpace = false) :
    noSeparator s := by
  intro c hc
  have := (List.any_eq_false.mp h) c hc
  constructor
  · rintro rfl; exact this (by decide)
  · rintro rfl; exact this (by decide)

/-- The parser decodes one quoted argument as the argument. -/
theorem ArgvParser.run_quoteWinArgument (sq : Bool) (A : List QString) (a : QString) :
    (ArgvParser.run sq (ArgvParser.between A) (quoteWinArgument a)).Done (A ++ [a]) := by
  unfold quoteWinArgument
  by_cases hempty : a = []
  · subst hempty
    have : ArgvParser.run sq (ArgvParser.between A) ['"', '"'] = ⟨A, [], true, true, 0, true⟩ := by
      simp [ArgvParser.run, ArgvParser.step, ArgvParser.plain, ArgvParser.between]
    simp only [List.isEmpty_nil, if_true, this]
    exact ArgvParser.done_of_ready A [] true 0 true (Or.inl rfl)
  · have hne : a.isEmpty = false := by
      cases a with
      | nil => exact absurd rfl hempty
      | cons _ _ => rfl
    simp only [hne, Bool.false_eq_true, if_false]
    by_cases hsp : (escapeQuotes 0 a).any isRegexSpace = true
    · simp only [hsp, if_true]
      obtain ⟨body, k, ha, hbody⟩ := exists_body_backslashes a
      have hret : escapeQuotes 0 a = escapeQuotes 0 body ++ List.replicate k '\\' := by
        rw [ha, escapeQuotes_append_backslashes]
      have hB : escapeQuotes 0 body = [] ∨
          ∃ pre x, escapeQuotes 0 body = pre ++ [x] ∧ x ≠ '\\' := by
        rcases hbody with hb | ⟨pre, x, hb, hx⟩
        · subst hb; exact Or.inl rfl
        · subst hb; exact Or.inr (escapeQuotes_last pre 0 x hx)
      have hi : skipTrailingBackslashes (escapeQuotes 0 a) (escapeQuotes 0 a).length
          = (escapeQuotes 0 body).length := by
        rw [hret, List.length_append, List.length_replicate]
        exact skipTrailingBackslashes_eq _ k hB k (le_refl k)
      rw [hi, hret, List.take_left' rfl, List.drop_left' rfl]
      rw [ArgvParser.run_cons]
      have hs : ArgvParser.step sq (ArgvParser.between A) '"' = ⟨A, [], true, true, 0, false⟩ := by
        simp [ArgvParser.step, ArgvParser.plain, ArgvParser.between]
      rw [hs, ArgvParser.run_append]
      obtain ⟨X, Y, hrun, hXY⟩ := ArgvParser.run_escapeQuotes sq body 0
        ⟨A, [], true, true, 0, false⟩ rfl rfl rfl (Or.inl rfl)
      simp only [List.replicate_zero, List.nil_append] at hXY
      have hY : Y = 0 := by
        rcases hbody with hb | ⟨pre, x, hb, hx⟩
        · subst hb
          cases Y with
          | zero => rfl
          | succ Y => simp [List.replicate_succ] at hXY
        · cases Y with
          | zero => rfl
          | succ Y =>
            exfalso
            rw [hb, List.replicate_succ', ← List.append_assoc] at hXY
            exact hx (List.append_inj_right' hXY rfl |> List.singleton_injective).symm
      subst hY
      simp only [List.replicate_zero, List.append_nil] at hXY
      subst hXY
      rw [hrun, ArgvParser.run_cons]
      have hs2 : ArgvParser.step sq ⟨A, [] ++ X, true, true, 0, false⟩ '"'
          = ⟨A, X, true, true, 0, true⟩ := by
        simp [ArgvParser.step, ArgvParser.plain]
      rw [hs2]
      obtain ⟨q, c, hrun2, hqc⟩ := ArgvParser.run_after_closing sq A X k
      rw [hrun2, ha]
      exact ArgvParser.done_of_ready A X q k c hqc
    · have hsp' : (escapeQuotes 0 a).any isRegexSpace = false := by
        cases h : (escapeQuotes 0 a).any isRegexSpace
        · rfl
        · exact absurd h hsp
      simp only [hsp', Bool.false_eq_true, if_false]
      have hns := any_isRegexSpace_false hsp'
      obtain ⟨X, Y, hrun, hXY⟩ := ArgvParser.run_escapeQuotes sq a 0
        ⟨A, [], true, false, 0, false⟩ rfl rfl rfl (Or.inr hns)
      simp only [List.replicate_zero, List.nil_append] at hXY
      have hstart : ArgvParser.run sq (ArgvParser.between A) (escapeQuotes 0 a)
          = ArgvParser.run sq ⟨A, [], true, false, 0, false⟩ (escapeQuotes 0 a) := by
        cases he : escapeQuotes 0 a with
        | nil =>
          exfalso
          rw [he] at hrun
          have h0 : (⟨A, [], true, false, 0, false⟩ : ArgvParser)
              = ⟨A, [] ++ X, true, false, Y, false⟩ := hrun
          have h1 : X = [] := by simpa using (congrArg ArgvParser.cur h0).symm
          have h2 : Y = 0 := (congrArg ArgvParser.bs h0).symm
          rw [h1, h2] at hXY
          exact hempty hXY.symm
        | cons c cs =>
          rw [he] at hns
          have hc := hns c (by simp)
          rw [ArgvParser.run_cons, ArgvParser.run_cons, ArgvParser.step_between sq A c hc.1 hc.2]
      rw [hstart, hrun, ← hXY]
      exact ArgvParser.done_of_ready A ([] ++ X) false Y false (Or.inr rfl)

/-- The parser decodes the arguments that follow the arguments already read. -/
theorem ArgvParser.run_winCommandlineTail (sq : Bool) (args : QStringList) :
    ∀ (p : ArgvParser) (A : List QString), p.Done A →
      (ArgvParser.run sq p (winCommandlineTail args)).Done (A ++ args) := by
  induction args with
  | nil =>
    intro p A h
    simpa [winCommandlineTail, ArgvParser.run] using h
  | cons a rest ih =>
    intro p A h
    have htail : winCommandlineTail (a :: rest)
        = (' ' :: quoteWinArgument a) ++ winCommandlineTail rest := by
      simp [winCommandlineTail]
    rw [htail, ArgvParser.run_append, ArgvParser.run_cons, h.2 sq]
    have := ih _ (A ++ [a]) (ArgvParser.run_quoteWinArgument sq A a)
    simpa using this

/-- The command line is the quoted program followed by the tail. -/
theorem createWinCommandline_eq (program : QString) (args : QStringList) :
    createWinCommandline program args = quoteWinCommand program ++ winCommandlineTail args := by
  unfold createWinCommandline
  generalize quoteWinCommand program = acc
  induction args generalizing acc with
  | nil => simp [winCommandlineTail]
  | cons a rest ih =>
    rw [List.foldl_cons, ih]
    simp [winCommandlineTail]

/-- C1: for every list of arguments, the tail that `createWinCommandline`
appends to the program (a space and `quoteWinArgument arg` for each argument),
and likewise the quoted arguments joined with single spaces, is decoded by the
argv parser (in both variants of the double-double-quote rule) back to exactly
the original argument list. -/
theorem quoteWinArgument_roundtrip (stayQuoted : Bool) (program : QString)
    (args : QStringList) :
    createWinCommandline program args = quoteWinCommand program ++ winCommandlineTail args ∧
    parseWinArgs stayQuoted (winCommandlineTail args) = args ∧
    parseWinArgs stayQuoted ([' '].intercalate (args.map quoteWinArgument)) = args := by
  refine ⟨createWinCommandline_eq program args, ?_, ?_⟩
  · have := ArgvParser.run_winCommandlineTail stayQuoted args ArgvParser.init []
      (ArgvParser.done_between [])
    simpa [parseWinArgs] using this.1
  · cases args with
    | nil => rfl
    | cons a rest =>
      have hjoin : [' '].intercalate ((a :: rest).map quoteWinArgument)
          = quoteWinArgument a ++ winCommandlineTail rest := by
        simp only [List.map_cons, winCommandlineTail]
        generalize quoteWinArgument a = q
        induction rest generalizing q with
        | nil => simp [List.intercalate]
        | cons b rest ih =>
          have := ih (quoteWinArgument b)
          simp only [List.intercalate, List.map_cons, List.intersperse_cons_cons,
            List.flatten_cons] at this ⊢
          rw [this]
          simp
      rw [parseWinArgs, hjoin, ArgvParser.run_append]
      have h1 := ArgvParser.run_quoteWinArgument stayQuoted [] a
      have h2 := ArgvParser.run_winCommandlineTail stayQuoted rest _ _ h1
      simpa using h2.1

/-! ## Decimal numbers -/

theorem digitChar_isDigit {d : Nat} (h : d < 10) : (digitChar d).isDigit = true := by
  interval_cases d <;> rfl

theorem digitChar_toNat {d : Nat} (h : d < 10) : (digitChar d).toNat - 48 = d := by
  interval_cases d <;> rfl

theorem isDigit_not_space {c : Char} (h : c.isDigit = true) : isAsciiSpace c = false := by
  simp only [Char.isDigit, Bool.and_eq_true, decide_eq_true_eq] at h
  have h1 : 48 ≤ c.toNat := by
    have := h.1
    exact this
  have hne : (c == ' ') = false := by
    rw [beq_eq_false_iff_ne]
    rintro rfl
    exact absurd h1 (by decide)
  simp only [isAsciiSpace, hne, Bool.false_or, Bool.and_eq_false_iff, decide_eq_false_iff_not]
  right
  omega

theorem isDigit_ne {c x : Char} (h : c.isDigit = true) (hx : x.isDigit = false) : c ≠ x := by
  rintro rfl
  rw [h] at hx
  exact Bool.noConfusion hx

theorem decimalDigits_spec (fuel : Nat) :
    ∀ n, n < fuel →
      (∀ d ∈ decimalDigits fuel n, d < 10) ∧ decimalDigits fuel n ≠ [] ∧
      (decimalDigits fuel n).foldr (fun d a => d + 10 * a) 0 = n := by
  induction fuel with
  | zero => intro n h; omega
  | succ fuel ih =>
    intro n h
    rw [decimalDigits]
    by_cases h10 : n < 10
    · rw [if_pos h10]
      simp [h10]
    · rw [if_neg h10]
      obtain ⟨h1, _, h3⟩ := ih (n / 10) (by omega)
      refine ⟨?_, by simp, ?_⟩
      · intro d hd
        rcases List.mem_cons.mp hd with hd | hd
        · omega
        · exact h1 d hd
      · rw [List.foldr_cons, h3]
        omega

theorem digitsValue_reverse (ds : List Nat) (h : ∀ d ∈ ds, d < 10) :
    digitsValue 0 ((ds.map digitChar).reverse) = ds.foldr (fun d a => d + 10 * a) 0 := by
  induction ds with
  | nil => rfl
  | cons d ds ih =>
    have hd : d < 10 := h d (by simp)
    have ih' := ih (fun x hx => h x (by simp [hx]))
    simp only [digitsValue] at ih' ⊢
    rw [List.map_cons, List.reverse_cons, List.foldl_append, ih']
    simp only [List.foldl_cons, List.foldl_nil, List.foldr_cons, digitChar_toNat hd]
    omega

theorem decimalNat_isDigit (n : Nat) : ∀ c ∈ decimalNat n, c.isDigit = true := by
  intro c hc
  simp only [decimalNat, List.mem_reverse, List.mem_map] at hc
  obtain ⟨d, hd, rfl⟩ := hc
  exact digitChar_isDigit ((decimalDigits_spec (n + 1) n (by omega)).1 d hd)

theorem decimalNat_ne_nil (n : Nat) : decimalNat n ≠ [] := by
  have := (decimalDigits_spec (n + 1) n (by omega)).2.1
  simpa [decimalNat] using this

theorem parseUnsigned_decimalNat (n : Nat) : parseUnsigned (decimalNat n) = some n := by
  have hall := decimalNat_isDigit n
  have htake : (decimalNat n).takeWhile Char.isDigit = decimalNat n :=
    List.takeWhile_eq_self_iff.mpr hall
  have hdrop : (decimalNat n).dropWhile Char.isDigit = [] :=
    List.dropWhile_eq_nil_iff.mpr hall
  have hne : (decimalNat n).isEmpty = false := by
    cases h : decimalNat n with
    | nil => exact absurd h (decimalNat_ne_nil n)
    | cons _ _ => rfl
  simp only [parseUnsigned, htake, hdrop, hne, List.all_nil, Bool.not_true, Bool.or_false,
    Bool.false_eq_true, if_false]
  have hspec := decimalDigits_spec (n + 1) n (by omega)
  rw [decimalNat, digitsValue_reverse _ hspec.1, hspec.2.2]

/-- `toInt` reads back the decimal text of every number in the range of `int`. -/
theorem toInt_decimal (n : Int) (h : -2147483648 ≤ n ∧ n ≤ 2147483647) :
    toInt (decimal n) = n := by
  have hchars : ∀ c ∈ decimal n, (c != Char.ofNat 0) = true := by
    intro c hc
    unfold decimal at hc
    have hd : ∀ c ∈ decimalNat n.natAbs, (c != Char.ofNat 0) = true := by
      intro c hc
      rw [bne_iff_ne]
      exact isDigit_ne (decimalNat_isDigit _ c hc) (by decide)
    split_ifs at hc
    · rcases List.mem_cons.mp hc with hc | hc
      · subst hc; decide
      · exact hd c hc
    · exact hd c hc
  have hstr : (decimal n).takeWhile (fun c => c != Char.ofNat 0) = decimal n :=
    List.takeWhile_eq_self_iff.mpr hchars
  obtain ⟨x, xs, hx⟩ : ∃ x xs, decimalNat n.natAbs = x :: xs := by
    cases h : decimalNat n.natAbs with
    | nil => exact absurd h (decimalNat_ne_nil _)
    | cons x xs => exact ⟨x, xs, rfl⟩
  have hxd : x.isDigit = true := decimalNat_isDigit n.natAbs x (by simp [hx])
  unfold toInt
  rw [hstr]
  by_cases hneg : n < 0
  · have hdec : decimal n = '-' :: decimalNat n.natAbs := by simp [decimal, hneg]
    have hbody : (decimal n).dropWhile isAsciiSpace = '-' :: decimalNat n.natAbs := by
      rw [hdec, List.dropWhile_cons_of_neg (by decide)]
    simp only [hbody, startsWithChar, beq_self_eq_true, Bool.true_or, if_true, List.drop_one,
      List.tail_cons, parseUnsigned_decimalNat]
    have hval : -((n.natAbs : Nat) : Int) = n := by omega
    rw [hval, if_pos h]
  · have hdec : decimal n = x :: xs := by simp [decimal, hneg, hx]
    have hbody : (decimal n).dropWhile isAsciiSpace = x :: xs := by
      rw [hdec, List.dropWhile_cons_of_neg (by simp [isDigit_not_space hxd])]
    have h1 : (x == '-') = false := by
      rw [beq_eq_false_iff_ne]; exact isDigit_ne hxd (by decide)
    have h2 : (x == '+') = false := by
      rw [beq_eq_false_iff_ne]; exact isDigit_ne hxd (by decide)
    simp only [hbody, startsWithChar, h1, h2, Bool.or_self, Bool.false_eq_true, if_false]
    rw [← hx, parseUnsigned_decimalNat]
    have hval : ((n.natAbs : Nat) : Int) = n := by omega
    simp only [hval]
    rw [if_pos h]

/-! ## The loop of `readStubOutput` -/

theorem readLine_append (line rest : QByteArray) (h : '\n' ∉ line) :
    readLine (line ++ '\n' :: rest) = some (line ++ ['\n'], rest) := by
  induction line with
  | nil => simp [readLine]
  | cons c cs ih =>
    have hc : c ≠ '\n' := fun e => h (by simp [e])
    have hcs : '\n' ∉ cs := fun e => h (by simp [e])
    rw [List.cons_append, readLine, if_neg hc, ih hcs]
    rfl

theorem readLine_length {buf line rest : QByteArray} (h : readLine buf = some (line, rest)) :
    rest.length < buf.length := by
  induction buf generalizing line with
  | nil => simp [readLine] at h
  | cons c cs ih =>
    rw [readLine] at h
    split_ifs at h
    · simp only [Option.some.injEq, Prod.mk.injEq] at h
      rw [← h.2]
      simp
    · cases hr : readLine cs with
      | none => rw [hr] at h; exact Option.noConfusion h
      | some p =>
        obtain ⟨l, r⟩ := p
        rw [hr] at h
        simp only [Option.some.injEq, Prod.mk.injEq] at h
        obtain ⟨_, rfl⟩ := h
        have := ih hr
        simp only [List.length_cons]
        omega

/-- A partial line holds no line feed. -/
theorem readLine_eq_none {buf : QByteArray} (h : '\n' ∉ buf) : readLine buf = none := by
  induction buf with
  | nil => rfl
  | cons c cs ih =>
    have hc : c ≠ '\n' := fun e => h (by simp [e])
    have hcs : '\n' ∉ cs := fun e => h (by simp [e])
    rw [readLine, if_neg hc, ih hcs]

/-- The body of the loop leaves the socket alone. -/
theorem stubLine_socket (errorMsg : Int → QString) (c : ConsoleProcess) (out : QByteArray) :
    (stubLine errorMsg c out).1.m_stubSocket = c.m_stubSocket := by
  unfold stubLine
  split_ifs <;> rfl

/-- More iterations than the buffer has bytes make no difference. -/
theorem readStubOutputLoop_fuel (errorMsg : Int → QString) (fuel : Nat) :
    ∀ (fuel' : Nat) (c : ConsoleProcess), pendingBytes c < fuel → pendingBytes c < fuel' →
      readStubOutputLoop errorMsg fuel c = readStubOutputLoop errorMsg fuel' c := by
  induction fuel with
  | zero => intro fuel' c h; omega
  | succ fuel ih =>
    intro fuel' c h h'
    cases fuel' with
    | zero => omega
    | succ fuel' =>
      rw [readStubOutputLoop, readStubOutputLoop]
      cases hs : c.m_stubSocket with
      | none => rfl
      | some sock =>
        simp only
        cases hl : readLine sock.readBuffer with
        | none => rfl
        | some p =>
          obtain ⟨line, rest⟩ := p
          simp only
          split_ifs
          · have hlen := readLine_length hl
            have hp : pendingBytes c = sock.readBuffer.length := by simp [pendingBytes, hs]
            have hp' : pendingBytes (stubLine errorMsg
                { c with m_stubSocket := some { sock with readBuffer := rest } }
                line.dropLast).1 = rest.length := by
              simp [pendingBytes, stubLine_socket]
            exact ih fuel' _ (by omega) (by omega)
          · rfl

/-- One iteration of `readStubOutput` on a buffer that holds a line. -/
theorem readStubOutput_line (errorMsg : Int → QString) (c : ConsoleProcess) (sock : LocalSocket)
    (line rest : QByteArray) (hs : c.m_stubSocket = some sock)
    (hb : sock.readBuffer = line ++ '\n' :: rest) (hl : '\n' ∉ line) :
    readStubOutput errorMsg c =
      if (stubLine errorMsg { c with m_stubSocket := some { sock with readBuffer := rest } }
            line).2
      then readStubOutput errorMsg
        (stubLine errorMsg { c with m_stubSocket := some { sock with readBuffer := rest } }
            line).1
      else some (stubLine errorMsg { c with m_stubSocket := some { sock with readBuffer := rest } }
            line).1 := by
  have hr : readLine sock.readBuffer = some (line ++ ['\n'], rest) := by
    rw [hb]; exact readLine_append line rest hl
  rw [readStubOutput, readStubOutputLoop]
  simp only [hs, hr, List.dropLast_concat]
  split_ifs
  · rw [readStubOutput]
    apply readStubOutputLoop_fuel
    · have : pendingBytes c = (line ++ '\n' :: rest).length := by simp [pendingBytes, hs, hb]
      rw [this]
      simp [pendingBytes, stubLine_socket]
      omega
    · omega
  · rfl

/-- `readStubOutput` on a buffer without a complete line. -/
theorem readStubOutput_idle (errorMsg : Int → QString) (c : ConsoleProcess) (sock : LocalSocket)
    (hs : c.m_stubSocket = some sock) (hb : readLine sock.readBuffer = none) :
    readStubOutput errorMsg c = some c := by
  rw [readStubOutput, readStubOutputLoop]
  simp only [hs, hb]

/-- `readStubOutput` returns whenever the socket exists. -/
theorem readStubOutput_isSome (errorMsg : Int → QString) (fuel : Nat) :
    ∀ (c : ConsoleProcess) (sock : LocalSocket), c.m_stubSocket = some sock →
      pendingBytes c < fuel →
      ∃ c' sock', readStubOutputLoop errorMsg fuel c = some c' ∧ c'.m_stubSocket = some sock' := by
  induction fuel with
  | zero => intro c sock _ h; omega
  | succ fuel ih =>
    intro c sock hs h
    rw [readStubOutputLoop]
    simp only [hs]
    cases hl : readLine sock.readBuffer with
    | none => exact ⟨c, sock, rfl, hs⟩
    | some p =>
      obtain ⟨line, rest⟩ := p
      simp only
      have hsock := stubLine_socket errorMsg
        { c with m_stubSocket := some { sock with readBuffer := rest } } line.dropLast
      split_ifs
      · have hlen := readLine_length hl
        have hp : pendingBytes c = sock.readBuffer.length := by simp [pendingBytes, hs]
        refine ih _ _ hsock ?_
        simp only [pendingBytes, hsock]
        omega
      · exact ⟨_, _, rfl, hsock⟩

/-! ## The lines of the stub -/

theorem stubLine_pid (errorMsg : Int → QString) (c : ConsoleProcess) (payload : QByteArray) :
    stubLine errorMsg c ("pid ".toList ++ payload)
      = ({ c with m_processId := toInt payload, emitted := c.emitted ++ [Signal.started] },
          true) := by
  simp [stubLine, startsWith]

theorem stubLine_exit (errorMsg : Int → QString) (c : ConsoleProcess) (payload : QByteArray) :
    stubLine errorMsg c ("exit ".toList ++ payload)
      = (finish c (toInt payload) ExitStatus.NormalExit, true) := by
  simp [stubLine, startsWith]

theorem stubLine_crash (errorMsg : Int → QString) (c : ConsoleProcess) (payload : QByteArray) :
    stubLine errorMsg c ("crash ".toList ++ payload)
      = (finish c (toInt payload) ExitStatus.CrashExit, true) := by
  simp [stubLine, startsWith]

theorem stubLine_errChdir (errorMsg : Int → QString) (c : ConsoleProcess) (payload : QByteArray) :
    stubLine errorMsg c ("err:chdir ".toList ++ payload)
      = (emitError c ProcessError.FailedToStart
          (msgCannotChangeToWorkDir c.m_workingDir (errorMsg (toInt payload))), true) := by
  simp [stubLine, startsWith]

theorem stubLine_errExec (errorMsg : Int → QString) (c : ConsoleProcess) (payload : QByteArray) :
    stubLine errorMsg c ("err:exec ".toList ++ payload)
      = (emitError c ProcessError.FailedToStart
          (msgCannotExecute c.m_commandLine.executable (errorMsg (toInt payload))), true) := by
  simp [stubLine, startsWith]

theorem stubLine_spid (errorMsg : Int → QString) (c : ConsoleProcess) (payload : QByteArray) :
    stubLine errorMsg c ("spid ".toList ++ payload) = ({ c with m_tempFile := none }, true) := by
  simp [stubLine, startsWith]

/-- The decimal text of a number holds no line feed. -/
theorem newline_not_mem_decimal (n : Int) : '\n' ∉ decimal n := by
  intro h
  have hd : ∀ c ∈ decimalNat n.natAbs, c ≠ '\n' :=
    fun c hc => isDigit_ne (decimalNat_isDigit _ c hc) (by decide)
  unfold decimal at h
  split_ifs at h
  · rcases List.mem_cons.mp h with h | h
    · exact absurd h (by decide)
    · exact hd _ h rfl
  · exact hd _ h rfl

/-- A protocol word followed by a number holds no line feed. -/
theorem newline_not_mem_line (word : QByteArray) (n : Int) (h : '\n' ∉ word) :
    '\n' ∉ word ++ decimal n := by
  intro hm
  rcases List.mem_append.mp hm with hm | hm
  · exact h hm
  · exact newline_not_mem_decimal n hm

/-- `readStubOutput` on a buffer that holds one line, which does not leave the
loop, and then no further complete line. -/
theorem readStubOutput_single (errorMsg : Int → QString) (c : ConsoleProcess)
    (sock : LocalSocket) (line rest : QByteArray) (hs : c.m_stubSocket = some sock)
    (hb : sock.readBuffer = line ++ '\n' :: rest) (hl : '\n' ∉ line)
    (hrest : readLine rest = none)
    (hcont : (stubLine errorMsg
      { c with m_stubSocket := some { sock with readBuffer := rest } } line).2 = true) :
    readStubOutput errorMsg c = some (stubLine errorMsg
      { c with m_stubSocket := some { sock with readBuffer := rest } } line).1 := by
  rw [readStubOutput_line errorMsg c sock line rest hs hb hl, if_pos hcont]
  exact readStubOutput_idle errorMsg _ { sock with readBuffer := rest }
    (stubLine_socket errorMsg _ line) hrest

/-- C2: in every session state (with the stub socket that `readStubOutput`
reads), for every decimal integer `n` in the range of `int`, processing the
buffered line `pid n` records `n` as `processId()`, emits `started`, and leaves
`exitCode()`, `exitStatus()`, `error()` and `errorString()` unchanged. -/
theorem readStubOutput_pid_line (errorMsg : Int → QString) (c : ConsoleProcess)
    (sock : LocalSocket) (n : Int) (rest : QByteArray)
    (hn : -2147483648 ≤ n ∧ n ≤ 2147483647)
    (hs : c.m_stubSocket = some sock)
    (hb : sock.readBuffer = ("pid ".toList ++ decimal n) ++ '\n' :: rest)
    (hrest : readLine rest = none) :
    ∃ c', readStubOutput errorMsg c = some c' ∧
      c'.m_processId = n ∧ c'.emitted = c.emitted ++ [Signal.started] ∧
      c'.m_exitCode = c.m_exitCode ∧ c'.m_appStatus = c.m_appStatus ∧
      c'.m_error = c.m_error ∧ c'.m_errorString = c.m_errorString := by
  have hl : '\n' ∉ "pid ".toList ++ decimal n := newline_not_mem_line _ n (by decide)
  refine ⟨_, readStubOutput_single errorMsg c sock _ rest hs hb hl hrest ?_, ?_⟩
  · rw [stubLine_pid]
  · rw [stubLine_pid, toInt_decimal n hn]
    exact ⟨rfl, rfl, rfl, rfl, rfl, rfl⟩

theorem readStubOutput_pid_line_witness :
    (-2147483648 ≤ (4242 : Int) ∧ (4242 : Int) ≤ 2147483647) ∧
    ∃ c', readStubOutput (fun _ => []) (sessionWithBuffer "pid 4242\n".toList) = some c' ∧
      c'.m_processId = 4242 ∧
      c'.emitted = (sessionWithBuffer "pid 4242\n".toList).emitted ++ [Signal.started] ∧
      c'.m_exitCode = (sessionWithBuffer "pid 4242\n".toList).m_exitCode ∧
      c'.m_appStatus = (sessionWithBuffer "pid 4242\n".toList).m_appStatus ∧
      c'.m_error = (sessionWithBuffer "pid 4242\n".toList).m_error ∧
      c'.m_errorString = (sessionWithBuffer "pid 4242\n".toList).m_errorString :=
  ⟨by decide,
   readStubOutput_pid_line (fun _ => []) (sessionWithBuffer "pid 4242\n".toList)
     ⟨"pid 4242\n".toList, true, true, LocalSocketState.ConnectedState⟩ 4242 []
     (by decide) rfl (by decide) rfl⟩

/-- C3: for every decimal integer `n` in the range of `int`, processing the
buffered line `exit n` gives `exitCode() = n` with `exitStatus() = NormalExit`,
and processing `crash n` gives `exitCode() = n` with `exitStatus() = CrashExit`;
in both cases `processId()` becomes 0 and `finished` is emitted once. -/
theorem readStubOutput_exit_crash_line (errorMsg : Int → QString) (c : ConsoleProcess)
    (sock : LocalSocket) (n : Int) (rest : QByteArray) (crash : Bool)
    (hn : -2147483648 ≤ n ∧ n ≤ 2147483647)
    (hs : c.m_stubSocket = some sock)
    (hb : sock.readBuffer
      = ((if crash then "crash ".toList else "exit ".toList) ++ decimal n) ++ '\n' :: rest)
    (hrest : readLine rest = none) :
    ∃ c', readStubOutput errorMsg c = some c' ∧
      c'.m_exitCode = n ∧
      c'.m_appStatus = (if crash then ExitStatus.CrashExit else ExitStatus.NormalExit) ∧
      c'.m_processId = 0 ∧ c'.emitted = c.emitted ++ [Signal.finished] := by
  cases crash with
  | false =>
    simp only [Bool.false_eq_true, if_false] at hb ⊢
    have hl : '\n' ∉ "exit ".toList ++ decimal n := newline_not_mem_line _ n (by decide)
    refine ⟨_, readStubOutput_single errorMsg c sock _ rest hs hb hl hrest ?_, ?_⟩
    · rw [stubLine_exit]
    · rw [stubLine_exit, toInt_decimal n hn]
      exact ⟨rfl, rfl, rfl, rfl⟩
  | true =>
    simp only [if_true] at hb ⊢
    have hl : '\n' ∉ "crash ".toList ++ decimal n := newline_not_mem_line _ n (by decide)
    refine ⟨_, readStubOutput_single errorMsg c sock _ rest hs hb hl hrest ?_, ?_⟩
    · rw [stubLine_crash]
    · rw [stubLine_crash, toInt_decimal n hn]
      exact ⟨rfl, rfl, rfl, rfl⟩

theorem readStubOutput_exit_crash_line_witness :
    (-2147483648 ≤ (3 : Int) ∧ (3 : Int) ≤ 2147483647) ∧
    ∃ c', readStubOutput (fun _ => []) (sessionWithBuffer "crash 3\n".toList) = some c' ∧
      c'.m_exitCode = 3 ∧
      c'.m_appStatus = (if true then ExitStatus.CrashExit else ExitStatus.NormalExit) ∧
      c'.m_processId = 0 ∧
      c'.emitted = (sessionWithBuffer "crash 3\n".toList).emitted ++ [Signal.finished] :=
  ⟨by decide,
   readStubOutput_exit_crash_line (fun _ => []) (sessionWithBuffer "crash 3\n".toList)
     ⟨"crash 3\n".toList, true, true, LocalSocketState.ConnectedState⟩ 3 [] true
     (by decide) rfl (by decide) rfl⟩

/-! ## Disconnection of the stub -/

/-- The control bytes leave the pid, the socket buffer and the signals alone. -/
theorem writeControl_frame (c : ConsoleProcess) (byte : Char) :
    (writeControl c byte).m_processId = c.m_processId ∧
    (writeControl c byte).m_stubSocket = c.m_stubSocket ∧
    (writeControl c byte).emitted = c.emitted := by
  unfold writeControl
  split
  · split_ifs <;> exact ⟨rfl, rfl, rfl⟩
  · exact ⟨rfl, rfl, rfl⟩

/-! ## Totality of the stub protocol -/

/-- A string that starts with two prefixes: the prefixes agree on their
common length. -/
theorem startsWith_not_differ (out p q : QByteArray) (hp : startsWith out p = true)
    (hq : startsWith out q = true) : prefixesDiffer p q = false := by
  simp only [startsWith, List.isPrefixOf_iff_prefix] at hp hq
  have h1 := List.prefix_iff_eq_take.mp hp
  have h2 := List.prefix_iff_eq_take.mp hq
  simp only [prefixesDiffer, bne_eq_false_iff_eq]
  generalize hm : min p.length q.length = m
  have hmp : m ≤ p.length := by omega
  have hmq : m ≤ q.length := by omega
  have e1 : p.take m = out.take m := by
    have := congrArg (List.take m) h1
    rw [List.take_take, Nat.min_eq_left hmp] at this
    exact this
  have e2 : q.take m = out.take m := by
    have := congrArg (List.take m) h2
    rw [List.take_take, Nat.min_eq_left hmq] at this
    exact this
  rw [e1, e2]

/-- No line starts with two of the recognised prefixes. -/
theorem stubPrefixes_exclusive (out p q : QByteArray) (hp : p ∈ stubPrefixes)
    (hq : q ∈ stubPrefixes) (hne : p ≠ q) :
    ¬ (startsWith out p = true ∧ startsWith out q = true) := by
  rintro ⟨h1, h2⟩
  have hd := startsWith_not_differ out p q h1 h2
  have hall : ∀ a ∈ stubPrefixes, ∀ b ∈ stubPrefixes, a ≠ b → prefixesDiffer a b = true := by
    decide
  rw [hall p hp q hq hne] at hd
  exact Bool.noConfusion hd

/-- The case of a line is the only case whose condition holds. -/
theorem holds_iff_lineCase (out : QByteArray) (k : StubCase) :
    k.holds out = true ↔ k = lineCase out := by
  have ex := stubPrefixes_exclusive out
  have m1 : "err:chdir ".toList ∈ stubPrefixes := by decide
  have m2 : "err:exec ".toList ∈ stubPrefixes := by decide
  have m3 : "spid ".toList ∈ stubPrefixes := by decide
  have m4 : "pid ".toList ∈ stubPrefixes := by decide
  have m5 : "exit ".toList ∈ stubPrefixes := by decide
  have m6 : "crash ".toList ∈ stubPrefixes := by decide
  have x12 := ex _ _ m1 m2 (by decide)
  have x13 := ex _ _ m1 m3 (by decide)
  have x14 := ex _ _ m1 m4 (by decide)
  have x15 := ex _ _ m1 m5 (by decide)
  have x16 := ex _ _ m1 m6 (by decide)
  have x23 := ex _ _ m2 m3 (by decide)
  have x24 := ex _ _ m2 m4 (by decide)
  have x25 := ex _ _ m2 m5 (by decide)
  have x26 := ex _ _ m2 m6 (by decide)
  have x34 := ex _ _ m3 m4 (by decide)
  have x35 := ex _ _ m3 m5 (by decide)
  have x36 := ex _ _ m3 m6 (by decide)
  have x45 := ex _ _ m4 m5 (by decide)
  have x46 := ex _ _ m4 m6 (by decide)
  have x56 := ex _ _ m5 m6 (by decide)
  unfold lineCase
  cases k <;>
  simp only [StubCase.holds, stubPrefixes, List.any_cons, List.any_nil] <;>
  generalize startsWith out "err:chdir ".toList = b1 at * <;>
  generalize startsWith out "err:exec ".toList = b2 at * <;>
  generalize startsWith out "spid ".toList = b3 at * <;>
  generalize startsWith out "pid ".toList = b4 at * <;>
  generalize startsWith out "exit ".toList = b5 at * <;>
  generalize startsWith out "crash ".toList = b6 at * <;>
  clear ex m1 m2 m3 m4 m5 m6 <;>
  cases b1 <;> cases b2 <;> cases b3 <;> cases b4 <;> cases b5 <;> cases b6 <;> simp_all

/-- The loop body of `readStubOutput` is the branch of the case of the line. -/
theorem stubLine_eq_stubCaseStep (errorMsg : Int → QString) (c : ConsoleProcess)
    (out : QByteArray) :
    stubLine errorMsg c out = stubCaseStep errorMsg c out (lineCase out) := by
  unfold stubLine lineCase
  split_ifs <;> rfl

/-- `stubServerShutdown` returns in every state. -/
theorem stubServerShutdown_isSome (errorMsg : Int → QString) (c : ConsoleProcess) :
    ∃ c', stubServerShutdown errorMsg c = some c' := by
  unfold stubServerShutdown
  cases hs : c.m_stubSocket with
  | none => exact ⟨_, rfl⟩
  | some sock =>
    obtain ⟨c1, _, h1, _⟩ := readStubOutput_isSome errorMsg (pendingBytes c + 1) c sock hs
      (by omega)
    simp only [readStubOutput, h1, Option.map_some']
    exact ⟨_, rfl⟩

/-- C6: the stub line handler is total.  Every line (any byte string) falls
into exactly one of the cases `err:chdir`, `err:exec`, `spid`, `pid`, `exit`,
`crash` or unexpected output, namely the case whose branch the loop body
takes; in every session state with a stub socket, whatever its buffer holds,
`readStubOutput` returns a state; and in every session state the channel
disconnect (`stubExited`) returns a state. -/
theorem stub_protocol_total (errorMsg : Int → QString) (c : ConsoleProcess)
    (sock : LocalSocket) (out : QByteArray) :
    (∀ k : StubCase, k.holds out = true ↔ k = lineCase out) ∧
    stubLine errorMsg c out = stubCaseStep errorMsg c out (lineCase out) ∧
    (∃ c', readStubOutput errorMsg { c with m_stubSocket := some sock } = some c') ∧
    (∃ c', stubExited errorMsg c = some c') := by
  refine ⟨holds_iff_lineCase out, stubLine_eq_stubCaseStep errorMsg c out, ?_, ?_⟩
  · obtain ⟨c1, _, h1, _⟩ := readStubOutput_isSome errorMsg
      (pendingBytes { c with m_stubSocket := some sock } + 1)
      { c with m_stubSocket := some sock } sock rfl (by omega)
    exact ⟨c1, h1⟩
  · obtain ⟨c1, h1⟩ := stubServerShutdown_isSome errorMsg (waitForDisconnected c)
    simp only [stubExited, h1, Option.map_some']
    exact ⟨_, rfl⟩

/-! ## Error lines, control bytes and the start in debug mode -/

/-- C7: a buffered line that starts with none of the prefixes `err:chdir `,
`err:exec `, `spid `, `pid `, `exit `, `crash ` puts the session into a failed
state: `error()` becomes `UnknownError` with the message
`Unexpected output from helper program (<line>).`, the terminal process is
asked to terminate, and the rest of the buffer stays unread in that call, so
that nothing else of the state changes. -/
theorem readStubOutput_unexpected_line (errorMsg : Int → QString) (c : ConsoleProcess)
    (sock : LocalSocket) (line rest : QByteArray)
    (hs : c.m_stubSocket = some sock)
    (hb : sock.readBuffer = line ++ '\n' :: rest) (hl : '\n' ∉ line)
    (hp : ∀ p ∈ stubPrefixes, startsWith line p = false) :
    readStubOutput errorMsg c = some
      { c with m_stubSocket := some { sock with readBuffer := rest },
               m_error := ProcessError.UnknownError,
               m_errorString := "Unexpected output from helper program (".toList ++ line
                 ++ ").".toList,
               m_process := { c.m_process with
                 terminateCalls := c.m_process.terminateCalls + 1 },
               emitted := c.emitted ++ [Signal.errorOccurred ProcessError.UnknownError] } := by
  have h1 := hp "err:chdir ".toList (by decide)
  have h2 := hp "err:exec ".toList (by decide)
  have h3 := hp "spid ".toList (by decide)
  have h4 := hp "pid ".toList (by decide)
  have h5 := hp "exit ".toList (by decide)
  have h6 := hp "crash ".toList (by decide)
  have hstep : ∀ c0 : ConsoleProcess, stubLine errorMsg c0 line
      = ({ emitError c0 ProcessError.UnknownError (msgUnexpectedOutput line) with
            m_process := c0.m_process.terminate }, false) := by
    intro c0
    unfold stubLine
    rw [if_neg (by rw [h1]; decide), if_neg (by rw [h2]; decide), if_neg (by rw [h3]; decide),
      if_neg (by rw [h4]; decide), if_neg (by rw [h5]; decide), if_neg (by rw [h6]; decide)]
    rfl
  rw [readStubOutput_line errorMsg c sock line rest hs hb hl, hstep]
  rfl

theorem readStubOutput_unexpected_line_witness :
    ('\n' ∉ "hello".toList ∧ ∀ p ∈ stubPrefixes, startsWith "hello".toList p = false) ∧
    readStubOutput (fun _ => []) (sessionWithBuffer "hello\nexit 0\n".toList) = some
      { sessionWithBuffer "hello\nexit 0\n".toList with
        m_stubSocket := some
          { (⟨"hello\nexit 0\n".toList, true, true, LocalSocketState.ConnectedState⟩ :
              LocalSocket) with readBuffer := "exit 0\n".toList },
        m_error := ProcessError.UnknownError,
        m_errorString := "Unexpected output from helper program (".toList ++ "hello".toList
          ++ ").".toList,
        m_process := { (sessionWithBuffer "hello\nexit 0\n".toList).m_process with
          terminateCalls := (sessionWithBuffer "hello\nexit 0\n".toList).m_process.terminateCalls
            + 1 },
        emitted := (sessionWithBuffer "hello\nexit 0\n".toList).emitted
          ++ [Signal.errorOccurred ProcessError.UnknownError] } :=
  ⟨by decide,
   readStubOutput_unexpected_line (fun _ => []) (sessionWithBuffer "hello\nexit 0\n".toList)
     ⟨"hello\nexit 0\n".toList, true, true, LocalSocketState.ConnectedState⟩
     "hello".toList "exit 0\n".toList rfl (by decide) (by decide) (by decide)⟩

/-- C8: a buffered line `err:chdir <code>` sets `error()` to `FailedToStart`
with the message `Cannot change to working directory "<dir>": <text>`, and a
line `err:exec <code>` sets `error()` to `FailedToStart` with the message
`Cannot execute "<executable>": <text>`, `<text>` being the platform text of
`<code>`; neither line records a pid, emits `started` or emits `finished`. -/
theorem readStubOutput_err_line (errorMsg : Int → QString) (c : ConsoleProcess)
    (sock : LocalSocket) (code : Int) (rest : QByteArray) (exec : Bool)
    (hcode : -2147483648 ≤ code ∧ code ≤ 2147483647)
    (hs : c.m_stubSocket = some sock)
    (hb : sock.readBuffer
      = ((if exec then "err:exec ".toList else "err:chdir ".toList) ++ decimal code)
          ++ '\n' :: rest)
    (hrest : readLine rest = none) :
    ∃ c', readStubOutput errorMsg c = some c' ∧
      c'.m_error = ProcessError.FailedToStart ∧
      c'.m_errorString =
        (if exec then
          "Cannot execute \"".toList ++ c.m_commandLine.executable ++ "\": ".toList
            ++ errorMsg code
         else
          "Cannot change to working directory \"".toList ++ c.m_workingDir ++ "\": ".toList
            ++ errorMsg code) ∧
      c'.m_processId = c.m_processId ∧
      c'.emitted = c.emitted ++ [Signal.errorOccurred ProcessError.FailedToStart] := by
  cases exec with
  | false =>
    simp only [Bool.false_eq_true, if_false] at hb ⊢
    have hl : '\n' ∉ "err:chdir ".toList ++ decimal code :=
      newline_not_mem_line _ code (by decide)
    refine ⟨_, readStubOutput_single errorMsg c sock _ rest hs hb hl hrest ?_, ?_⟩
    · rw [stubLine_errChdir]
    · rw [stubLine_errChdir, toInt_decimal code hcode]
      exact ⟨rfl, rfl, rfl, rfl⟩
  | true =>
    simp only [if_true] at hb ⊢
    have hl : '\n' ∉ "err:exec ".toList ++ decimal code :=
      newline_not_mem_line _ code (by decide)
    refine ⟨_, readStubOutput_single errorMsg c sock _ rest hs hb hl hrest ?_, ?_⟩
    · rw [stubLine_errExec]
    · rw [stubLine_errExec, toInt_decimal code hcode]
      exact ⟨rfl, rfl, rfl, rfl⟩

theorem readStubOutput_err_line_witness :
    (-2147483648 ≤ (2 : Int) ∧ (2 : Int) ≤ 2147483647) ∧
    ∃ c', readStubOutput (fun _ => "No such file or directory".toList)
        (sessionWithBuffer "err:chdir 2\n".toList) = some c' ∧
      c'.m_error = ProcessError.FailedToStart ∧
      c'.m_errorString =
        (if false then
          "Cannot execute \"".toList
            ++ (sessionWithBuffer "err:chdir 2\n".toList).m_commandLine.executable
            ++ "\": ".toList ++ (fun _ => "No such file or directory".toList) (2 : Int)
         else
          "Cannot change to working directory \"".toList
            ++ (sessionWithBuffer "err:chdir 2\n".toList).m_workingDir ++ "\": ".toList
            ++ (fun _ => "No such file or directory".toList) (2 : Int)) ∧
      c'.m_processId = (sessionWithBuffer "err:chdir 2\n".toList).m_processId ∧
      c'.emitted = (sessionWithBuffer "err:chdir 2\n".toList).emitted
        ++ [Signal.errorOccurred ProcessError.FailedToStart] :=
  ⟨by decide,
   readStubOutput_err_line (fun _ => "No such file or directory".toList)
     (sessionWithBuffer "err:chdir 2\n".toList)
     ⟨"err:chdir 2\n".toList, true, true, LocalSocketState.ConnectedState⟩ 2 [] false
     (by decide) rfl (by decide) rfl⟩

/-- C9: `kickoffProcess`, `interruptProcess` and `killProcess` write exactly
the single byte `c`, `i` and `k` to the control channel when a stub socket
exists and is writable, and write nothing otherwise; in every state they emit
no signal and leave `error()`, `errorString()`, `exitCode()` and
`exitStatus()` unchanged. -/
theorem control_bytes (c : ConsoleProcess) :
    (kickoffProcess c).written = c.written ++ (if canWrite c then ['c'] else []) ∧
    (interruptProcess c).written = c.written ++ (if canWrite c then ['i'] else []) ∧
    (killProcess c).written = c.written ++ (if canWrite c then ['k'] else []) ∧
    ((kickoffProcess c).m_error = c.m_error ∧
      (kickoffProcess c).m_errorString = c.m_errorString ∧
      (kickoffProcess c).m_exitCode = c.m_exitCode ∧
      (kickoffProcess c).m_appStatus = c.m_appStatus ∧
      (kickoffProcess c).emitted = c.emitted) ∧
    ((interruptProcess c).m_error = c.m_error ∧
      (interruptProcess c).m_errorString = c.m_errorString ∧
      (interruptProcess c).m_exitCode = c.m_exitCode ∧
      (interruptProcess c).m_appStatus = c.m_appStatus ∧
      (interruptProcess c).emitted = c.emitted) ∧
    ((killProcess c).m_error = c.m_error ∧
      (killProcess c).m_errorString = c.m_errorString ∧
      (killProcess c).m_exitCode = c.m_exitCode ∧
      (killProcess c).m_appStatus = c.m_appStatus ∧
      (killProcess c).emitted = c.emitted) := by
  have key : ∀ byte : Char,
      (writeControl c byte).written = c.written ++ (if canWrite c then [byte] else []) ∧
      (writeControl c byte).m_error = c.m_error ∧
      (writeControl c byte).m_errorString = c.m_errorString ∧
      (writeControl c byte).m_exitCode = c.m_exitCode ∧
      (writeControl c byte).m_appStatus = c.m_appStatus ∧
      (writeControl c byte).emitted = c.emitted := by
    intro byte
    unfold writeControl canWrite
    split
    · split_ifs <;> simp
    · simp
  obtain ⟨k1, k2, k3, k4, k5, k6⟩ := key 'c'
  obtain ⟨i1, i2, i3, i4, i5, i6⟩ := key 'i'
  obtain ⟨l1, l2, l3, l4, l5, l6⟩ := key 'k'
  exact ⟨k1, i1, l1, ⟨k2, k3, k4, k5, k6⟩, ⟨i2, i3, i4, i5, i6⟩, ⟨l2, l3, l4, l5, l6⟩⟩

/-- C10: when `start` prepares the arguments of the command (the session is
not running), the preparation reports `FoundMeta` and the mode is `Debug`,
`start` fails with `error() = FailedToStart` and the message
`Debugging complex shell commands in a terminal is currently not supported.`;
it returns with the stub server, the environment file, the terminal process
and the connect timer as they were: nothing is listened on, created or
started. -/
theorem start_debug_foundMeta (errorMsg : Int → QString) (h : StartHost) (c : ConsoleProcess)
    (hrun : isRunning c = false)
    (hmeta : (h.prepareArgs c.m_commandLine.arguments c.m_environment c.m_workingDir
      c.m_abortOnMetaChars).2 = SplitError.FoundMeta)
    (hmode : c.m_mode = Mode.Debug) :
    ∃ c', start errorMsg h c = some c' ∧
      c'.m_error = ProcessError.FailedToStart ∧
      c'.m_errorString
        = "Debugging complex shell commands in a terminal is currently not supported.".toList ∧
      c'.emitted = c.emitted ++ [Signal.errorOccurred ProcessError.FailedToStart] ∧
      c'.m_stubServer = c.m_stubServer ∧ c'.m_stubServerDir = c.m_stubServerDir ∧
      c'.m_stubSocket = c.m_stubSocket ∧ c'.m_tempFile = c.m_tempFile ∧
      c'.m_process = c.m_process ∧ c'.m_stubConnectTimer = c.m_stubConnectTimer ∧
      c'.removedDirs = c.removedDirs ∧ c'.written = c.written := by
  have hcmd : startCommand h
      { c with m_errorString := [], m_error := ProcessError.UnknownError }
      = Except.error
        "Debugging complex shell commands in a terminal is currently not supported.".toList := by
    unfold startCommand
    simp only [hmeta, hmode]
    rfl
  unfold start
  simp only [hrun, Bool.false_eq_true, if_false, hcmd]
  exact ⟨_, rfl, rfl, rfl, rfl, rfl, rfl, rfl, rfl, rfl, rfl, rfl, rfl⟩

theorem start_debug_foundMeta_witness :
    (isRunning debugPipeSession = false ∧
      (exampleHost.prepareArgs debugPipeSession.m_commandLine.arguments
        debugPipeSession.m_environment debugPipeSession.m_workingDir
        debugPipeSession.m_abortOnMetaChars).2 = SplitError.FoundMeta ∧
      debugPipeSession.m_mode = Mode.Debug) ∧
    ∃ c', start (fun _ => []) exampleHost debugPipeSession = some c' ∧
      c'.m_error = ProcessError.FailedToStart ∧
      c'.m_errorString
        = "Debugging complex shell commands in a terminal is currently not supported.".toList ∧
      c'.emitted = debugPipeSession.emitted
        ++ [Signal.errorOccurred ProcessError.FailedToStart] ∧
      c'.m_stubServer = debugPipeSession.m_stubServer ∧
      c'.m_stubServerDir = debugPipeSession.m_stubServerDir ∧
      c'.m_stubSocket = debugPipeSession.m_stubSocket ∧
      c'.m_tempFile = debugPipeSession.m_tempFile ∧
      c'.m_process = debugPipeSession.m_process ∧
      c'.m_stubConnectTimer = debugPipeSession.m_stubConnectTimer ∧
      c'.removedDirs = debugPipeSession.removedDirs ∧
      c'.written = debugPipeSession.written :=
  ⟨by decide,
   start_debug_foundMeta (fun _ => []) exampleHost debugPipeSession (by decide) (by decide)
     (by decide)⟩

/-! ## The quoting rules of `quoteWinArgument` -/

/-- The replacement adds backslashes only: it keeps the white space. -/
theorem escapeQuotes_any_space (s : QString) :
    ∀ n, (escapeQuotes n s).any isRegexSpace = s.any isRegexSpace := by
  have hrep : ∀ n, (List.replicate n '\\').any isRegexSpace = false := by
    intro n
    rw [List.any_eq_false]
    intro x hx
    rw [List.eq_of_mem_replicate hx]
    decide
  induction s with
  | nil => intro n; simp [escapeQuotes, hrep]
  | cons c cs ih =>
    intro n
    rw [escapeQuotes]
    split_ifs with h1 h2
    · subst h1
      rw [ih, List.any_cons]
      have : isRegexSpace '\\' = false := by decide
      rw [this, Bool.false_or]
    · subst h2
      simp only [List.any_append, List.any_cons, hrep, ih, Bool.false_or]
      have e1 : isRegexSpace '\\' = false := by decide
      have e2 : isRegexSpace '"' = false := by decide
      rw [e1, e2, Bool.false_or]
    · simp only [List.any_append, List.any_cons, hrep, ih, Bool.false_or]

/-- Without a double quote nothing is replaced. -/
theorem escapeQuotes_no_quote (s : QString) (h : '"' ∉ s) :
    ∀ n, escapeQuotes n s = List.replicate n '\\' ++ s := by
  induction s with
  | nil => intro n; simp [escapeQuotes]
  | cons c cs ih =>
    intro n
    have hc : c ≠ '"' := fun e => h (by simp [e])
    have hcs : '"' ∉ cs := fun e => h (by simp [e])
    rw [escapeQuotes]
    split_ifs with h1
    · subst h1
      rw [ih hcs, List.replicate_succ', List.append_assoc]
      rfl
    · rw [ih hcs]
      rfl

/-- The result of `quoteWinArgument` for an argument with white space: the
escaped body in quotes, then the trailing backslashes. -/
theorem quoteWinArgument_of_space (arg : QString) (hsp : arg.any isRegexSpace = true) :
    ∃ body pre x k, arg = body ++ List.replicate k '\\' ∧ body.getLast? ≠ some '\\' ∧
      x ≠ '\\' ∧ escapeQuotes 0 body = pre ++ [x] ∧
      escapeQuotes 0 arg = (pre ++ [x]) ++ List.replicate k '\\' ∧
      quoteWinArgument arg = '"' :: ((pre ++ [x]) ++ '"' :: List.replicate k '\\') := by
  obtain ⟨body, k, ha, hbody⟩ := exists_body_backslashes arg
  have hbne : body ≠ [] := by
    rintro rfl
    rw [ha, List.nil_append, List.any_eq_true] at hsp
    obtain ⟨x, hx, hxs⟩ := hsp
    rw [List.eq_of_mem_replicate hx] at hxs
    exact absurd hxs (by decide)
  obtain ⟨pre0, x0, hb, hx0⟩ : ∃ pre0 x0, body = pre0 ++ [x0] ∧ x0 ≠ '\\' := by
    rcases hbody with hb | h
    · exact absurd hb hbne
    · exact h
  obtain ⟨pre, x, hesc, hx⟩ := escapeQuotes_last pre0 0 x0 hx0
  rw [← hb] at hesc
  have hret : escapeQuotes 0 arg = (pre ++ [x]) ++ List.replicate k '\\' := by
    rw [ha, escapeQuotes_append_backslashes, hesc]
  have hlast : body.getLast? ≠ some '\\' := by
    rw [hb, List.getLast?_append, List.getLast?_singleton]
    simpa using hx0
  have harg : arg.isEmpty = false := by
    cases arg with
    | nil => simp at hsp
    | cons _ _ => rfl
  have hsp' : (escapeQuotes 0 arg).any isRegexSpace = true := by
    rw [escapeQuotes_any_space]; exact hsp
  have hi : skipTrailingBackslashes (escapeQuotes 0 arg) (escapeQuotes 0 arg).length
      = (pre ++ [x]).length := by
    rw [hret, List.length_append, List.length_replicate]
    exact skipTrailingBackslashes_eq _ k (Or.inr ⟨pre, x, rfl, hx⟩) k (le_refl k)
  refine ⟨body, pre, x, k, ha, hlast, hx, hesc, hret, ?_⟩
  unfold quoteWinArgument
  simp only [harg, Bool.false_eq_true, if_false, hsp', if_true]
  rw [hi, hret, List.take_left' rfl, List.drop_left' rfl]

/-- C13: for every non-empty argument, `quoteWinArgument` encloses the escaped
argument in a pair of added double quotes if and only if the argument holds a
white space character (the class `\s`); without white space the escaped
argument is returned, which is the argument itself when it holds no double
quote either; the empty argument gives two double quotes. -/
theorem quoteWinArgument_quotes_iff_space (arg : QString) (hne : arg ≠ []) :
    ((∃ body tail, escapeQuotes 0 arg = body ++ tail ∧
        quoteWinArgument arg = '"' :: (body ++ '"' :: tail)) ↔ arg.any isRegexSpace = true) ∧
    (arg.any isRegexSpace = false → quoteWinArgument arg = escapeQuotes 0 arg) ∧
    (arg.any isRegexSpace = false → '"' ∉ arg → quoteWinArgument arg = arg) ∧
    quoteWinArgument [] = ['"', '"'] := by
  have harg : arg.isEmpty = false := by
    cases arg with
    | nil => exact absurd rfl hne
    | cons _ _ => rfl
  have hplain : arg.any isRegexSpace = false → quoteWinArgument arg = escapeQuotes 0 arg := by
    intro h
    unfold quoteWinArgument
    simp only [harg, Bool.false_eq_true, if_false, escapeQuotes_any_space, h]
  refine ⟨⟨?_, ?_⟩, hplain, ?_, rfl⟩
  · rintro ⟨body, tail, hesc, hq⟩
    cases hsp : arg.any isRegexSpace with
    | true => rfl
    | false =>
      exfalso
      have hlen := congrArg List.length hq
      rw [hplain hsp, hesc] at hlen
      simp only [List.length_append, List.length_cons] at hlen
      omega
  · intro hsp
    obtain ⟨_, pre, x, k, _, _, _, _, hret, hq⟩ := quoteWinArgument_of_space arg hsp
    exact ⟨pre ++ [x], List.replicate k '\\', hret, hq⟩
  · intro hsp hq
    rw [hplain hsp, escapeQuotes_no_quote arg hq 0]
    rfl

theorem quoteWinArgument_quotes_iff_space_witness :
    "a b\\".toList ≠ [] ∧
    (((∃ body tail, escapeQuotes 0 "a b\\".toList = body ++ tail ∧
        quoteWinArgument "a b\\".toList = '"' :: (body ++ '"' :: tail))
        ↔ "a b\\".toList.any isRegexSpace = true) ∧
    ("a b\\".toList.any isRegexSpace = false →
      quoteWinArgument "a b\\".toList = escapeQuotes 0 "a b\\".toList) ∧
    ("a b\\".toList.any isRegexSpace = false → '"' ∉ "a b\\".toList →
      quoteWinArgument "a b\\".toList = "a b\\".toList) ∧
    quoteWinArgument [] = ['"', '"']) :=
  ⟨by decide, quoteWinArgument_quotes_iff_space "a b\\".toList (by decide)⟩

/-- The runs of a string are a decomposition of the backslashes read before
and the string. -/
theorem backslashRuns_text (s : QString) :
    ∀ n, ((backslashRuns n s).map BackslashRun.text).flatten = List.replicate n '\\' ++ s := by
  induction s with
  | nil => intro n; simp [backslashRuns, BackslashRun.text]
  | cons c cs ih =>
    intro n
    rw [backslashRuns]
    split_ifs with h1
    · subst h1
      rw [ih, List.replicate_succ', List.append_assoc]
      rfl
    · simp [ih, BackslashRun.text]

/-- The runs are maximal: no run is followed by a backslash. -/
theorem backslashRuns_maximal (s : QString) :
    ∀ n, ∀ r ∈ backslashRuns n s, r.next ≠ some '\\' := by
  induction s with
  | nil =>
    intro n r hr
    simp only [backslashRuns, List.mem_singleton] at hr
    subst hr
    simp
  | cons c cs ih =>
    intro n r hr
    rw [backslashRuns] at hr
    split_ifs at hr with h1
    · exact ih _ r hr
    · rcases List.mem_cons.mp hr with hr | hr
      · subst hr
        simpa using h1
      · exact ih _ r hr

/-- The regular expression replacement is the rule applied to every run. -/
theorem escapeQuotes_eq_runs (s : QString) :
    ∀ n, escapeQuotes n s = ((backslashRuns n s).map BackslashRun.escaped).flatten := by
  induction s with
  | nil => intro n; simp [escapeQuotes, backslashRuns, BackslashRun.escaped, BackslashRun.text]
  | cons c cs ih =>
    intro n
    rw [escapeQuotes, backslashRuns]
    split_ifs with h1 h2
    · exact ih _
    · subst h2
      rw [ih]
      simp only [List.map_cons, List.flatten_cons, BackslashRun.escaped, if_true]
      rw [two_mul, List.replicate_add]
      simp only [List.append_assoc, List.cons_append, List.nil_append]
    · rw [ih]
      have hne : (some c : Option Char) ≠ some '"' := by simpa using h2
      simp only [List.map_cons, List.flatten_cons, BackslashRun.escaped, if_neg hne,
        BackslashRun.text]
      simp

/-- C14: for every argument, `quoteWinArgument` replaces each maximal run of
`n ≥ 0` backslashes that is directly followed by a double quote with `2n`
backslashes followed by backslash and double quote, and leaves every other
backslash run as it is: the argument is the sequence of its maximal runs, the
escaping of the code is the rule of the specification applied run by run, and
the result is that text, as it is or with the two added quotes. -/
theorem quoteWinArgument_backslash_runs (arg : QString) :
    ((backslashRuns 0 arg).map BackslashRun.text).flatten = arg ∧
    (∀ r ∈ backslashRuns 0 arg, r.next ≠ some '\\') ∧
    escapeQuotes 0 arg = escapeRuns arg ∧
    (quoteWinArgument arg = escapeRuns arg ∨
      ∃ body tail, escapeRuns arg = body ++ tail ∧
        quoteWinArgument arg = '"' :: (body ++ '"' :: tail)) := by
  have hesc : escapeQuotes 0 arg = escapeRuns arg := escapeQuotes_eq_runs arg 0
  refine ⟨by simpa using backslashRuns_text arg 0, backslashRuns_maximal arg 0, hesc, ?_⟩
  rw [← hesc]
  cases arg with
  | nil => exact Or.inr ⟨[], [], rfl, rfl⟩
  | cons a as =>
    cases hsp : (a :: as).any isRegexSpace with
    | false =>
      left
      unfold quoteWinArgument
      simp only [List.isEmpty_cons, Bool.false_eq_true, if_false, escapeQuotes_any_space, hsp]
    | true =>
      right
      obtain ⟨_, pre, x, k, _, _, _, _, hret, hq⟩ := quoteWinArgument_of_space (a :: as) hsp
      exact ⟨pre ++ [x], List.replicate k '\\', hret, hq⟩

/-- C15: for every argument that holds white space, the closing double quote
that `quoteWinArgument` adds directly follows a character `x` that is no
backslash; all `k` trailing backslashes of the argument (the argument is a
body that does not end in a backslash, then `k` backslashes) stand after the
closing quote, and nothing else stands there. -/
theorem quoteWinArgument_closing_quote (arg : QString) (hsp : arg.any isRegexSpace = true) :
    ∃ body pre x k, arg = body ++ List.replicate k '\\' ∧ body.getLast? ≠ some '\\' ∧
      x ≠ '\\' ∧ escapeQuotes 0 body = pre ++ [x] ∧
      quoteWinArgument arg = '"' :: ((pre ++ [x]) ++ '"' :: List.replicate k '\\') := by
  obtain ⟨body, pre, x, k, ha, hlast, hx, hesc, _, hq⟩ := quoteWinArgument_of_space arg hsp
  exact ⟨body, pre, x, k, ha, hlast, hx, hesc, hq⟩

theorem quoteWinArgument_closing_quote_witness :
    "foo bar\\\\".toList.any isRegexSpace = true ∧
    ∃ body pre x k, "foo bar\\\\".toList = body ++ List.replicate k '\\' ∧
      body.getLast? ≠ some '\\' ∧ x ≠ '\\' ∧ escapeQuotes 0 body = pre ++ [x] ∧
      quoteWinArgument "foo bar\\\\".toList
        = '"' :: ((pre ++ [x]) ++ '"' :: List.replicate k '\\') :=
  ⟨by decide, quoteWinArgument_closing_quote "foo bar\\\\".toList (by decide)⟩

/-! ## The command and the environment file of `start` -/

/-- `start` is the command, then the launch. -/
theorem start_eq_startLaunch (errorMsg : Int → QString) (h : StartHost) (c : ConsoleProcess) :
    start errorMsg h c =
      if isRunning c then some c
      else
        match startCommand h { c with m_errorString := [], m_error := ProcessError.UnknownError }
        with
        | Except.error msg =>
          some (emitError { c with m_errorString := [], m_error := ProcessError.UnknownError }
            ProcessError.FailedToStart msg)
        | Except.ok (pcmd, pargs) =>
          startLaunch errorMsg h
            { c with m_errorString := [], m_error := ProcessError.UnknownError } pcmd pargs := rfl

/-- The shell fallback of `startCommand`. -/
theorem startCommand_foundMeta (h : StartHost) (c : ConsoleProcess)
    (hmeta : (h.prepareArgs c.m_commandLine.arguments c.m_environment c.m_workingDir
      c.m_abortOnMetaChars).2 = SplitError.FoundMeta)
    (hmode : c.m_mode ≠ Mode.Debug) :
    startCommand h c = Except.ok (h.shell.getD "/bin/sh".toList,
      ProcessArgs.createUnixArgs
        ["-c".toList,
         h.quoteArg c.m_commandLine.executable ++ ' ' :: c.m_commandLine.arguments]) := by
  unfold startCommand
  simp only [hmeta]
  rw [if_neg (by decide), if_neg (by simp), if_neg hmode]

/-- What `cleanupAfterStartFailure` leaves. -/
theorem cleanupAfterStartFailure_some {errorMsg : Int → QString} {c c' : ConsoleProcess}
    {msg : QString} (h : cleanupAfterStartFailure errorMsg c msg = some c') :
    c'.m_tempFile = none ∧ c'.m_errorString = msg ∧
      ∃ c1, stubServerShutdown errorMsg c = some c1 ∧ c'.m_process = c1.m_process := by
  unfold cleanupAfterStartFailure at h
  rw [Option.map_eq_some'] at h
  obtain ⟨c1, h1, rfl⟩ := h
  exact ⟨rfl, rfl, c1, h1, rfl⟩

/-- `stubServerListen` changes the server and its directory only. -/
theorem stubServerListen_frame (h : StartHost) (c : ConsoleProcess) :
    (stubServerListen h c).1.m_environment = c.m_environment ∧
    (stubServerListen h c).1.m_tempFile = c.m_tempFile ∧
    (stubServerListen h c).1.m_errorString = c.m_errorString ∧
    (stubServerListen h c).1.m_process = c.m_process ∧
    (stubServerListen h c).1.m_stubSocket = c.m_stubSocket ∧
    (stubServerListen h c).1.written = c.written ∧
    (stubServerListen h c).1.m_mode = c.m_mode ∧
    (stubServerListen h c).1.m_workingDir = c.m_workingDir ∧
    (stubServerListen h c).1.m_runAsRoot = c.m_runAsRoot := by
  have hfold : ∀ (l : List QString) (c0 : ConsoleProcess),
      (l.foldl (fun c dir => { c with m_stubServerDir := dir }) c0).m_environment
        = c0.m_environment ∧
      (l.foldl (fun c dir => { c with m_stubServerDir := dir }) c0).m_tempFile = c0.m_tempFile ∧
      (l.foldl (fun c dir => { c with m_stubServerDir := dir }) c0).m_errorString
        = c0.m_errorString ∧
      (l.foldl (fun c dir => { c with m_stubServerDir := dir }) c0).m_process = c0.m_process ∧
      (l.foldl (fun c dir => { c with m_stubServerDir := dir }) c0).m_stubSocket
        = c0.m_stubSocket ∧
      (l.foldl (fun c dir => { c with m_stubServerDir := dir }) c0).written = c0.written ∧
      (l.foldl (fun c dir => { c with m_stubServerDir := dir }) c0).m_mode = c0.m_mode ∧
      (l.foldl (fun c dir => { c with m_stubServerDir := dir }) c0).m_workingDir
        = c0.m_workingDir ∧
      (l.foldl (fun c dir => { c with m_stubServerDir := dir }) c0).m_runAsRoot
        = c0.m_runAsRoot := by
    intro l
    induction l with
    | nil => intro c0; exact ⟨rfl, rfl, rfl, rfl, rfl, rfl, rfl, rfl, rfl⟩
    | cons d l ih => intro c0; exact ih _
  unfold stubServerListen
  cases h.listenOutcome <;> exact hfold _ c

/-! ## Monitors of the stub lines -/

theorem readLine_split {buf line rest : QByteArray} (h : readLine buf = some (line, rest)) :
    ∃ l, line = l ++ ['\n'] ∧ '\n' ∉ l ∧ buf = l ++ '\n' :: rest := by
  induction buf generalizing line with
  | nil => simp [readLine] at h
  | cons c cs ih =>
    rw [readLine] at h
    split_ifs at h with hc
    · simp only [Option.some.injEq, Prod.mk.injEq] at h
      obtain ⟨rfl, rfl⟩ := h
      exact ⟨[], by simp [hc], by simp, by simp [hc]⟩
    · cases hr : readLine cs with
      | none => rw [hr] at h; exact Option.noConfusion h
      | some p =>
        obtain ⟨l0, r0⟩ := p
        rw [hr] at h
        simp only [Option.some.injEq, Prod.mk.injEq] at h
        obtain ⟨rfl, rfl⟩ := h
        obtain ⟨l, hl, hn, hb⟩ := ih hr
        refine ⟨c :: l, by simp [hl], ?_, by simp [hb]⟩
        intro hm
        rcases List.mem_cons.mp hm with hm | hm
        · exact hc hm.symm
        · exact hn hm

/-- The monitor on a buffer that starts with a complete line. -/
theorem linesAccepted_line {S : Type} (δ : S → QByteArray → Option S) (l rest : QByteArray)
    (hl : '\n' ∉ l) :
    ∀ (s : S) (cur : QByteArray), linesAccepted δ s cur (l ++ '\n' :: rest) =
      match δ s (cur.reverse ++ l) with
      | none => false
      | some s' => linesAccepted δ s' [] rest := by
  induction l with
  | nil =>
    intro s cur
    simp [linesAccepted]
  | cons c cs ih =>
    intro s cur
    have hc : c ≠ '\n' := fun e => hl (by simp [e])
    have hcs : '\n' ∉ cs := fun e => hl (by simp [e])
    rw [List.cons_append, linesAccepted, if_neg hc, ih hcs]
    simp

/-- The monitor that accepts every line accepts every buffer. -/
theorem linesAccepted_anyLine (buf : QByteArray) :
    ∀ cur, linesAccepted anyLine () cur buf = true := by
  induction buf with
  | nil => intro cur; rfl
  | cons c cs ih =>
    intro cur
    rw [linesAccepted]
    split_ifs
    · exact ih []
    · exact ih _

/-- The loop of `readStubOutput` under a monitor: when the lines of the buffer
and of the bytes still to come are accepted, an invariant that every accepted
line keeps holds afterwards, and the unread lines are still accepted. -/
theorem readStubOutputLoop_monitor {S : Type} (errorMsg : Int → QString)
    (δ : S → QByteArray → Option S) (Inv : S → ConsoleProcess → Prop)
    (hsock : ∀ s c x, Inv s c → Inv s { c with m_stubSocket := x })
    (hstep : ∀ s s' c out, δ s out = some s' → Inv s c → Inv s' (stubLine errorMsg c out).1)
    (future : QByteArray) (fuel : Nat) :
    ∀ (c : ConsoleProcess) (sock : LocalSocket) (s : S), c.m_stubSocket = some sock →
      pendingBytes c < fuel → linesAccepted δ s [] (sock.readBuffer ++ future) = true →
      Inv s c →
      ∃ c' sock' s', readStubOutputLoop errorMsg fuel c = some c' ∧
        c'.m_stubSocket = some sock' ∧
        linesAccepted δ s' [] (sock'.readBuffer ++ future) = true ∧ Inv s' c' := by
  induction fuel with
  | zero => intro c sock s _ h; omega
  | succ fuel ih =>
    intro c sock s hs hlt hacc hinv
    rw [readStubOutputLoop]
    simp only [hs]
    cases hl : readLine sock.readBuffer with
    | none => exact ⟨c, sock, s, rfl, hs, hacc, hinv⟩
    | some p =>
      obtain ⟨line, rest⟩ := p
      obtain ⟨l, hline, hnl, hbuf⟩ := readLine_split hl
      have hdrop : line.dropLast = l := by rw [hline, List.dropLast_concat]
      rw [hbuf, List.append_assoc, List.cons_append, linesAccepted_line δ l _ hnl] at hacc
      simp only [List.reverse_nil, List.nil_append] at hacc
      cases hd : δ s l with
      | none => rw [hd] at hacc; exact absurd hacc (by simp)
      | some s1 =>
        rw [hd] at hacc
        simp only at hacc
        simp only [hdrop]
        have hinv1 : Inv s1 (stubLine errorMsg
            { c with m_stubSocket := some { sock with readBuffer := rest } } l).1 :=
          hstep s s1 _ l hd (hsock s c _ hinv)
        have hsock1 := stubLine_socket errorMsg
          { c with m_stubSocket := some { sock with readBuffer := rest } } l
        split_ifs
        · have hlen := readLine_length hl
          have hpb : pendingBytes c = sock.readBuffer.length := by simp [pendingBytes, hs]
          exact ih _ { sock with readBuffer := rest } s1 hsock1
            (by simp only [pendingBytes, hsock1]; omega) hacc hinv1
        · exact ⟨_, { sock with readBuffer := rest }, s1, rfl, hsock1, hacc, hinv1⟩

/-- `readStubOutput` under a monitor. -/
theorem readStubOutput_monitor {S : Type} (errorMsg : Int → QString)
    (δ : S → QByteArray → Option S) (Inv : S → ConsoleProcess → Prop)
    (hsock : ∀ s c x, Inv s c → Inv s { c with m_stubSocket := x })
    (hstep : ∀ s s' c out, δ s out = some s' → Inv s c → Inv s' (stubLine errorMsg c out).1)
    (future : QByteArray) (c : ConsoleProcess) (sock : LocalSocket) (s : S)
    (hs : c.m_stubSocket = some sock)
    (hacc : linesAccepted δ s [] (sock.readBuffer ++ future) = true) (hinv : Inv s c) :
    ∃ c' sock' s', readStubOutput errorMsg c = some c' ∧ c'.m_stubSocket = some sock' ∧
      linesAccepted δ s' [] (sock'.readBuffer ++ future) = true ∧ Inv s' c' :=
  readStubOutputLoop_monitor errorMsg δ Inv hsock hstep future (pendingBytes c + 1) c sock s hs
    (by omega) hacc hinv

/-- An invariant that every line keeps holds after `readStubOutput`. -/
theorem readStubOutput_invariant (errorMsg : Int → QString) (Inv : ConsoleProcess → Prop)
    (hsock : ∀ c x, Inv c → Inv { c with m_stubSocket := x })
    (hstep : ∀ c out, Inv c → Inv (stubLine errorMsg c out).1)
    (c : ConsoleProcess) (sock : LocalSocket) (hs : c.m_stubSocket = some sock) (hinv : Inv c) :
    ∃ c' sock', readStubOutput errorMsg c = some c' ∧ c'.m_stubSocket = some sock' ∧ Inv c' := by
  obtain ⟨c', sock', _, h1, h2, _, h3⟩ := readStubOutput_monitor errorMsg anyLine
    (fun _ => Inv) (fun _ c x h => hsock c x h) (fun _ _ c out _ h => hstep c out h) [] c sock ()
    hs (linesAccepted_anyLine _ []) hinv
  exact ⟨c', sock', h1, h2, h3⟩

/-- An invariant that every line keeps and that does not depend on the socket,
the server and the removed directories holds after `stubServerShutdown`. -/
theorem stubServerShutdown_invariant (errorMsg : Int → QString) (Inv : ConsoleProcess → Prop)
    (hsock : ∀ c x, Inv c → Inv { c with m_stubSocket := x })
    (hserver : ∀ c x y, Inv c → Inv { c with m_stubServer := x, removedDirs := y })
    (hstep : ∀ c out, Inv c → Inv (stubLine errorMsg c out).1)
    (c : ConsoleProcess) (hinv : Inv c) :
    ∃ c', stubServerShutdown errorMsg c = some c' ∧ c'.m_stubSocket = none ∧ Inv c' := by
  have key : ∃ c1, (match c.m_stubSocket with
      | some _ => readStubOutput errorMsg c
      | none => some c) = some c1 ∧ Inv c1 := by
    cases hs : c.m_stubSocket with
    | none => exact ⟨c, rfl, hinv⟩
    | some sock =>
      obtain ⟨c1, _, h1, _, h3⟩ := readStubOutput_invariant errorMsg Inv hsock hstep c sock hs hinv
      exact ⟨c1, h1, h3⟩
  obtain ⟨c1, h1, h3⟩ := key
  unfold stubServerShutdown
  simp only [h1, Option.map_some']
  refine ⟨_, rfl, ?_, ?_⟩
  · split_ifs <;> rfl
  · split_ifs
    · exact hserver { c1 with m_stubSocket := none }
        { c1.m_stubServer with listening := false }
        (c1.removedDirs ++ [c1.m_stubServerDir]) (hsock c1 none h3)
    · exact hsock c1 none h3

/-- The body of the loop of `readStubOutput` leaves the state of the terminal
process and the written bytes alone. -/
theorem stubLine_frame (errorMsg : Int → QString) (c : ConsoleProcess) (out : QByteArray) :
    (stubLine errorMsg c out).1.m_process.state = c.m_process.state ∧
    (stubLine errorMsg c out).1.written = c.written := by
  unfold stubLine
  split_ifs <;> exact ⟨rfl, rfl⟩

/-- `cleanupAfterStartFailure` leaves a terminal process that is not running
as it is, deletes the environment file and sets the error message. -/
theorem cleanupAfterStartFailure_cases {errorMsg : Int → QString} {c c' : ConsoleProcess}
    {msg : QString} (hstate : c.m_process.state = ProcessState.NotRunning)
    (h : cleanupAfterStartFailure errorMsg c msg = some c') :
    c'.m_process.state = ProcessState.NotRunning ∧ c'.m_tempFile = none ∧
      c'.m_errorString = msg := by
  obtain ⟨h1, h2, c1, hshut, hproc⟩ := cleanupAfterStartFailure_some h
  obtain ⟨c2, hshut2, _, hinv⟩ := stubServerShutdown_invariant errorMsg
    (fun c => c.m_process.state = ProcessState.NotRunning)
    (fun _ _ h => h) (fun _ _ _ h => h)
    (fun c out h => (stubLine_frame errorMsg c out).1.trans h) c hstate
  rw [hshut] at hshut2
  simp only [Option.some.injEq] at hshut2
  subst hshut2
  exact ⟨by rw [hproc]; exact hinv, h1, h2⟩

/-- The two ends of `startTerminal`: the terminal does not start and the
failure is cleaned up, or it runs with the stub, the program and its arguments
as its last arguments. -/
theorem startTerminal_cases {errorMsg : Int → QString} {h : StartHost} {c c' : ConsoleProcess}
    {terminalArgs : ProcessArgs} {pcmd : QString} {pargs : ProcessArgs}
    (hs : startTerminal errorMsg h c terminalArgs pcmd pargs = some c') :
    (c'.m_process.state = ProcessState.NotRunning ∧ c'.m_tempFile = none ∧
      ∃ x, c'.m_errorString = "Cannot ".toList ++ x) ∨
    (c'.m_process.state = ProcessState.Running ∧ c'.m_errorString = c.m_errorString ∧
      c'.m_tempFile = c.m_tempFile ∧
      ∃ pre, c'.m_process.command.2 =
        if h.terminal.needsQuotes then [h.joinArgs (pre ++ pcmd :: pargs.toUnixArgs)]
        else pre ++ pcmd :: pargs.toUnixArgs) := by
  unfold startTerminal at hs
  cases hts : h.terminalStarts with
  | false =>
    left
    simp only [hts, Bool.not_false, if_true] at hs
    obtain ⟨h1, h2, h3⟩ := cleanupAfterStartFailure_cases (by simp) hs
    refine ⟨h1, h2, "start the terminal emulator \"".toList ++ h.terminal.command
      ++ "\", change the setting in the Environment options.".toList, ?_⟩
    rw [h3]
    simp
  | true =>
    right
    simp only [hts, Bool.not_true, Bool.false_eq_true, if_false, if_true,
      Option.some.injEq] at hs
    subst hs
    refine ⟨rfl, rfl, rfl, terminalArgs.toUnixArgs
      ++ (if c.m_runAsRoot then ["sudo".toList, "-A".toList] else [])
      ++ [h.applicationDirPath ++ "/".toList ++ h.relativeLibexecPath
            ++ "/qtcreator_process_stub".toList,
          modeOption c.m_mode, c.m_stubServer.fullServerName, msgPromptToClose, c.m_workingDir,
          (match c.m_tempFile with
           | some f => f.fileName
           | none => []),
          decimal h.pid], ?_⟩
    simp

/-- The ends of `startEnvironment`. -/
theorem startEnvironment_cases {errorMsg : Int → QString} {h : StartHost}
    {c c' : ConsoleProcess} {terminalArgs : ProcessArgs} {pcmd : QString} {pargs : ProcessArgs}
    (hstate : c.m_process.state = ProcessState.NotRunning)
    (hs : startEnvironment errorMsg h c terminalArgs pcmd pargs = some c') :
    (c'.m_process.state = ProcessState.NotRunning ∧ c'.m_tempFile = none ∧
      ∃ x, c'.m_errorString = "Cannot ".toList ++ x) ∨
    (c'.m_process.state = ProcessState.Running ∧ c'.m_errorString = c.m_errorString ∧
      ((c.m_environment.toStringList = [] ∧ c'.m_tempFile = c.m_tempFile) ∨
       (c.m_environment.toStringList ≠ [] ∧ ∃ name, h.tempFile = Except.ok name ∧
          c'.m_tempFile = some ⟨name,
            environmentContents h.toLocal8Bit c.m_environment.toStringList⟩)) ∧
      ∃ pre, c'.m_process.command.2 =
        if h.terminal.needsQuotes then [h.joinArgs (pre ++ pcmd :: pargs.toUnixArgs)]
        else pre ++ pcmd :: pargs.toUnixArgs) := by
  unfold startEnvironment at hs
  cases henv : c.m_environment.toStringList with
  | nil =>
    simp only [henv, List.isEmpty_nil, Bool.not_true, Bool.false_eq_true, if_false] at hs
    rcases startTerminal_cases hs with h1 | ⟨h1, h2, h3, h4⟩
    · exact Or.inl h1
    · exact Or.inr ⟨h1, h2, Or.inl ⟨rfl, h3⟩, h4⟩
  | cons v vs =>
    simp only [henv, List.isEmpty_cons, Bool.not_false, if_true] at hs
    cases htf : h.tempFile with
    | error why =>
      left
      simp only [htf] at hs
      have hst : ({ c with m_tempFile := some ⟨[], []⟩ } : ConsoleProcess).m_process.state
          = ProcessState.NotRunning := hstate
      obtain ⟨h1, h2, h3⟩ := cleanupAfterStartFailure_cases hst hs
      exact ⟨h1, h2, "create temporary file: ".toList ++ why, by rw [h3]; simp [msgCannotCreateTempFile]⟩
    | ok name =>
      simp only [htf] at hs
      cases hw : h.tempFileWritten with
      | false =>
        left
        simp only [hw, Bool.not_false, if_true] at hs
        have hst : ({ c with m_tempFile := some ⟨name, []⟩ } : ConsoleProcess).m_process.state
            = ProcessState.NotRunning := hstate
        obtain ⟨h1, h2, h3⟩ := cleanupAfterStartFailure_cases hst hs
        exact ⟨h1, h2, "write temporary file. Disk full?".toList, by rw [h3]; rfl⟩
      | true =>
        simp only [hw, Bool.not_true, Bool.false_eq_true, if_false] at hs
        rcases startTerminal_cases hs with h1 | ⟨h1, h2, h3, h4⟩
        · exact Or.inl h1
        · exact Or.inr ⟨h1, h2, Or.inr ⟨by simp, name, rfl, h3⟩, h4⟩

/-- The ends of `startLaunch`, for a session whose terminal process is not
running: a failure with its message, or the running terminal with the
environment file (for the environment without `TERM`) and the command. -/
theorem startLaunch_cases {errorMsg : Int → QString} {h : StartHost} {c c' : ConsoleProcess}
    {pcmd : QString} {pargs : ProcessArgs}
    (hstate : c.m_process.state = ProcessState.NotRunning)
    (hs : startLaunch errorMsg h c pcmd pargs = some c') :
    (c'.m_process.state = ProcessState.NotRunning ∧
      (c'.m_tempFile = none ∨ c'.m_tempFile = c.m_tempFile) ∧
      (c'.m_errorString = "Quoting error in terminal command.".toList ∨
       c'.m_errorString = "Terminal command may not be a shell command.".toList ∨
       ∃ x, c'.m_errorString = "Cannot ".toList ++ x)) ∨
    (c'.m_process.state = ProcessState.Running ∧ c'.m_errorString = c.m_errorString ∧
      (((c.m_environment.unset "TERM".toList).toStringList = [] ∧
          c'.m_tempFile = c.m_tempFile) ∨
       ((c.m_environment.unset "TERM".toList).toStringList ≠ [] ∧
          ∃ name, h.tempFile = Except.ok name ∧
          c'.m_tempFile = some ⟨name,
            environmentContents h.toLocal8Bit
              (c.m_environment.unset "TERM".toList).toStringList⟩)) ∧
      ∃ pre, c'.m_process.command.2 =
        if h.terminal.needsQuotes then [h.joinArgs (pre ++ pcmd :: pargs.toUnixArgs)]
        else pre ++ pcmd :: pargs.toUnixArgs) := by
  unfold startLaunch at hs
  simp only at hs
  split_ifs at hs with hq hbad hlisten
  · left
    simp only [Option.some.injEq] at hs
    subst hs
    exact ⟨hstate, Or.inr rfl, Or.inl rfl⟩
  · left
    simp only [Option.some.injEq] at hs
    subst hs
    exact ⟨hstate, Or.inr rfl, Or.inr (Or.inl rfl)⟩
  · left
    simp only [Option.some.injEq] at hs
    subst hs
    obtain ⟨_, f2, _, f4, _⟩ := stubServerListen_frame h c
    have hst : (stubServerListen h c).1.m_process.state = ProcessState.NotRunning := by
      rw [f4]; exact hstate
    refine ⟨hst, Or.inr f2, Or.inr (Or.inr ⟨"set up communication channel: ".toList
        ++ (stubServerListen h c).2, ?_⟩)⟩
    show msgCommChannelFailed _ = _
    simp [msgCommChannelFailed]
  · obtain ⟨f1, f2, f3, f4, _⟩ := stubServerListen_frame h c
    have hst : ({ (stubServerListen h c).1 with
        m_environment := (stubServerListen h c).1.m_environment.unset "TERM".toList } :
          ConsoleProcess).m_process.state = ProcessState.NotRunning := by
      show (stubServerListen h c).1.m_process.state = _
      rw [f4]; exact hstate
    rcases startEnvironment_cases hst hs with ⟨h1, h2, h3⟩ | ⟨h1, h2, h3, h4⟩
    · exact Or.inl ⟨h1, Or.inl h2, Or.inr (Or.inr h3)⟩
    · right
      refine ⟨h1, by rw [h2]; exact f3, ?_, h4⟩
      simp only [f1, f2] at h3
      exact h3

theorem isRunning_false {c : ConsoleProcess} (h : isRunning c = false) :
    c.m_process.state = ProcessState.NotRunning := by
  unfold isRunning at h
  simp only [Bool.or_eq_false_iff, bne_eq_false_iff_eq] at h
  exact h.1

/-- `start` returns in every state. -/
theorem start_isSome (errorMsg : Int → QString) (h : StartHost) (c : ConsoleProcess) :
    ∃ c', start errorMsg h c = some c' := by
  have hclean : ∀ (c0 : ConsoleProcess) (msg : QString),
      ∃ c', cleanupAfterStartFailure errorMsg c0 msg = some c' := by
    intro c0 msg
    obtain ⟨c1, h1⟩ := stubServerShutdown_isSome errorMsg c0
    exact ⟨_, by rw [cleanupAfterStartFailure, h1]; rfl⟩
  have hterm : ∀ (c0 : ConsoleProcess) (terminalArgs : ProcessArgs) (pcmd : QString)
      (pargs : ProcessArgs), ∃ c', startTerminal errorMsg h c0 terminalArgs pcmd pargs = some c' := by
    intro c0 terminalArgs pcmd pargs
    unfold startTerminal
    cases hts : h.terminalStarts with
    | false =>
      simp only [Bool.not_false, if_true]
      exact hclean _ _
    | true =>
      simp only [Bool.not_true, Bool.false_eq_true, if_false]
      exact ⟨_, rfl⟩
  have henv : ∀ (c0 : ConsoleProcess) (terminalArgs : ProcessArgs) (pcmd : QString)
      (pargs : ProcessArgs),
      ∃ c', startEnvironment errorMsg h c0 terminalArgs pcmd pargs = some c' := by
    intro c0 terminalArgs pcmd pargs
    unfold startEnvironment
    cases henv : c0.m_environment.toStringList with
    | nil =>
      simp only [List.isEmpty_nil, Bool.not_true, Bool.false_eq_true, if_false]
      exact hterm _ _ _ _
    | cons v vs =>
      simp only [List.isEmpty_cons, Bool.not_false, if_true]
      cases htf : h.tempFile with
      | error why => exact hclean _ _
      | ok name =>
        cases hw : h.tempFileWritten with
        | false =>
          simp only [Bool.not_false, if_true]
          exact hclean _ _
        | true =>
          simp only [Bool.not_true, Bool.false_eq_true, if_false]
          exact hterm _ _ _ _
  rw [start_eq_startLaunch]
  split_ifs
  · exact ⟨_, rfl⟩
  · split
    · exact ⟨_, rfl⟩
    · unfold startLaunch
      simp only
      split_ifs
      · exact ⟨_, rfl⟩
      · exact ⟨_, rfl⟩
      · exact ⟨_, rfl⟩
      · exact henv _ _ _ _

/-- C11, as the code has it: when the mode is `Run` and the preparation of the
arguments reports `FoundMeta`, whatever the value of `abortOnMetaChars` is,
`start` does not fail with the quoting error of the command: the program is
the shell (`$SHELL`, or `/bin/sh`) with the arguments `-c` and the quoted
executable followed by the argument string, and `start` goes on with the
launch.  The launch ends as for any command: it fails for a reason of its own
(the terminal command, the communication channel, the environment file, the
terminal emulator) and the terminal does not run, or the terminal runs with
the shell command as its last arguments and no error message is set. -/
theorem start_run_foundMeta (errorMsg : Int → QString) (h : StartHost) (c : ConsoleProcess)
    (hrun : isRunning c = false)
    (hmeta : (h.prepareArgs c.m_commandLine.arguments c.m_environment c.m_workingDir
      c.m_abortOnMetaChars).2 = SplitError.FoundMeta)
    (hmode : c.m_mode = Mode.Run) :
    startCommand h c = Except.ok (h.shell.getD "/bin/sh".toList,
      ⟨["-c".toList,
        h.quoteArg c.m_commandLine.executable ++ " ".toList ++ c.m_commandLine.arguments]⟩) ∧
    ∃ c', start errorMsg h c = some c' ∧
      c'.m_errorString ≠ "Quoting error in command.".toList ∧
      ((c'.m_process.state = ProcessState.NotRunning ∧
          (c'.m_errorString = "Quoting error in terminal command.".toList ∨
           c'.m_errorString = "Terminal command may not be a shell command.".toList ∨
           ∃ x, c'.m_errorString = "Cannot ".toList ++ x)) ∨
       (c'.m_process.state = ProcessState.Running ∧ c'.m_errorString = [] ∧
          ∃ pre, c'.m_process.command.2 =
            if h.terminal.needsQuotes then
              [h.joinArgs (pre ++ [h.shell.getD "/bin/sh".toList, "-c".toList,
                h.quoteArg c.m_commandLine.executable ++ " ".toList
                  ++ c.m_commandLine.arguments])]
            else
              pre ++ [h.shell.getD "/bin/sh".toList, "-c".toList,
                h.quoteArg c.m_commandLine.executable ++ " ".toList
                  ++ c.m_commandLine.arguments])) := by
  have hm : c.m_mode ≠ Mode.Debug := by rw [hmode]; decide
  have hcmd0 := startCommand_foundMeta h c hmeta hm
  have hcmd : startCommand h
      { c with m_errorString := [], m_error := ProcessError.UnknownError }
      = Except.ok (h.shell.getD "/bin/sh".toList,
          ProcessArgs.createUnixArgs
            ["-c".toList,
             h.quoteArg c.m_commandLine.executable ++ ' ' :: c.m_commandLine.arguments]) :=
    startCommand_foundMeta h _ hmeta hm
  refine ⟨by rw [hcmd0]; simp [ProcessArgs.createUnixArgs], ?_⟩
  obtain ⟨c', hc'⟩ := start_isSome errorMsg h c
  refine ⟨c', hc', ?_⟩
  rw [start_eq_startLaunch] at hc'
  simp only [hrun, Bool.false_eq_true, if_false, hcmd] at hc'
  have hst : ({ c with m_errorString := [], m_error := ProcessError.UnknownError } :
      ConsoleProcess).m_process.state = ProcessState.NotRunning := isRunning_false hrun
  rcases startLaunch_cases hst hc' with ⟨h1, _, h3 | h3 | ⟨x, h3⟩⟩ | ⟨h1, h2, _, pre, h4⟩
  · exact ⟨by rw [h3]; decide, Or.inl ⟨h1, Or.inl h3⟩⟩
  · exact ⟨by rw [h3]; decide, Or.inl ⟨h1, Or.inr (Or.inl h3)⟩⟩
  · refine ⟨?_, Or.inl ⟨h1, Or.inr (Or.inr ⟨x, h3⟩)⟩⟩
    rw [h3]
    intro e
    have := congrArg List.head? e
    simp at this
  · have h2' : c'.m_errorString = [] := h2
    refine ⟨by rw [h2']; decide, Or.inr ⟨h1, h2', pre, ?_⟩⟩
    rw [h4]
    simp [ProcessArgs.createUnixArgs]

theorem start_run_foundMeta_witness :
    (isRunning runPipeSession = false ∧
      (exampleHost.prepareArgs runPipeSession.m_commandLine.arguments
        runPipeSession.m_environment runPipeSession.m_workingDir
        runPipeSession.m_abortOnMetaChars).2 = SplitError.FoundMeta ∧
      runPipeSession.m_mode = Mode.Run) ∧
    (startCommand exampleHost runPipeSession = Except.ok (exampleHost.shell.getD "/bin/sh".toList,
      ⟨["-c".toList,
        exampleHost.quoteArg runPipeSession.m_commandLine.executable ++ " ".toList
          ++ runPipeSession.m_commandLine.arguments]⟩) ∧
    ∃ c', start (fun _ => []) exampleHost runPipeSession = some c' ∧
      c'.m_errorString ≠ "Quoting error in command.".toList ∧
      ((c'.m_process.state = ProcessState.NotRunning ∧
          (c'.m_errorString = "Quoting error in terminal command.".toList ∨
           c'.m_errorString = "Terminal command may not be a shell command.".toList ∨
           ∃ x, c'.m_errorString = "Cannot ".toList ++ x)) ∨
       (c'.m_process.state = ProcessState.Running ∧ c'.m_errorString = [] ∧
          ∃ pre, c'.m_process.command.2 =
            if exampleHost.terminal.needsQuotes then
              [exampleHost.joinArgs (pre ++ [exampleHost.shell.getD "/bin/sh".toList,
                "-c".toList,
                exampleHost.quoteArg runPipeSession.m_commandLine.executable ++ " ".toList
                  ++ runPipeSession.m_commandLine.arguments])]
            else
              pre ++ [exampleHost.shell.getD "/bin/sh".toList, "-c".toList,
                exampleHost.quoteArg runPipeSession.m_commandLine.executable ++ " ".toList
                  ++ runPipeSession.m_commandLine.arguments]))) :=
  ⟨by decide,
   start_run_foundMeta (fun _ => []) exampleHost runPipeSession (by decide) (by decide)
     (by decide)⟩

/-- C11 fails as stated.  In the mode `Run` with `abortOnMetaChars` at its
default `true` and a command for which the preparation reports `FoundMeta`,
`start` reports no error: the terminal runs, and the arguments handed to the
stub end with `/bin/sh`, `-c` and the quoted command line. -/
theorem start_run_foundMeta_launches_shell :
    (runPipeSession.m_mode = Mode.Run ∧ runPipeSession.m_abortOnMetaChars = true ∧
      (exampleHost.prepareArgs runPipeSession.m_commandLine.arguments
        runPipeSession.m_environment runPipeSession.m_workingDir
        runPipeSession.m_abortOnMetaChars).2 = SplitError.FoundMeta) ∧
    (start (fun _ => []) exampleHost runPipeSession).map
      (fun c => (c.m_error, c.m_errorString, c.emitted, c.m_process.state,
        c.m_process.command.2.drop 8))
      = some (ProcessError.UnknownError, [], [], ProcessState.Running,
          ["/bin/sh".toList, "-c".toList, "\"/bin/echo\" a | b".toList]) :=
  ⟨by decide, by rfl⟩

/-- C12: whenever `start` takes the shell fallback (the session is not
running, the preparation of the arguments reports `FoundMeta` and the mode is
not `Debug`), the program handed to the stub is the value of `SHELL`, or
`/bin/sh` when `SHELL` is unset, and its argument list has exactly the two
elements `-c` and the quoted executable, one space and the unmodified argument
string; when the terminal runs, these are the last arguments of its command
(joined into one string when the terminal needs quotes). -/
theorem start_shell_fallback (errorMsg : Int → QString) (h : StartHost) (c : ConsoleProcess)
    (hrun : isRunning c = false)
    (hmeta : (h.prepareArgs c.m_commandLine.arguments c.m_environment c.m_workingDir
      c.m_abortOnMetaChars).2 = SplitError.FoundMeta)
    (hmode : c.m_mode ≠ Mode.Debug) :
    startCommand h c = Except.ok
      (match h.shell with
       | some shell => shell
       | none => "/bin/sh".toList,
       ⟨["-c".toList,
         h.quoteArg c.m_commandLine.executable ++ " ".toList ++ c.m_commandLine.arguments]⟩) ∧
    ∀ c', start errorMsg h c = some c' → c'.m_process.state = ProcessState.Running →
      ∃ pre, c'.m_process.command.2 =
        if h.terminal.needsQuotes then
          [h.joinArgs (pre ++ [h.shell.getD "/bin/sh".toList, "-c".toList,
            h.quoteArg c.m_commandLine.executable ++ " ".toList ++ c.m_commandLine.arguments])]
        else
          pre ++ [h.shell.getD "/bin/sh".toList, "-c".toList,
            h.quoteArg c.m_commandLine.executable ++ " ".toList ++ c.m_commandLine.arguments] := by
  have hcmd := startCommand_foundMeta h c hmeta hmode
  constructor
  · rw [hcmd]
    cases h.shell <;> simp [ProcessArgs.createUnixArgs]
  · intro c' hc' hstate'
    have hcmd0 := startCommand_foundMeta h
      { c with m_errorString := [], m_error := ProcessError.UnknownError } hmeta hmode
    rw [start_eq_startLaunch] at hc'
    simp only [hrun, Bool.false_eq_true, if_false, hcmd0] at hc'
    have hst : ({ c with m_errorString := [], m_error := ProcessError.UnknownError } :
        ConsoleProcess).m_process.state = ProcessState.NotRunning := isRunning_false hrun
    rcases startLaunch_cases hst hc' with ⟨h1, _⟩ | ⟨_, _, _, pre, h4⟩
    · rw [h1] at hstate'
      exact absurd hstate' (by decide)
    · refine ⟨pre, ?_⟩
      rw [h4]
      simp [ProcessArgs.createUnixArgs]

theorem start_shell_fallback_witness :
    (isRunning runPipeSession = false ∧
      (exampleHost.prepareArgs runPipeSession.m_commandLine.arguments
        runPipeSession.m_environment runPipeSession.m_workingDir
        runPipeSession.m_abortOnMetaChars).2 = SplitError.FoundMeta ∧
      runPipeSession.m_mode ≠ Mode.Debug) ∧
    (startCommand exampleHost runPipeSession = Except.ok
      (match exampleHost.shell with
       | some shell => shell
       | none => "/bin/sh".toList,
       ⟨["-c".toList,
         exampleHost.quoteArg runPipeSession.m_commandLine.executable ++ " ".toList
           ++ runPipeSession.m_commandLine.arguments]⟩) ∧
    ∀ c', start (fun _ => []) exampleHost runPipeSession = some c' →
      c'.m_process.state = ProcessState.Running →
      ∃ pre, c'.m_process.command.2 =
        if exampleHost.terminal.needsQuotes then
          [exampleHost.joinArgs (pre ++ [exampleHost.shell.getD "/bin/sh".toList, "-c".toList,
            exampleHost.quoteArg runPipeSession.m_commandLine.executable ++ " ".toList
              ++ runPipeSession.m_commandLine.arguments])]
        else
          pre ++ [exampleHost.shell.getD "/bin/sh".toList, "-c".toList,
            exampleHost.quoteArg runPipeSession.m_commandLine.executable ++ " ".toList
              ++ runPipeSession.m_commandLine.arguments]) :=
  ⟨by decide,
   start_shell_fallback (fun _ => []) exampleHost runPipeSession (by decide) (by decide)
     (by decide)⟩

/-- The test of a prefix in terms of the case of the line. -/
theorem startsWith_iff_lineCase (out : QByteArray) :
    (startsWith out "pid ".toList = true ↔ lineCase out = StubCase.pid) ∧
    (startsWith out "exit ".toList = true ↔ lineCase out = StubCase.exit) ∧
    (startsWith out "crash ".toList = true ↔ lineCase out = StubCase.crash) := by
  refine ⟨?_, ?_, ?_⟩
  · have := holds_iff_lineCase out StubCase.pid
    simp only [StubCase.holds] at this
    rw [this]; exact eq_comm
  · have := holds_iff_lineCase out StubCase.exit
    simp only [StubCase.holds] at this
    rw [this]; exact eq_comm
  · have := holds_iff_lineCase out StubCase.crash
    simp only [StubCase.holds] at this
    rw [this]; exact eq_comm

/-- What a line does to the pid and to the signals, case by case. -/
theorem stubLine_effect (errorMsg : Int → QString) (c : ConsoleProcess) (out : QByteArray) :
    (lineCase out = StubCase.pid ∧
      (stubLine errorMsg c out).1.m_processId = toInt (out.drop 4) ∧
      (stubLine errorMsg c out).1.emitted = c.emitted ++ [Signal.started]) ∨
    ((lineCase out = StubCase.exit ∨ lineCase out = StubCase.crash) ∧
      (stubLine errorMsg c out).1.m_processId = 0 ∧
      (stubLine errorMsg c out).1.emitted = c.emitted ++ [Signal.finished]) ∨
    (lineCase out ≠ StubCase.pid ∧ lineCase out ≠ StubCase.exit ∧
      lineCase out ≠ StubCase.crash ∧
      (stubLine errorMsg c out).1.m_processId = c.m_processId ∧
      ((stubLine errorMsg c out).1.emitted = c.emitted ∨
        ∃ e, (stubLine errorMsg c out).1.emitted = c.emitted ++ [Signal.errorOccurred e])) := by
  rw [stubLine_eq_stubCaseStep]
  cases h : lineCase out
  · exact Or.inr (Or.inr ⟨by decide, by decide, by decide, rfl, Or.inr ⟨_, rfl⟩⟩)
  · exact Or.inr (Or.inr ⟨by decide, by decide, by decide, rfl, Or.inr ⟨_, rfl⟩⟩)
  · exact Or.inr (Or.inr ⟨by decide, by decide, by decide, rfl, Or.inl rfl⟩)
  · exact Or.inl ⟨rfl, rfl, rfl⟩
  · exact Or.inr (Or.inl ⟨Or.inl rfl, rfl, rfl⟩)
  · exact Or.inr (Or.inl ⟨Or.inr rfl, rfl, rfl⟩)
  · exact Or.inr (Or.inr ⟨by decide, by decide, by decide, rfl, Or.inr ⟨_, rfl⟩⟩)

/-- A control operation leaves the socket and the signals alone. -/
theorem ControlOp.apply_frame (op : ControlOp) (c : ConsoleProcess) :
    (op.apply c).m_stubSocket = c.m_stubSocket ∧ (op.apply c).emitted = c.emitted ∧
    (op.apply c).m_processId = (if op = ControlOp.kill then 0 else c.m_processId) := by
  cases op with
  | kickoff =>
    obtain ⟨h1, h2, h3⟩ := writeControl_frame c 'c'
    exact ⟨h2, h3, h1⟩
  | interrupt =>
    obtain ⟨h1, h2, h3⟩ := writeControl_frame c 'i'
    exact ⟨h2, h3, h1⟩
  | kill =>
    obtain ⟨_, h2, h3⟩ := writeControl_frame c 'k'
    exact ⟨h2, h3, rfl⟩

/-- A sequence of events under a monitor: when the lines of the buffer and of
the bytes that the events bring are accepted, an invariant that the accepted
lines and the allowed control operations keep holds afterwards. -/
theorem runEvents_monitor {S : Type} (errorMsg : Int → QString)
    (δ : S → QByteArray → Option S) (Inv : S → ConsoleProcess → Prop)
    (allowed : ControlOp → Bool)
    (hsock : ∀ s c x, Inv s c → Inv s { c with m_stubSocket := x })
    (hstep : ∀ s s' c out, δ s out = some s' → Inv s c → Inv s' (stubLine errorMsg c out).1)
    (hop : ∀ s c op, allowed op = true → Inv s c → Inv s (op.apply c))
    (events : List SessionEvent) :
    ∀ (c : ConsoleProcess) (sock : LocalSocket) (s : S), c.m_stubSocket = some sock →
      (∀ op, SessionEvent.control op ∈ events → allowed op = true) →
      linesAccepted δ s [] (sock.readBuffer ++ eventBytes events) = true → Inv s c →
      ∃ c' sock' s', runEvents errorMsg events c = some c' ∧ c'.m_stubSocket = some sock' ∧
        linesAccepted δ s' [] sock'.readBuffer = true ∧ Inv s' c' := by
  induction events with
  | nil =>
    intro c sock s hs _ hacc hinv
    exact ⟨c, sock, s, rfl, hs, by simpa [eventBytes] using hacc, hinv⟩
  | cons e es ih =>
    intro c sock s hs hops hacc hinv
    have hops' : ∀ op, SessionEvent.control op ∈ es → allowed op = true :=
      fun op h => hops op (List.mem_cons_of_mem _ h)
    cases e with
    | received bytes =>
      have hs1 : (socketReceive bytes c).m_stubSocket
          = some { sock with readBuffer := sock.readBuffer ++ bytes } := by
        simp [socketReceive, hs]
      have hinv1 : Inv s (socketReceive bytes c) := by
        have := hsock s c (some { sock with readBuffer := sock.readBuffer ++ bytes }) hinv
        simpa [socketReceive, hs] using this
      have hacc1 : linesAccepted δ s []
          (({ sock with readBuffer := sock.readBuffer ++ bytes } : LocalSocket).readBuffer
            ++ eventBytes es) = true := by
        simpa [eventBytes, SessionEvent.bytes, List.append_assoc] using hacc
      obtain ⟨c1, sock1, s1, hr, hs1', hacc1', hinv1'⟩ := readStubOutput_monitor errorMsg δ Inv
        hsock hstep (eventBytes es) _ _ s hs1 hacc1 hinv1
      obtain ⟨c2, sock2, s2, hr2, h2, h3, h4⟩ := ih c1 sock1 s1 hs1' hops' hacc1' hinv1'
      refine ⟨c2, sock2, s2, ?_, h2, h3, h4⟩
      simp only [runEvents, runEvent, hr, hr2]
    | control op =>
      have hs1 : (op.apply c).m_stubSocket = some sock := by
        rw [(ControlOp.apply_frame op c).1, hs]
      have hacc1 : linesAccepted δ s [] (sock.readBuffer ++ eventBytes es) = true := by
        simpa [eventBytes, SessionEvent.bytes] using hacc
      obtain ⟨c2, sock2, s2, hr2, h2, h3, h4⟩ := ih (op.apply c) sock s hs1 hops' hacc1
        (hop s c op (hops op (List.mem_cons_self _ _)) hinv)
      refine ⟨c2, sock2, s2, ?_, h2, h3, h4⟩
      simp only [runEvents, runEvent, hr2]

/-- C17, as the code has it: once an `exit` or `crash` line has been
processed, over every later sequence of events (bytes from the stub, control
operations of the owner) in which the stub sends no `pid` line, `processId()`
stays 0 and `started` is not emitted. -/
theorem no_restart_without_pid_line (errorMsg : Int → QString) (c : ConsoleProcess)
    (sock : LocalSocket) (payload : QByteArray) (crash : Bool) (events : List SessionEvent)
    (hs : c.m_stubSocket = some sock)
    (hb : sock.readBuffer
      = ((if crash then "crash ".toList else "exit ".toList) ++ payload) ++ ['\n'])
    (hp : '\n' ∉ payload)
    (hev : linesAccepted noPidLine () [] (eventBytes events) = true) :
    ∃ c1 c2, readStubOutput errorMsg c = some c1 ∧ c1.m_processId = 0 ∧
      runEvents errorMsg events c1 = some c2 ∧ c2.m_processId = 0 ∧
      c2.emitted.count Signal.started = c.emitted.count Signal.started := by
  have hfirst : ∃ c1, readStubOutput errorMsg c = some c1 ∧ c1.m_processId = 0 ∧
      c1.m_stubSocket = some { sock with readBuffer := [] } ∧
      c1.emitted.count Signal.started = c.emitted.count Signal.started := by
    cases crash with
    | false =>
      simp only [Bool.false_eq_true, if_false] at hb
      have hl : '\n' ∉ "exit ".toList ++ payload := by
        intro hm
        rcases List.mem_append.mp hm with hm | hm
        · exact absurd hm (by decide)
        · exact hp hm
      refine ⟨_, readStubOutput_single errorMsg c sock _ [] hs hb hl rfl ?_, ?_⟩
      · rw [stubLine_exit]
      · rw [stubLine_exit]
        exact ⟨rfl, rfl, by simp [finish, List.count_append]⟩
    | true =>
      simp only [if_true] at hb
      have hl : '\n' ∉ "crash ".toList ++ payload := by
        intro hm
        rcases List.mem_append.mp hm with hm | hm
        · exact absurd hm (by decide)
        · exact hp hm
      refine ⟨_, readStubOutput_single errorMsg c sock _ [] hs hb hl rfl ?_, ?_⟩
      · rw [stubLine_crash]
      · rw [stubLine_crash]
        exact ⟨rfl, rfl, by simp [finish, List.count_append]⟩
  obtain ⟨c1, hr1, hp1, hs1, hcount1⟩ := hfirst
  obtain ⟨c2, _, _, hr2, _, _, hinv2⟩ := runEvents_monitor errorMsg noPidLine
    (fun _ c0 => c0.m_processId = 0 ∧
      c0.emitted.count Signal.started = c.emitted.count Signal.started)
    (fun _ => true)
    (fun _ _ _ h => h)
    (by
      intro _ _ c0 out hδ hinv
      have hnp : lineCase out ≠ StubCase.pid := by
        intro hpid
        have := (startsWith_iff_lineCase out).1.mpr hpid
        simp only [noPidLine, this, if_true] at hδ
        exact Option.noConfusion hδ
      rcases stubLine_effect errorMsg c0 out with ⟨h1, _⟩ | ⟨_, h2, h3⟩ | ⟨_, _, _, h2, h3 | ⟨e, h3⟩⟩
      · exact absurd h1 hnp
      · exact ⟨h2, by rw [h3]; simpa [List.count_append] using hinv.2⟩
      · exact ⟨h2.trans hinv.1, by rw [h3]; exact hinv.2⟩
      · exact ⟨h2.trans hinv.1, by rw [h3]; simpa [List.count_append] using hinv.2⟩)
    (by
      intro _ c0 op _ hinv
      obtain ⟨_, h2, h3⟩ := ControlOp.apply_frame op c0
      refine ⟨?_, by rw [h2]; exact hinv.2⟩
      rw [h3]
      split_ifs
      · rfl
      · exact hinv.1)
    events c1 { sock with readBuffer := [] } () hs1 (fun _ _ => rfl)
    (by simpa using hev) ⟨hp1, hcount1⟩
  exact ⟨c1, c2, hr1, hp1, hr2, hinv2.1, hinv2.2⟩

theorem no_restart_without_pid_line_witness :
    ('\n' ∉ "0".toList ∧
      linesAccepted noPidLine () []
        (eventBytes [SessionEvent.received "spid 7\n".toList,
          SessionEvent.control ControlOp.kill]) = true) ∧
    ∃ c1 c2, readStubOutput (fun _ => []) (sessionWithBuffer "exit 0\n".toList) = some c1 ∧
      c1.m_processId = 0 ∧
      runEvents (fun _ => [])
        [SessionEvent.received "spid 7\n".toList, SessionEvent.control ControlOp.kill] c1
        = some c2 ∧
      c2.m_processId = 0 ∧
      c2.emitted.count Signal.started
        = (sessionWithBuffer "exit 0\n".toList).emitted.count Signal.started :=
  ⟨by decide,
   no_restart_without_pid_line (fun _ => []) (sessionWithBuffer "exit 0\n".toList)
     ⟨"exit 0\n".toList, true, true, LocalSocketState.ConnectedState⟩ "0".toList false
     [SessionEvent.received "spid 7\n".toList, SessionEvent.control ControlOp.kill]
     rfl (by decide) (by decide) (by decide)⟩

/-- C17 fails as stated.  After the line `exit 0` a line `pid 5` sets
`processId()` to 5 and emits `started`. -/
theorem pid_line_after_exit_restarts :
    (readStubOutput (fun _ => []) (sessionWithBuffer "exit 0\npid 5\n".toList)).map
      (fun c => (c.m_processId, c.m_exitCode, c.m_appStatus, c.emitted))
      = some (5, 0, ExitStatus.NormalExit, [Signal.finished, Signal.started]) := by
  decide

/-- C19, as the code has it: within one session, over every sequence of
events in which the stub sends at most one `pid` line, the `started` signal is
emitted at most once. -/
theorem started_at_most_once (errorMsg : Int → QString) (c : ConsoleProcess)
    (sock : LocalSocket) (events : List SessionEvent)
    (hs : c.m_stubSocket = some sock)
    (hev : linesAccepted onePidLine false [] (sock.readBuffer ++ eventBytes events) = true) :
    ∃ c', runEvents errorMsg events c = some c' ∧
      c'.emitted.count Signal.started ≤ c.emitted.count Signal.started + 1 := by
  obtain ⟨c', _, s', hr, _, _, hinv⟩ := runEvents_monitor errorMsg onePidLine
    (fun seen c0 => c0.emitted.count Signal.started
      = c.emitted.count Signal.started + (if seen then 1 else 0))
    (fun _ => true)
    (fun _ _ _ h => h)
    (by
      intro s s1 c0 out hδ hinv
      rcases stubLine_effect errorMsg c0 out with ⟨h1, _, h3⟩ | ⟨h1, _, h3⟩ | ⟨h1, _, _, _, h3 | ⟨e, h3⟩⟩
      · have hpid := (startsWith_iff_lineCase out).1.mpr h1
        simp only [onePidLine, hpid, if_true] at hδ
        cases s with
        | true =>
          simp only [if_true] at hδ
          exact Option.noConfusion hδ
        | false =>
          simp only [Bool.false_eq_true, if_false, Option.some.injEq] at hδ
          subst hδ
          rw [h3]
          simp only [Bool.false_eq_true, if_false, Nat.add_zero] at hinv
          simp [List.count_append, hinv]
      · have hnp : startsWith out "pid ".toList = false := by
          cases hb : startsWith out "pid ".toList with
          | false => rfl
          | true =>
            have := (startsWith_iff_lineCase out).1.mp hb
            rcases h1 with h1 | h1 <;> rw [h1] at this <;> exact absurd this (by decide)
        simp only [onePidLine, hnp, Bool.false_eq_true, if_false, Option.some.injEq] at hδ
        subst hδ
        rw [h3]
        simpa [List.count_append] using hinv
      · have hnp : startsWith out "pid ".toList = false := by
          cases hb : startsWith out "pid ".toList with
          | false => rfl
          | true => exact absurd ((startsWith_iff_lineCase out).1.mp hb) h1
        simp only [onePidLine, hnp, Bool.false_eq_true, if_false, Option.some.injEq] at hδ
        subst hδ
        rw [h3]
        exact hinv
      · have hnp : startsWith out "pid ".toList = false := by
          cases hb : startsWith out "pid ".toList with
          | false => rfl
          | true => exact absurd ((startsWith_iff_lineCase out).1.mp hb) h1
        simp only [onePidLine, hnp, Bool.false_eq_true, if_false, Option.some.injEq] at hδ
        subst hδ
        rw [h3]
        simpa [List.count_append] using hinv)
    (by
      intro _ c0 op _ hinv
      rw [(ControlOp.apply_frame op c0).2.1]
      exact hinv)
    events c sock false hs (fun _ _ => rfl) hev (by simp)
  refine ⟨c', hr, ?_⟩
  rw [hinv]
  split_ifs <;> omega

theorem started_at_most_once_witness :
    linesAccepted onePidLine false []
      ((⟨"pid 7\n".toList, true, true, LocalSocketState.ConnectedState⟩ : LocalSocket).readBuffer
        ++ eventBytes [SessionEvent.control ControlOp.interrupt,
            SessionEvent.received "exit 0\n".toList]) = true ∧
    ∃ c', runEvents (fun _ => [])
        [SessionEvent.control ControlOp.interrupt, SessionEvent.received "exit 0\n".toList]
        (sessionWithBuffer "pid 7\n".toList) = some c' ∧
      c'.emitted.count Signal.started
        ≤ (sessionWithBuffer "pid 7\n".toList).emitted.count Signal.started + 1 :=
  ⟨by decide,
   started_at_most_once (fun _ => []) (sessionWithBuffer "pid 7\n".toList)
     ⟨"pid 7\n".toList, true, true, LocalSocketState.ConnectedState⟩
     [SessionEvent.control ControlOp.interrupt, SessionEvent.received "exit 0\n".toList]
     rfl (by decide)⟩

/-- C19 fails as stated.  Two `pid` lines emit `started` twice. -/
theorem two_pid_lines_start_twice :
    (readStubOutput (fun _ => []) (sessionWithBuffer "pid 1\npid 2\n".toList)).map
      (fun c => (c.m_processId, c.emitted))
      = some (2, [Signal.started, Signal.started]) := by
  decide

theorem writeControl_written (c : ConsoleProcess) (byte : Char) :
    (writeControl c byte).written = c.written ++ (if canWrite c then [byte] else []) := by
  unfold writeControl canWrite
  split
  · split_ifs <;> simp
  · simp

theorem readStubOutput_written {errorMsg : Int → QString} {c c' : ConsoleProcess}
    (h : readStubOutput errorMsg c = some c') : c'.written = c.written := by
  cases hs : c.m_stubSocket with
  | none =>
    rw [readStubOutput, readStubOutputLoop] at h
    simp only [hs] at h
    exact Option.noConfusion h
  | some sock =>
    obtain ⟨c1, _, h1, _, h3⟩ := readStubOutput_invariant errorMsg
      (fun c0 => c0.written = c.written) (fun _ _ h => h)
      (fun c0 out h => (stubLine_frame errorMsg c0 out).2.trans h) c sock hs rfl
    rw [h] at h1
    simp only [Option.some.injEq] at h1
    subst h1
    exact h3

theorem stubServerShutdown_written {errorMsg : Int → QString} {c c' : ConsoleProcess}
    (h : stubServerShutdown errorMsg c = some c') : c'.written = c.written := by
  obtain ⟨c1, h1, _, h3⟩ := stubServerShutdown_invariant errorMsg
    (fun c0 => c0.written = c.written) (fun _ _ h => h) (fun _ _ _ h => h)
    (fun c0 out h => (stubLine_frame errorMsg c0 out).2.trans h) c rfl
  rw [h] at h1
  simp only [Option.some.injEq] at h1
  subst h1
  exact h3

theorem stubExited_written {errorMsg : Int → QString} {c c' : ConsoleProcess}
    (h : stubExited errorMsg c = some c') : c'.written = c.written := by
  unfold stubExited at h
  rw [Option.map_eq_some'] at h
  obtain ⟨c1, h1, rfl⟩ := h
  have hw : (waitForDisconnected c).written = c.written := by
    unfold waitForDisconnected
    split
    · split_ifs <;> rfl
    · rfl
  have := stubServerShutdown_written h1
  simp only
  split_ifs
  · exact this.trans hw
  · exact this.trans hw

theorem killStub_written {errorMsg : Int → QString} {c c' : ConsoleProcess}
    (h : killStub errorMsg c = some c') :
    c'.written = c.written ++ (if canWrite c then ['s'] else []) := by
  unfold killStub at h
  rw [stubServerShutdown_written h, writeControl_written]

theorem stopProcess_written {errorMsg : Int → QString} {t k : Bool} {c c' : ConsoleProcess}
    (h : stopProcess errorMsg t k c = some c') :
    c'.written = c.written ++ ((if canWrite c then ['k'] else [])
      ++ (if canWrite c then ['s'] else [])) := by
  unfold stopProcess at h
  rw [Option.map_eq_some'] at h
  obtain ⟨c1, h1, rfl⟩ := h
  have hk := killStub_written h1
  have hkw : (killProcess c).written = c.written ++ (if canWrite c then ['k'] else []) :=
    writeControl_written c 'k'
  have hcw : canWrite (killProcess c) = canWrite c := by
    unfold canWrite
    rw [show (killProcess c).m_stubSocket = c.m_stubSocket from (writeControl_frame c 'k').2.1]
  rw [hkw, hcw] at hk
  have hk' : c1.written = c.written ++ ((if canWrite c then ['k'] else [])
      ++ (if canWrite c then ['s'] else [])) := by
    rw [hk, List.append_assoc]
  rw [← hk']
  simp only
  split_ifs <;> rfl

theorem cleanupAfterStartFailure_written {errorMsg : Int → QString} {c c' : ConsoleProcess}
    {msg : QString} (h : cleanupAfterStartFailure errorMsg c msg = some c') :
    c'.written = c.written := by
  unfold cleanupAfterStartFailure at h
  rw [Option.map_eq_some'] at h
  obtain ⟨c1, h1, h2⟩ := h
  have h3 := stubServerShutdown_written h1
  rw [← h2]
  exact h3

theorem startTerminal_written {errorMsg : Int → QString} {h : StartHost} {c c' : ConsoleProcess}
    {terminalArgs : ProcessArgs} {pcmd : QString} {pargs : ProcessArgs}
    (hs : startTerminal errorMsg h c terminalArgs pcmd pargs = some c') :
    c'.written = c.written := by
  unfold startTerminal at hs
  cases hts : h.terminalStarts with
  | false =>
    simp only [hts, Bool.not_false, if_true] at hs
    have hw := cleanupAfterStartFailure_written hs
    exact hw
  | true =>
    simp only [hts, Bool.not_true, Bool.false_eq_true, if_false, if_true,
      Option.some.injEq] at hs
    subst hs
    rfl

theorem startEnvironment_written {errorMsg : Int → QString} {h : StartHost}
    {c c' : ConsoleProcess} {terminalArgs : ProcessArgs} {pcmd : QString} {pargs : ProcessArgs}
    (hs : startEnvironment errorMsg h c terminalArgs pcmd pargs = some c') :
    c'.written = c.written := by
  unfold startEnvironment at hs
  cases henv : c.m_environment.toStringList with
  | nil =>
    simp only [henv, List.isEmpty_nil, Bool.not_true, Bool.false_eq_true, if_false] at hs
    have hw := startTerminal_written hs
    exact hw
  | cons v vs =>
    simp only [henv, List.isEmpty_cons, Bool.not_false, if_true] at hs
    cases htf : h.tempFile with
    | error why =>
      simp only [htf] at hs
      have hw := cleanupAfterStartFailure_written hs
      exact hw
    | ok name =>
      simp only [htf] at hs
      cases hw : h.tempFileWritten with
      | false =>
        simp only [hw, Bool.not_false, if_true] at hs
        have hw := cleanupAfterStartFailure_written hs
        exact hw
      | true =>
        simp only [hw, Bool.not_true, Bool.false_eq_true, if_false] at hs
        have hw := startTerminal_written hs
        exact hw

theorem start_written {errorMsg : Int → QString} {h : StartHost} {c c' : ConsoleProcess}
    (hs : start errorMsg h c = some c') : c'.written = c.written := by
  rw [start_eq_startLaunch] at hs
  split_ifs at hs
  · simp only [Option.some.injEq] at hs
    subst hs
    rfl
  · split at hs
    · simp only [Option.some.injEq] at hs
      subst hs
      rfl
    · unfold startLaunch at hs
      simp only at hs
      split_ifs at hs
      · simp only [Option.some.injEq] at hs
        subst hs
        rfl
      · simp only [Option.some.injEq] at hs
        subst hs
        rfl
      · simp only [Option.some.injEq] at hs
        subst hs
        exact (stubServerListen_frame h _).2.2.2.2.2.1
      · rw [startEnvironment_written hs]
        exact (stubServerListen_frame h _).2.2.2.2.2.1

/-- The bytes that one step writes. -/
theorem runStep_written {errorMsg : Int → QString} {step : SessionStep} {c c' : ConsoleProcess}
    (h : runStep errorMsg step c = some c') :
    ∃ w, c'.written = c.written ++ w ∧
      ∀ b ∈ w, b = 'c' ∨ b = 'i' ∨ b = 'k' ∨ (b = 's' ∧ step.stopsStub = true) := by
  have hone : ∀ (x : Char),
      (x = 'c' ∨ x = 'i' ∨ x = 'k' ∨ (x = 's' ∧ step.stopsStub = true)) →
      ∀ b ∈ (if canWrite c then [x] else []),
        b = 'c' ∨ b = 'i' ∨ b = 'k' ∨ (b = 's' ∧ step.stopsStub = true) := by
    intro x hx b hb
    split_ifs at hb
    · rw [List.mem_singleton.mp hb]; exact hx
    · exact absurd hb (List.not_mem_nil b)
  cases step with
  | start host => exact ⟨[], by rw [start_written h, List.append_nil], by simp⟩
  | kickoffProcess =>
    simp only [runStep, Option.some.injEq] at h
    subst h
    exact ⟨_, writeControl_written c 'c', hone 'c' (Or.inl rfl)⟩
  | interruptProcess =>
    simp only [runStep, Option.some.injEq] at h
    subst h
    exact ⟨_, writeControl_written c 'i', hone 'i' (Or.inr (Or.inl rfl))⟩
  | killProcess =>
    simp only [runStep, Option.some.injEq] at h
    subst h
    exact ⟨_, writeControl_written c 'k', hone 'k' (Or.inr (Or.inr (Or.inl rfl)))⟩
  | killStub =>
    exact ⟨_, killStub_written h, hone 's' (Or.inr (Or.inr (Or.inr ⟨rfl, rfl⟩)))⟩
  | stopProcess t k =>
    refine ⟨_, stopProcess_written h, ?_⟩
    intro b hb
    rcases List.mem_append.mp hb with hb | hb
    · exact hone 'k' (Or.inr (Or.inr (Or.inl rfl))) b hb
    · exact hone 's' (Or.inr (Or.inr (Or.inr ⟨rfl, rfl⟩))) b hb
  | connected pending =>
    simp only [runStep, Option.some.injEq] at h
    subst h
    exact ⟨[], by simp [stubConnectionAvailable], by simp⟩
  | received bytes =>
    have hw := readStubOutput_written h
    have hr : (socketReceive bytes c).written = c.written := by
      unfold socketReceive
      split <;> rfl
    exact ⟨[], by rw [hw, hr, List.append_nil], by simp⟩
  | disconnected => exact ⟨[], by rw [stubExited_written h, List.append_nil], by simp⟩

/-- C20, as the code has it: over every sequence of public operations on a
session (`start`, `kickoffProcess`, `interruptProcess`, `killProcess`,
`killStub`, `stopProcess`), interleaved in any way with what the stub does,
every byte that the owner writes to the control channel is one of `c`, `i`,
`k` and `s`; the byte `s` is written by `killStub` only (also inside
`stopProcess`), so that a sequence without these two writes `c`, `i` and `k`
only. -/
theorem written_bytes (errorMsg : Int → QString) (steps : List SessionStep) :
    ∀ (c c' : ConsoleProcess), runSteps errorMsg steps c = some c' →
      ∃ w, c'.written = c.written ++ w ∧
        (∀ b ∈ w, b = 'c' ∨ b = 'i' ∨ b = 'k' ∨ b = 's') ∧
        ((∀ step ∈ steps, step.stopsStub = false) → ∀ b ∈ w, b = 'c' ∨ b = 'i' ∨ b = 'k') := by
  induction steps with
  | nil =>
    intro c c' h
    simp only [runSteps, Option.some.injEq] at h
    subst h
    exact ⟨[], by simp, by simp, by simp⟩
  | cons step steps ih =>
    intro c c' h
    rw [runSteps] at h
    cases h1 : runStep errorMsg step c with
    | none => rw [h1] at h; exact Option.noConfusion h
    | some c1 =>
      rw [h1] at h
      obtain ⟨w1, hw1, hb1⟩ := runStep_written h1
      obtain ⟨w2, hw2, hb2, hb2'⟩ := ih c1 c' h
      refine ⟨w1 ++ w2, by rw [hw2, hw1, List.append_assoc], ?_, ?_⟩
      · intro b hb
        rcases List.mem_append.mp hb with hb | hb
        · rcases hb1 b hb with h | h | h | ⟨h, _⟩
          · exact Or.inl h
          · exact Or.inr (Or.inl h)
          · exact Or.inr (Or.inr (Or.inl h))
          · exact Or.inr (Or.inr (Or.inr h))
        · exact hb2 b hb
      · intro hno b hb
        rcases List.mem_append.mp hb with hb | hb
        · rcases hb1 b hb with h | h | h | ⟨_, h⟩
          · exact Or.inl h
          · exact Or.inr (Or.inl h)
          · exact Or.inr (Or.inr h)
          · rw [hno step (List.mem_cons_self _ _)] at h
            exact Bool.noConfusion h
        · exact hb2' (fun s hs => hno s (List.mem_cons_of_mem _ hs)) b hb

theorem written_bytes_witness :
    runSteps (fun _ => []) kickoffThenKillStub ConsoleProcess.new = some stoppedSession ∧
    ∃ w, stoppedSession.written = ConsoleProcess.new.written ++ w ∧
      (∀ b ∈ w, b = 'c' ∨ b = 'i' ∨ b = 'k' ∨ b = 's') ∧
      ((∀ step ∈ kickoffThenKillStub, step.stopsStub = false) →
        ∀ b ∈ w, b = 'c' ∨ b = 'i' ∨ b = 'k') :=
  ⟨rfl, written_bytes (fun _ => []) kickoffThenKillStub ConsoleProcess.new stoppedSession rfl⟩

/-- C20 fails as stated.  `killStub` on a connected session writes the byte
`s`, and `stopProcess` writes `k` and `s`. -/
theorem killStub_writes_s :
    (killStub (fun _ => []) runningSession).map (fun c => c.written) = some ['s'] ∧
    (stopProcess (fun _ => []) true true runningSession).map (fun c => c.written)
      = some ['k', 's'] := by
  decide

/-! ## The `spid` line and `quoteWinCommand` -/

/-- C21: in the Unix variant of `readStubOutput` a buffered line `spid <n>`
(any payload) changes nothing of the session but the environment file, which
is released: the line is taken out of the buffer, `processId()`, `exitCode()`,
`exitStatus()`, `error()` and `errorString()` are unchanged and no signal is
emitted. -/
theorem readStubOutput_spid_line (errorMsg : Int → QString) (c : ConsoleProcess)
    (sock : LocalSocket) (payload rest : QByteArray)
    (hs : c.m_stubSocket = some sock)
    (hb : sock.readBuffer = ("spid ".toList ++ payload) ++ '\n' :: rest)
    (hp : '\n' ∉ payload) (hrest : readLine rest = none) :
    readStubOutput errorMsg c
      = some { c with m_stubSocket := some { sock with readBuffer := rest },
                      m_tempFile := none } ∧
    ∃ c', readStubOutput errorMsg c = some c' ∧
      c'.m_tempFile = none ∧
      c'.m_processId = c.m_processId ∧ c'.m_exitCode = c.m_exitCode ∧
      c'.m_appStatus = c.m_appStatus ∧ c'.m_error = c.m_error ∧
      c'.m_errorString = c.m_errorString ∧ c'.emitted = c.emitted ∧
      c'.written = c.written ∧ c'.m_process = c.m_process := by
  have hl : '\n' ∉ "spid ".toList ++ payload := by
    intro hm
    rcases List.mem_append.mp hm with hm | hm
    · exact absurd hm (by decide)
    · exact hp hm
  have h := readStubOutput_single errorMsg c sock _ rest hs hb hl hrest
    (by rw [stubLine_spid])
  rw [stubLine_spid] at h
  exact ⟨h, _, h, rfl, rfl, rfl, rfl, rfl, rfl, rfl, rfl, rfl⟩

theorem readStubOutput_spid_line_witness :
    '\n' ∉ "77".toList ∧
    (readStubOutput (fun _ => []) spidSession
      = some { spidSession with
          m_stubSocket := some ⟨[], true, true, LocalSocketState.ConnectedState⟩,
          m_tempFile := none } ∧
    ∃ c', readStubOutput (fun _ => []) spidSession = some c' ∧
      c'.m_tempFile = none ∧
      c'.m_processId = spidSession.m_processId ∧ c'.m_exitCode = spidSession.m_exitCode ∧
      c'.m_appStatus = spidSession.m_appStatus ∧ c'.m_error = spidSession.m_error ∧
      c'.m_errorString = spidSession.m_errorString ∧ c'.emitted = spidSession.emitted ∧
      c'.written = spidSession.written ∧ c'.m_process = spidSession.m_process) :=
  ⟨by decide,
   readStubOutput_spid_line (fun _ => []) spidSession
     ⟨"spid 77\n".toList, true, true, LocalSocketState.ConnectedState⟩
     "77".toList [] rfl rfl (by decide) rfl⟩

theorem replaceChar_slash_not_mem (s : QString) : '/' ∉ replaceChar '/' '\\' s := by
  intro h
  unfold replaceChar at h
  obtain ⟨c, _, hc⟩ := List.mem_map.mp h
  split_ifs at hc with h1
  · exact absurd hc (by decide)
  · exact h1 hc

theorem replaceChar_of_not_mem (s : QString) (h : '/' ∉ s) : replaceChar '/' '\\' s = s := by
  unfold replaceChar
  induction s with
  | nil => rfl
  | cons x xs ih =>
    have hx : x ≠ '/' := fun e => h (e ▸ List.mem_cons_self _ _)
    have hxs : '/' ∉ xs := fun m => h (List.mem_cons_of_mem _ m)
    simp only [List.map_cons, if_neg hx, ih hxs]

/-- C30: `quoteWinCommand` is idempotent and normalises the separators: for
every program string `p`, quoting the quoted string changes nothing, the
result holds no `/`, and the program (with every `/` replaced by a backslash)
is wrapped in double quotes exactly when it holds a space and neither starts
nor ends with a double quote; otherwise it is returned as it is. -/
theorem quoteWinCommand_idempotent (p : QString) :
    quoteWinCommand (quoteWinCommand p) = quoteWinCommand p ∧
    '/' ∉ quoteWinCommand p ∧
    (quoteWinCommand p = '"' :: (replaceChar '/' '\\' p ++ ['"']) ↔
      ((replaceChar '/' '\\' p).contains ' ' = true ∧
        startsWithChar (replaceChar '/' '\\' p) '"' = false ∧
        endsWithChar (replaceChar '/' '\\' p) '"' = false)) ∧
    (quoteWinCommand p ≠ '"' :: (replaceChar '/' '\\' p ++ ['"']) →
      quoteWinCommand p = replaceChar '/' '\\' p) := by
  have hn := replaceChar_slash_not_mem p
  generalize hpn : replaceChar '/' '\\' p = pn at hn
  have hq : quoteWinCommand p =
      if !startsWithChar pn '"' && !endsWithChar pn '"' && pn.contains ' ' then
        '"' :: (pn ++ ['"']) else pn := by
    unfold quoteWinCommand
    simp only [hpn]
  have hlen : pn ≠ '"' :: (pn ++ ['"']) := by
    intro e
    have := congrArg List.length e
    simp at this
    omega
  by_cases hc : (!startsWithChar pn '"' && !endsWithChar pn '"' && pn.contains ' ') = true
  · rw [if_pos hc] at hq
    have hslash : '/' ∉ ('"' :: (pn ++ ['"']) : QString) := by
      intro h
      rcases List.mem_cons.mp h with h | h
      · exact absurd h (by decide)
      · rcases List.mem_append.mp h with h | h
        · exact hn h
        · exact absurd (List.mem_singleton.mp h) (by decide)
    refine ⟨?_, ?_, ?_, ?_⟩
    · rw [hq]
      unfold quoteWinCommand
      simp only [replaceChar_of_not_mem _ hslash]
      simp [startsWithChar]
    · rw [hq]; exact hslash
    · rw [hq]
      simp only [true_iff]
      simp only [Bool.and_eq_true, Bool.not_eq_true'] at hc
      exact ⟨hc.2, hc.1.1, hc.1.2⟩
    · intro h; exact absurd hq h
  · rw [if_neg hc] at hq
    refine ⟨?_, ?_, ?_, ?_⟩
    · rw [hq]
      unfold quoteWinCommand
      simp only [replaceChar_of_not_mem _ hn, if_neg hc]
    · rw [hq]; exact hn
    · rw [hq]
      constructor
      · intro h; exact absurd h hlen
      · intro ⟨h1, h2, h3⟩
        exfalso
        apply hc
        rw [h1, h2, h3]
        rfl
    · intro _; exact hq

/-! ## The order of the terminal commands -/

theorem unitsLess_irrefl (a : List Nat) : unitsLess a a = false := by
  induction a with
  | nil => rfl
  | cons x xs ih => simp [unitsLess, ih]

theorem unitsLess_asymm : ∀ (a b : List Nat), unitsLess a b = true → unitsLess b a = false
  | _, [], h => by simp [unitsLess] at h
  | [], _ :: _, _ => by simp [unitsLess]
  | x :: xs, y :: ys, h => by
    simp only [unitsLess, Bool.or_eq_true, decide_eq_true_eq, Bool.and_eq_true, beq_iff_eq] at h
    simp only [unitsLess, Bool.or_eq_false_iff, decide_eq_false_iff_not, Bool.and_eq_false_imp,
      beq_iff_eq]
    rcases h with h | ⟨h1, h2⟩
    · exact ⟨by omega, fun e => by omega⟩
    · exact ⟨by omega, fun _ => unitsLess_asymm xs ys h2⟩

theorem unitsLess_total : ∀ (a b : List Nat), unitsLess a b = false → unitsLess b a = false →
    a = b
  | [], [], _, _ => rfl
  | [], _ :: _, h, _ => by simp [unitsLess] at h
  | _ :: _, [], _, h => by simp [unitsLess] at h
  | x :: xs, y :: ys, h1, h2 => by
    simp only [unitsLess, Bool.or_eq_false_iff, decide_eq_false_iff_not, Bool.and_eq_false_imp,
      beq_iff_eq] at h1 h2
    have hxy : x = y := by omega
    rw [hxy, unitsLess_total xs ys (h1.2 hxy) (h2.2 hxy.symm)]

theorem unitsLess_trans : ∀ (a b c : List Nat), unitsLess a b = true → unitsLess b c = true →
    unitsLess a c = true
  | _, _, [], _, h => by simp [unitsLess] at h
  | _, [], _ :: _, h, _ => by simp [unitsLess] at h
  | [], _ :: _, _ :: _, _, _ => by simp [unitsLess]
  | x :: xs, y :: ys, z :: zs, h1, h2 => by
    simp only [unitsLess, Bool.or_eq_true, decide_eq_true_eq, Bool.and_eq_true,
      beq_iff_eq] at h1 h2 ⊢
    rcases h1 with h1 | ⟨e1, h1⟩
    · rcases h2 with h2 | ⟨e2, _⟩
      · exact Or.inl (by omega)
      · exact Or.inl (by omega)
    · rcases h2 with h2 | ⟨e2, h2⟩
      · exact Or.inl (by omega)
      · exact Or.inr ⟨by omega, unitsLess_trans xs ys zs h1 h2⟩

/-- A character is determined by its code units, also when other units
follow. -/
theorem utf16Units_append_inj (c d : Char) (r s : List Nat)
    (h : utf16Units c ++ r = utf16Units d ++ s) : c = d ∧ r = s := by
  have hc : c.toNat < 0xd800 ∨ (0xdfff < c.toNat ∧ c.toNat < 0x110000) := c.valid
  have hd : d.toNat < 0xd800 ∨ (0xdfff < d.toNat ∧ d.toNat < 0x110000) := d.valid
  have hinj : c.toNat = d.toNat → c = d := fun e =>
    Char.ext (UInt32.ext e)
  unfold utf16Units at h
  split_ifs at h with h1 h2 h2
  · simp only [List.cons_append, List.nil_append, List.cons.injEq] at h
    exact ⟨hinj h.1, h.2⟩
  · simp only [List.cons_append, List.nil_append, List.cons.injEq] at h
    omega
  · simp only [List.cons_append, List.nil_append, List.cons.injEq] at h
    omega
  · simp only [List.cons_append, List.nil_append, List.cons.injEq] at h
    exact ⟨hinj (by omega), h.2.2⟩

theorem toUtf16_injective : ∀ (a b : QString), toUtf16 a = toUtf16 b → a = b
  | [], [], _ => rfl
  | [], d :: _, h => by
    exfalso
    simp only [toUtf16, List.map_nil, List.flatten_nil, List.map_cons, List.flatten_cons] at h
    unfold utf16Units at h
    split_ifs at h <;> simp at h
  | c :: _, [], h => by
    exfalso
    simp only [toUtf16, List.map_nil, List.flatten_nil, List.map_cons, List.flatten_cons] at h
    unfold utf16Units at h
    split_ifs at h <;> simp at h
  | c :: cs, d :: ds, h => by
    simp only [toUtf16, List.map_cons, List.flatten_cons] at h
    obtain ⟨h1, h2⟩ := utf16Units_append_inj c d _ _ h
    rw [h1, toUtf16_injective cs ds h2]

theorem stringLess_irrefl (a : QString) : stringLess a a = false := unitsLess_irrefl _

theorem stringLess_asymm (a b : QString) (h : stringLess a b = true) : stringLess b a = false :=
  unitsLess_asymm _ _ h

theorem stringLess_total (a b : QString) (h1 : stringLess a b = false)
    (h2 : stringLess b a = false) : a = b :=
  toUtf16_injective a b (unitsLess_total _ _ h1 h2)

theorem stringLess_trans (a b c : QString) (h1 : stringLess a b = true)
    (h2 : stringLess b c = true) : stringLess a c = true :=
  unitsLess_trans _ _ _ h1 h2

theorem TerminalCommand.equals_iff (a b : TerminalCommand) :
    a.equals b = true ↔
      a.command = b.command ∧ a.openArgs = b.openArgs ∧ a.executeArgs = b.executeArgs := by
  unfold TerminalCommand.equals
  simp only [Bool.and_eq_true, beq_iff_eq]
  constructor
  · rintro ⟨⟨h1, h2⟩, h3⟩
    exact ⟨h1.symm, h2.symm, h3.symm⟩
  · rintro ⟨h1, h2, h3⟩
    exact ⟨⟨h1.symm, h2.symm⟩, h3.symm⟩

theorem TerminalCommand.less_irrefl (a : TerminalCommand) : a.less a = false := by
  unfold TerminalCommand.less
  simp [stringLess_irrefl]

theorem TerminalCommand.less_asymm (a b : TerminalCommand) (h : a.less b = true) :
    b.less a = false := by
  unfold TerminalCommand.less at h ⊢
  by_cases h1 : a.command = b.command
  · by_cases h2 : a.openArgs = b.openArgs
    · simp only [h1, h2, beq_self_eq_true, if_true] at h ⊢
      exact stringLess_asymm _ _ h
    · have h2' : ¬ b.openArgs = a.openArgs := fun e => h2 e.symm
      simp only [h1, h2, h2', beq_self_eq_true, if_true, beq_iff_eq, if_false] at h ⊢
      exact stringLess_asymm _ _ h
  · have h1' : ¬ b.command = a.command := fun e => h1 e.symm
    simp only [h1, h1', beq_iff_eq, if_false] at h ⊢
    exact stringLess_asymm _ _ h

theorem TerminalCommand.less_total (a b : TerminalCommand) (h1 : a.less b = false)
    (h2 : b.less a = false) : a.equals b = true := by
  rw [TerminalCommand.equals_iff]
  unfold TerminalCommand.less at h1 h2
  by_cases hc : a.command = b.command
  · by_cases ho : a.openArgs = b.openArgs
    · simp only [hc, ho, beq_self_eq_true, if_true] at h1 h2
      exact ⟨hc, ho, stringLess_total _ _ h1 h2⟩
    · have ho' : ¬ b.openArgs = a.openArgs := fun e => ho e.symm
      simp only [hc, ho, ho', beq_self_eq_true, if_true, beq_iff_eq, if_false] at h1 h2
      exact absurd (stringLess_total _ _ h1 h2) ho
  · have hc' : ¬ b.command = a.command := fun e => hc e.symm
    simp only [hc, hc', beq_iff_eq, if_false] at h1 h2
    exact absurd (stringLess_total _ _ h1 h2) hc

theorem TerminalCommand.less_trans (a b c : TerminalCommand) (h1 : a.less b = true)
    (h2 : b.less c = true) : a.less c = true := by
  unfold TerminalCommand.less at h1 h2 ⊢
  by_cases hab : a.command = b.command
  · by_cases hbc : b.command = c.command
    · have hac : a.command = c.command := hab.trans hbc
      by_cases oab : a.openArgs = b.openArgs
      · by_cases obc : b.openArgs = c.openArgs
        · have oac : a.openArgs = c.openArgs := oab.trans obc
          simp only [hab, hbc, oab, obc, beq_self_eq_true, if_true] at h1 h2 ⊢
          exact stringLess_trans _ _ _ h1 h2
        · have oac : ¬ a.openArgs = c.openArgs := fun e => obc (oab ▸ e)
          simp only [hab, hbc, hac, oab, obc, oac, beq_self_eq_true, if_true, beq_iff_eq,
            if_false] at h1 h2 ⊢
          exact h2
      · by_cases obc : b.openArgs = c.openArgs
        · have oac : ¬ a.openArgs = c.openArgs := fun e => oab (e.trans obc.symm)
          simp only [hab, hbc, hac, oab, obc, oac, beq_self_eq_true, if_true, beq_iff_eq,
            if_false] at h1 h2 ⊢
          exact h1
        · simp only [hab, hbc, oab, obc, beq_self_eq_true, if_true, beq_iff_eq,
            if_false] at h1 h2
          have h3 := stringLess_trans _ _ _ h1 h2
          have oac : ¬ a.openArgs = c.openArgs := by
            intro e
            rw [e] at h1
            rw [stringLess_asymm _ _ h1] at h2
            exact Bool.noConfusion h2
          simp only [hac, oac, beq_self_eq_true, if_true, beq_iff_eq, if_false]
          exact h3
    · have hac : ¬ a.command = c.command := fun e => hbc (hab ▸ e)
      simp only [hbc, hac, beq_iff_eq, if_false] at h2 ⊢
      rw [hab]
      exact h2
  · by_cases hbc : b.command = c.command
    · have hac : ¬ a.command = c.command := fun e => hab (e.trans hbc.symm)
      simp only [hab, hac, beq_iff_eq, if_false] at h1 ⊢
      rw [← hbc]
      exact h1
    · simp only [hab, hbc, beq_iff_eq, if_false] at h1 h2
      have h3 := stringLess_trans _ _ _ h1 h2
      have hac : ¬ a.command = c.command := by
        intro e
        rw [e] at h1
        rw [stringLess_asymm _ _ h1] at h2
        exact Bool.noConfusion h2
      simp only [hac, beq_iff_eq, if_false]
      exact h3

/-- C28: `TerminalCommand::operator<` is a strict total order on the triple
(command, openArgs, executeArgs) that agrees with `operator==`: for all `a`
and `b` exactly one of `a < b`, `a == b`, `b < a` holds, `operator<` is
transitive, `operator==` is the equality of the three strings, and neither
operator looks at the flag `needsQuotes`. -/
theorem TerminalCommand_order (a b c : TerminalCommand) :
    ((a.less b = true ∧ a.equals b = false ∧ b.less a = false) ∨
     (a.less b = false ∧ a.equals b = true ∧ b.less a = false) ∨
     (a.less b = false ∧ a.equals b = false ∧ b.less a = true)) ∧
    (a.less b = true → b.less c = true → a.less c = true) ∧
    (a.equals b = true ↔
      a.command = b.command ∧ a.openArgs = b.openArgs ∧ a.executeArgs = b.executeArgs) ∧
    (∀ qa qb : Bool,
      ({ a with needsQuotes := qa } : TerminalCommand).less { b with needsQuotes := qb }
        = a.less b ∧
      ({ a with needsQuotes := qa } : TerminalCommand).equals { b with needsQuotes := qb }
        = a.equals b) := by
  refine ⟨?_, TerminalCommand.less_trans a b c, TerminalCommand.equals_iff a b,
    fun _ _ => ⟨rfl, rfl⟩⟩
  have heq : a.equals b = true → a.less b = false ∧ b.less a = false := by
    intro h
    obtain ⟨h1, h2, h3⟩ := (TerminalCommand.equals_iff a b).mp h
    unfold TerminalCommand.less
    simp [h1, h2, h3, stringLess_irrefl]
  cases hab : a.less b with
  | true =>
    left
    refine ⟨rfl, ?_, TerminalCommand.less_asymm a b hab⟩
    cases he : a.equals b with
    | false => rfl
    | true => rw [(heq he).1] at hab; exact Bool.noConfusion hab
  | false =>
    right
    cases hba : b.less a with
    | true =>
      right
      refine ⟨rfl, ?_, rfl⟩
      cases he : a.equals b with
      | false => rfl
      | true => rw [(heq he).2] at hba; exact Bool.noConfusion hba
    | false => exact Or.inl ⟨rfl, TerminalCommand.less_total a b hab hba, rfl⟩

/-! ## The list of the terminal emulators -/

theorem TerminalCommand.less_congr_right (a b c : TerminalCommand) (h : a.equals b = true) :
    c.less a = c.less b := by
  obtain ⟨h1, h2, h3⟩ := (TerminalCommand.equals_iff a b).mp h
  unfold TerminalCommand.less
  rw [h1, h2, h3]

/-- "Not greater" is transitive. -/
theorem TerminalCommand.not_less_trans (a b c : TerminalCommand) (h1 : b.less a = false)
    (h2 : c.less b = false) : c.less a = false := by
  cases hca : c.less a with
  | false => rfl
  | true =>
    exfalso
    cases hab : a.less b with
    | true =>
      rw [TerminalCommand.less_trans c a b hca hab] at h2
      exact Bool.noConfusion h2
    | false =>
      have he := TerminalCommand.less_total a b hab h1
      rw [TerminalCommand.less_congr_right a b c he, h2] at hca
      exact Bool.noConfusion hca

theorem mem_insertSorted (t x : TerminalCommand) (l : List TerminalCommand) :
    x ∈ insertSorted t l ↔ x = t ∨ x ∈ l := by
  induction l with
  | nil => simp [insertSorted]
  | cons y ys ih =>
    unfold insertSorted
    split_ifs
    · simp only [List.mem_cons, ih]
      tauto
    · simp only [List.mem_cons]

theorem mem_sort (x : TerminalCommand) (l : List TerminalCommand) : x ∈ sort l ↔ x ∈ l := by
  induction l with
  | nil => simp [sort]
  | cons y ys ih =>
    show x ∈ insertSorted y (sort ys) ↔ _
    rw [mem_insertSorted, ih, List.mem_cons]

theorem insertSorted_sorted (t : TerminalCommand) (l : List TerminalCommand)
    (h : l.Pairwise (fun a b => b.less a = false)) :
    (insertSorted t l).Pairwise (fun a b => b.less a = false) := by
  induction l with
  | nil => simp [insertSorted]
  | cons y ys ih =>
    unfold insertSorted
    have hy := List.pairwise_cons.mp h
    split_ifs with hlt
    · refine List.pairwise_cons.mpr ⟨?_, ih hy.2⟩
      intro b hb
      rcases (mem_insertSorted t b ys).mp hb with hb | hb
      · rw [hb]
        exact TerminalCommand.less_asymm y t hlt
      · exact hy.1 b hb
    · have hyt : y.less t = false := by
        cases e : y.less t with
        | false => rfl
        | true => exact absurd e hlt
      refine List.pairwise_cons.mpr ⟨?_, h⟩
      intro b hb
      rcases List.mem_cons.mp hb with hb | hb
      · rw [hb]; exact hyt
      · exact TerminalCommand.not_less_trans t y b hyt (hy.1 b hb)

theorem sort_sorted (l : List TerminalCommand) :
    (sort l).Pairwise (fun a b => b.less a = false) := by
  induction l with
  | nil => exact List.Pairwise.nil
  | cons y ys ih => exact insertSorted_sorted y (sort ys) ih

/-- The sort is stable: it returns what is sorted already. -/
theorem sort_of_sorted (l : List TerminalCommand)
    (h : l.Pairwise (fun a b => b.less a = false)) : sort l = l := by
  induction l with
  | nil => rfl
  | cons y ys ih =>
    have hy := List.pairwise_cons.mp h
    show insertSorted y (sort ys) = _
    rw [ih hy.2]
    cases ys with
    | nil => rfl
    | cons z zs =>
      unfold insertSorted
      rw [hy.1 z (List.mem_cons_self _ _)]
      rfl

/-- On a Unix host the default terminal has a command, and a second call
returns the same terminal. -/
theorem defaultTerminalEmulator_stable (h : TerminalHost) (defaultTerm : TerminalCommand) :
    defaultTerminalEmulator h (defaultTerminalEmulator h defaultTerm)
      = defaultTerminalEmulator h defaultTerm := by
  by_cases he : defaultTerm.command.isEmpty = true
  · by_cases hm : h.isMacHost = true
    · by_cases hf : h.fileExists
          (h.applicationDirPath ++ "/../Resources/scripts/openTerminal.py".toList) = true
      · have h1 : defaultTerminalEmulator h defaultTerm
            = ⟨h.applicationDirPath ++ "/../Resources/scripts/openTerminal.py".toList, [], [],
                h.needsQuotesDefault⟩ := by
          unfold defaultTerminalEmulator
          simp only [he, hm, hf, if_true]
        rw [h1]
        unfold defaultTerminalEmulator
        have : (h.applicationDirPath
            ++ "/../Resources/scripts/openTerminal.py".toList).isEmpty = false := by
          cases h.applicationDirPath <;> rfl
        simp only [this, Bool.false_eq_true, if_false]
      · have h1 : defaultTerminalEmulator h defaultTerm
            = ⟨"/usr/X11/bin/xterm".toList, [], "-e".toList, h.needsQuotesDefault⟩ := by
          unfold defaultTerminalEmulator
          simp only [he, hm, hf, if_true, if_false, Bool.false_eq_true]
        rw [h1]
        rfl
    · by_cases hu : h.isAnyUnixHost = true
      · cases hfind : (knownTerminals h.needsQuotesDefault).find?
            (fun term => !(h.searchInPath term.command).isEmpty) with
        | none =>
          have h1 : defaultTerminalEmulator h defaultTerm
              = ⟨"xterm".toList, [], "-e".toList, h.needsQuotesDefault⟩ := by
            unfold defaultTerminalEmulator
            simp only [he, hm, hu, hfind, if_true, if_false, Bool.false_eq_true]
          rw [h1]
          rfl
        | some term =>
          have h1 : defaultTerminalEmulator h defaultTerm
              = ⟨h.searchInPath term.command, term.openArgs, term.executeArgs,
                  term.needsQuotes⟩ := by
            unfold defaultTerminalEmulator
            simp only [he, hm, hu, hfind, if_true, if_false, Bool.false_eq_true]
          rw [h1]
          have hne := List.find?_some hfind
          unfold defaultTerminalEmulator
          simp only [Bool.not_eq_true'] at hne
          simp only [hne, Bool.false_eq_true, if_false]
      · have h1 : defaultTerminalEmulator h defaultTerm = defaultTerm := by
          unfold defaultTerminalEmulator
          simp only [he, hm, hu, if_true, if_false, Bool.false_eq_true]
        rw [h1, h1]
  · have h1 : defaultTerminalEmulator h defaultTerm = defaultTerm := by
      unfold defaultTerminalEmulator
      simp only [he, if_false, Bool.false_eq_true]
    rw [h1, h1]

/-- C27: on a Unix host, whatever the search in the `PATH` finds,
`availableTerminalEmulators()` returns a list whose first element is
`defaultTerminalEmulator()` (the value that later calls return too), whose
remaining elements are in ascending order of `operator<`, and in which no
element after the first equals the default terminal. -/
theorem availableTerminalEmulators_sorted (h : TerminalHost) (defaultTerm : TerminalCommand)
    (hunix : h.isAnyUnixHost = true) :
    ∃ rest, availableTerminalEmulators h defaultTerm
        = defaultTerminalEmulator h defaultTerm :: rest ∧
      defaultTerminalEmulator h (defaultTerminalEmulator h defaultTerm)
        = defaultTerminalEmulator h defaultTerm ∧
      rest.Pairwise (fun a b => b.less a = false) ∧
      (∀ t ∈ rest, t.equals (defaultTerminalEmulator h defaultTerm) = false) ∧
      (∀ t ∈ rest, ∃ term ∈ knownTerminals h.needsQuotesDefault,
        h.searchInPath term.command ≠ [] ∧
        t = ⟨h.searchInPath term.command, term.openArgs, term.executeArgs,
              h.needsQuotesDefault⟩) := by
  unfold availableTerminalEmulators
  simp only [hunix, if_true]
  refine ⟨_, rfl, defaultTerminalEmulator_stable h defaultTerm, sort_sorted _, ?_, ?_⟩
  · intro t ht
    rw [mem_sort, List.mem_filter] at ht
    simpa using ht.2
  · intro t ht
    rw [mem_sort, List.mem_filter, List.mem_filterMap] at ht
    obtain ⟨⟨term, hterm, hsome⟩, _⟩ := ht
    refine ⟨term, hterm, ?_, ?_⟩
    · intro e
      simp [e] at hsome
    · by_cases e : (h.searchInPath term.command).isEmpty = true
      · simp [e] at hsome
      · simp only [e, Bool.not_eq_true, Bool.not_false, if_true, Option.some.injEq] at hsome
        exact hsome.symm

theorem availableTerminalEmulators_sorted_witness :
    linuxTerminalHost.isAnyUnixHost = true ∧
    ∃ rest, availableTerminalEmulators linuxTerminalHost emptyTerminalCommand
        = defaultTerminalEmulator linuxTerminalHost emptyTerminalCommand :: rest ∧
      defaultTerminalEmulator linuxTerminalHost
          (defaultTerminalEmulator linuxTerminalHost emptyTerminalCommand)
        = defaultTerminalEmulator linuxTerminalHost emptyTerminalCommand ∧
      rest.Pairwise (fun a b => b.less a = false) ∧
      (∀ t ∈ rest,
        t.equals (defaultTerminalEmulator linuxTerminalHost emptyTerminalCommand) = false) ∧
      (∀ t ∈ rest, ∃ term ∈ knownTerminals linuxTerminalHost.needsQuotesDefault,
        linuxTerminalHost.searchInPath term.command ≠ [] ∧
        t = ⟨linuxTerminalHost.searchInPath term.command, term.openArgs, term.executeArgs,
              linuxTerminalHost.needsQuotesDefault⟩) :=
  ⟨rfl, availableTerminalEmulators_sorted linuxTerminalHost emptyTerminalCommand rfl⟩

/-! ## The terminal emulator in the settings -/

theorem Settings.find_filter_keep (s : Settings) (key : QString)
    (p : QString × QString → Bool) (hp : ∀ kv : QString × QString, kv.1 = key → p kv = true) :
    Settings.find (s.filter p) key = Settings.find s key := by
  induction s with
  | nil => rfl
  | cons kv rest ih =>
    by_cases hk : kv.1 = key
    · rw [List.filter_cons_of_pos (hp kv hk)]
      simp only [Settings.find, hk, if_true]
    · cases hpk : p kv with
      | true =>
        rw [List.filter_cons_of_pos hpk]
        simp only [Settings.find, hk, if_false]
        exact ih
      | false =>
        rw [List.filter_cons_of_neg (by simp [hpk])]
        simp only [Settings.find, hk, if_false]
        exact ih

theorem Settings.find_filter_drop (s : Settings) (key : QString)
    (p : QString × QString → Bool) (hp : ∀ kv : QString × QString, kv.1 = key → p kv = false) :
    Settings.find (s.filter p) key = none := by
  induction s with
  | nil => rfl
  | cons kv rest ih =>
    by_cases hk : kv.1 = key
    · rw [List.filter_cons_of_neg (by simp [hp kv hk])]
      exact ih
    · cases hpk : p kv with
      | true =>
        rw [List.filter_cons_of_pos hpk]
        simp only [Settings.find, hk, if_false]
        exact ih
      | false =>
        rw [List.filter_cons_of_neg (by simp [hpk])]
        exact ih

theorem Settings.find_setValue (s : Settings) (key value : QString) :
    Settings.find (s.setValue key value) key = some value := by
  simp only [Settings.setValue, Settings.find, if_true]

theorem Settings.find_setValue_ne (s : Settings) (key value other : QString)
    (h : key ≠ other) : Settings.find (s.setValue key value) other = Settings.find s other := by
  have h1 : Settings.find (s.setValue key value) other
      = Settings.find (s.filter (fun kv => kv.1 != key)) other := by
    simp only [Settings.setValue, Settings.find, h, if_false]
  rw [h1]
  apply Settings.find_filter_keep
  intro kv hkv
  simp only [bne_iff_ne, ne_eq, hkv]
  exact fun e => h e.symm

theorem Settings.find_remove (s : Settings) (key : QString) :
    Settings.find (s.remove key) key = none := by
  apply Settings.find_filter_drop
  intro kv hkv
  simp [hkv]

theorem Settings.find_remove_ne (s : Settings) (key other : QString) (h : key ≠ other)
    (hsub : (key ++ ['/']).isPrefixOf other = false) :
    Settings.find (s.remove key) other = Settings.find s other := by
  apply Settings.find_filter_keep
  intro kv hkv
  rw [hkv, hsub]
  simp only [Bool.not_false, Bool.and_true, bne_iff_ne, ne_eq]
  exact fun e => h e.symm

/-- C23: on a Unix host with a settings store installed, for every
`TerminalCommand` `t`, `terminalEmulator()` after `setTerminalEmulator(t)`
returns a command equal to `t` (same command, openArgs and executeArgs).  When
`t` equals the detected default, the three keys of the command are removed and
the read returns `defaultTerminalEmulator()`; otherwise the three keys hold
the three strings of `t`. -/
theorem terminalEmulator_after_set (h : TerminalHost) (settings : Settings)
    (defaultTerm t : TerminalCommand) (hunix : h.isAnyUnixHost = true) :
    ∃ stored, setTerminalEmulator h (some settings) defaultTerm t = some stored ∧
      (terminalEmulator h (some stored) (defaultTerminalEmulator h defaultTerm)).equals t
        = true ∧
      (t.equals (defaultTerminalEmulator h defaultTerm) = true →
        stored.contains kTerminalCommandKey = false ∧
        stored.contains kTerminalOpenOptionsKey = false ∧
        stored.contains kTerminalExecuteOptionsKey = false ∧
        terminalEmulator h (some stored) (defaultTerminalEmulator h defaultTerm)
          = defaultTerminalEmulator h defaultTerm) ∧
      (t.equals (defaultTerminalEmulator h defaultTerm) = false →
        stored.find kTerminalCommandKey = some t.command ∧
        stored.find kTerminalOpenOptionsKey = some t.openArgs ∧
        stored.find kTerminalExecuteOptionsKey = some t.executeArgs ∧
        terminalEmulator h (some stored) (defaultTerminalEmulator h defaultTerm)
          = ⟨t.command, t.openArgs, t.executeArgs, h.needsQuotesDefault⟩) := by
  cases hd : t.equals (defaultTerminalEmulator h defaultTerm) with
  | true =>
    have hset : setTerminalEmulator h (some settings) defaultTerm t
        = some ((((settings.setValue kTerminalVersionKey kTerminalVersion).remove
            kTerminalCommandKey).remove kTerminalOpenOptionsKey).remove
            kTerminalExecuteOptionsKey) := by
      unfold setTerminalEmulator
      simp only [hunix, hd, if_true]
    refine ⟨_, hset, ?_, fun _ => ?_, fun e => Bool.noConfusion e⟩
    all_goals
      have hver : Settings.value ((((settings.setValue kTerminalVersionKey
          kTerminalVersion).remove kTerminalCommandKey).remove kTerminalOpenOptionsKey).remove
          kTerminalExecuteOptionsKey) kTerminalVersionKey = kTerminalVersion := by
        unfold Settings.value
        rw [Settings.find_remove_ne _ _ _ (by decide) (by decide),
          Settings.find_remove_ne _ _ _ (by decide) (by decide),
          Settings.find_remove_ne _ _ _ (by decide) (by decide), Settings.find_setValue]
        rfl
      have hcmd : Settings.find ((((settings.setValue kTerminalVersionKey
          kTerminalVersion).remove kTerminalCommandKey).remove kTerminalOpenOptionsKey).remove
          kTerminalExecuteOptionsKey) kTerminalCommandKey = none := by
        rw [Settings.find_remove_ne _ _ _ (by decide) (by decide),
          Settings.find_remove_ne _ _ _ (by decide) (by decide), Settings.find_remove]
      have hopen : Settings.find ((((settings.setValue kTerminalVersionKey
          kTerminalVersion).remove kTerminalCommandKey).remove kTerminalOpenOptionsKey).remove
          kTerminalExecuteOptionsKey) kTerminalOpenOptionsKey = none := by
        rw [Settings.find_remove_ne _ _ _ (by decide) (by decide), Settings.find_remove]
      have hexec : Settings.find ((((settings.setValue kTerminalVersionKey
          kTerminalVersion).remove kTerminalCommandKey).remove kTerminalOpenOptionsKey).remove
          kTerminalExecuteOptionsKey) kTerminalExecuteOptionsKey = none :=
        Settings.find_remove _ _
      have hread : terminalEmulator h (some ((((settings.setValue kTerminalVersionKey
          kTerminalVersion).remove kTerminalCommandKey).remove kTerminalOpenOptionsKey).remove
          kTerminalExecuteOptionsKey)) (defaultTerminalEmulator h defaultTerm)
          = defaultTerminalEmulator h defaultTerm := by
        unfold terminalEmulator
        simp only [hunix, hver, beq_self_eq_true, if_true, Settings.contains, hcmd,
          Option.isSome_none, Bool.false_eq_true, if_false]
        exact defaultTerminalEmulator_stable h defaultTerm
    · rw [hread]
      obtain ⟨h1, h2, h3⟩ := (TerminalCommand.equals_iff _ _).mp hd
      exact (TerminalCommand.equals_iff _ _).mpr ⟨h1.symm, h2.symm, h3.symm⟩
    · refine ⟨?_, ?_, ?_, hread⟩
      · simp only [Settings.contains, hcmd, Option.isSome_none]
      · simp only [Settings.contains, hopen, Option.isSome_none]
      · simp only [Settings.contains, hexec, Option.isSome_none]
  | false =>
    have hset : setTerminalEmulator h (some settings) defaultTerm t
        = some ((((settings.setValue kTerminalVersionKey kTerminalVersion).setValue
            kTerminalCommandKey t.command).setValue kTerminalOpenOptionsKey t.openArgs).setValue
            kTerminalExecuteOptionsKey t.executeArgs) := by
      unfold setTerminalEmulator
      simp only [hunix, hd, if_true, Bool.false_eq_true, if_false]
    have hver : Settings.value ((((settings.setValue kTerminalVersionKey
        kTerminalVersion).setValue kTerminalCommandKey t.command).setValue
        kTerminalOpenOptionsKey t.openArgs).setValue kTerminalExecuteOptionsKey t.executeArgs)
        kTerminalVersionKey = kTerminalVersion := by
      unfold Settings.value
      rw [Settings.find_setValue_ne _ _ _ _ (by decide),
        Settings.find_setValue_ne _ _ _ _ (by decide),
        Settings.find_setValue_ne _ _ _ _ (by decide), Settings.find_setValue]
      rfl
    have hcmd : Settings.find ((((settings.setValue kTerminalVersionKey
        kTerminalVersion).setValue kTerminalCommandKey t.command).setValue
        kTerminalOpenOptionsKey t.openArgs).setValue kTerminalExecuteOptionsKey t.executeArgs)
        kTerminalCommandKey = some t.command := by
      rw [Settings.find_setValue_ne _ _ _ _ (by decide),
        Settings.find_setValue_ne _ _ _ _ (by decide), Settings.find_setValue]
    have hopen : Settings.find ((((settings.setValue kTerminalVersionKey
        kTerminalVersion).setValue kTerminalCommandKey t.command).setValue
        kTerminalOpenOptionsKey t.openArgs).setValue kTerminalExecuteOptionsKey t.executeArgs)
        kTerminalOpenOptionsKey = some t.openArgs := by
      rw [Settings.find_setValue_ne _ _ _ _ (by decide), Settings.find_setValue]
    have hexec : Settings.find ((((settings.setValue kTerminalVersionKey
        kTerminalVersion).setValue kTerminalCommandKey t.command).setValue
        kTerminalOpenOptionsKey t.openArgs).setValue kTerminalExecuteOptionsKey t.executeArgs)
        kTerminalExecuteOptionsKey = some t.executeArgs :=
      Settings.find_setValue _ _ _
    have hread : terminalEmulator h (some ((((settings.setValue kTerminalVersionKey
        kTerminalVersion).setValue kTerminalCommandKey t.command).setValue
        kTerminalOpenOptionsKey t.openArgs).setValue kTerminalExecuteOptionsKey t.executeArgs))
        (defaultTerminalEmulator h defaultTerm)
        = ⟨t.command, t.openArgs, t.executeArgs, h.needsQuotesDefault⟩ := by
      unfold terminalEmulator
      simp only [hunix, hver, beq_self_eq_true, if_true, Settings.contains, hcmd,
        Option.isSome_some]
      simp only [Settings.value, hcmd, hopen, hexec, Option.getD_some]
    refine ⟨_, hset, ?_, fun e => Bool.noConfusion e, fun _ => ⟨hcmd, hopen, hexec, hread⟩⟩
    rw [hread]
    exact (TerminalCommand.equals_iff _ _).mpr ⟨rfl, rfl, rfl⟩

theorem terminalEmulator_after_set_witness :
    linuxTerminalHost.isAnyUnixHost = true ∧
    ∃ stored, setTerminalEmulator linuxTerminalHost
        (some [("General/TerminalEmulator".toList, "xterm -e".toList)]) emptyTerminalCommand
        ⟨"/usr/bin/konsole".toList, [], "-e".toList, true⟩ = some stored ∧
      (terminalEmulator linuxTerminalHost (some stored)
        (defaultTerminalEmulator linuxTerminalHost emptyTerminalCommand)).equals
          ⟨"/usr/bin/konsole".toList, [], "-e".toList, true⟩ = true ∧
      ((⟨"/usr/bin/konsole".toList, [], "-e".toList, true⟩ : TerminalCommand).equals
          (defaultTerminalEmulator linuxTerminalHost emptyTerminalCommand) = true →
        stored.contains kTerminalCommandKey = false ∧
        stored.contains kTerminalOpenOptionsKey = false ∧
        stored.contains kTerminalExecuteOptionsKey = false ∧
        terminalEmulator linuxTerminalHost (some stored)
            (defaultTerminalEmulator linuxTerminalHost emptyTerminalCommand)
          = defaultTerminalEmulator linuxTerminalHost emptyTerminalCommand) ∧
      ((⟨"/usr/bin/konsole".toList, [], "-e".toList, true⟩ : TerminalCommand).equals
          (defaultTerminalEmulator linuxTerminalHost emptyTerminalCommand) = false →
        stored.find kTerminalCommandKey = some "/usr/bin/konsole".toList ∧
        stored.find kTerminalOpenOptionsKey = some [] ∧
        stored.find kTerminalExecuteOptionsKey = some "-e".toList ∧
        terminalEmulator linuxTerminalHost (some stored)
            (defaultTerminalEmulator linuxTerminalHost emptyTerminalCommand)
          = ⟨"/usr/bin/konsole".toList, [], "-e".toList,
              linuxTerminalHost.needsQuotesDefault⟩) :=
  ⟨rfl, terminalEmulator_after_set linuxTerminalHost
    [("General/TerminalEmulator".toList, "xterm -e".toList)] emptyTerminalCommand
    ⟨"/usr/bin/konsole".toList, [], "-e".toList, true⟩ rfl⟩

/-! ## The watchdog of the stub connection -/

theorem stubServerListen_timers (h : StartHost) (c : ConsoleProcess) :
    (stubServerListen h c).1.m_stubConnectTimer = c.m_stubConnectTimer ∧
    (stubServerListen h c).1.orphanedTimers = c.orphanedTimers := by
  have hfold : ∀ (l : List QString) (c0 : ConsoleProcess),
      (l.foldl (fun c dir => { c with m_stubServerDir := dir }) c0).m_stubConnectTimer
        = c0.m_stubConnectTimer ∧
      (l.foldl (fun c dir => { c with m_stubServerDir := dir }) c0).orphanedTimers
        = c0.orphanedTimers := by
    intro l
    induction l with
    | nil => intro c0; exact ⟨rfl, rfl⟩
    | cons d l ih => intro c0; exact ih _
  unfold stubServerListen
  cases h.listenOutcome <;> exact hfold _ c

theorem startTerminal_timers {errorMsg : Int → QString} {h : StartHost} {c c' : ConsoleProcess}
    {terminalArgs : ProcessArgs} {pcmd : QString} {pargs : ProcessArgs}
    (hs : startTerminal errorMsg h c terminalArgs pcmd pargs = some c')
    (hr : c'.m_process.state = ProcessState.Running) :
    c'.m_stubConnectTimer = some ⟨true, 10000, true⟩ ∧
      c'.orphanedTimers = c.orphanedTimers ++ c.m_stubConnectTimer.toList := by
  rcases startTerminal_cases hs with ⟨h1, _⟩ | _
  · rw [h1] at hr
    exact ProcessState.noConfusion hr
  · unfold startTerminal at hs
    cases hts : h.terminalStarts with
    | false =>
      exfalso
      simp only [hts, Bool.not_false, if_true] at hs
      have h1 := (cleanupAfterStartFailure_cases (by simp) hs).1
      rw [h1] at hr
      exact ProcessState.noConfusion hr
    | true =>
      simp only [hts, Bool.not_true, Bool.false_eq_true, if_false, if_true,
        Option.some.injEq] at hs
      subst hs
      exact ⟨rfl, rfl⟩

theorem startEnvironment_timers {errorMsg : Int → QString} {h : StartHost}
    {c c' : ConsoleProcess} {terminalArgs : ProcessArgs} {pcmd : QString} {pargs : ProcessArgs}
    (hstate : c.m_process.state = ProcessState.NotRunning)
    (hs : startEnvironment errorMsg h c terminalArgs pcmd pargs = some c')
    (hr : c'.m_process.state = ProcessState.Running) :
    c'.m_stubConnectTimer = some ⟨true, 10000, true⟩ ∧
      c'.orphanedTimers = c.orphanedTimers ++ c.m_stubConnectTimer.toList := by
  have hfail : ∀ (c0 : ConsoleProcess) (msg : QString),
      c0.m_process.state = ProcessState.NotRunning →
      cleanupAfterStartFailure errorMsg c0 msg = some c' → False := by
    intro c0 msg h0 h1
    rw [(cleanupAfterStartFailure_cases h0 h1).1] at hr
    exact ProcessState.noConfusion hr
  unfold startEnvironment at hs
  cases henv : c.m_environment.toStringList with
  | nil =>
    simp only [henv, List.isEmpty_nil, Bool.not_true, Bool.false_eq_true, if_false] at hs
    have h1 := startTerminal_timers hs hr
    exact h1
  | cons v vs =>
    simp only [henv, List.isEmpty_cons, Bool.not_false, if_true] at hs
    cases htf : h.tempFile with
    | error why =>
      simp only [htf] at hs
      have hst : ({ c with m_tempFile := some ⟨[], []⟩ } : ConsoleProcess).m_process.state
          = ProcessState.NotRunning := hstate
      exact (hfail _ _ hst hs).elim
    | ok name =>
      simp only [htf] at hs
      cases hw : h.tempFileWritten with
      | false =>
        simp only [hw, Bool.not_false, if_true] at hs
        have hst : ({ c with m_tempFile := some ⟨name, []⟩ } : ConsoleProcess).m_process.state
            = ProcessState.NotRunning := hstate
        exact (hfail _ _ hst hs).elim
      | true =>
        simp only [hw, Bool.not_true, Bool.false_eq_true, if_false] at hs
        have h1 := startTerminal_timers hs hr
        exact h1

/-- A call of `start` that ends with a running terminal leaves a single-shot
timer of 10000 ms, active, in `m_stubConnectTimer`; a timer that the member
pointed to before stays alive. -/
theorem start_arms_watchdog {errorMsg : Int → QString} {h : StartHost} {c c' : ConsoleProcess}
    (hrun : isRunning c = false) (hs : start errorMsg h c = some c')
    (hr : c'.m_process.state = ProcessState.Running) :
    c'.m_stubConnectTimer = some ⟨true, 10000, true⟩ ∧
      c'.orphanedTimers = c.orphanedTimers ++ c.m_stubConnectTimer.toList := by
  have hstate := isRunning_false hrun
  rw [start_eq_startLaunch, hrun] at hs
  simp only [Bool.false_eq_true, if_false] at hs
  split at hs
  · simp only [Option.some.injEq] at hs
    subst hs
    exact ProcessState.noConfusion (hstate.symm.trans hr)
  · unfold startLaunch at hs
    simp only at hs
    split_ifs at hs
    · simp only [Option.some.injEq] at hs
      subst hs
      exact ProcessState.noConfusion (hstate.symm.trans hr)
    · simp only [Option.some.injEq] at hs
      subst hs
      exact ProcessState.noConfusion (hstate.symm.trans hr)
    · simp only [Option.some.injEq] at hs
      subst hs
      have f4 := (stubServerListen_frame h
        { c with m_errorString := [], m_error := ProcessError.UnknownError }).2.2.2.1
      have h0 : (stubServerListen h
          { c with m_errorString := [], m_error := ProcessError.UnknownError }).1.m_process.state
          = ProcessState.NotRunning := by
        rw [f4]; exact hstate
      exact ProcessState.noConfusion (h0.symm.trans hr)
    · have f4 := (stubServerListen_frame h
        { c with m_errorString := [], m_error := ProcessError.UnknownError }).2.2.2.1
      have ft := stubServerListen_timers h
        { c with m_errorString := [], m_error := ProcessError.UnknownError }
      have hst : ({ (stubServerListen h
          { c with m_errorString := [], m_error := ProcessError.UnknownError }).1 with
          m_environment := (stubServerListen h
            { c with m_errorString := [], m_error := ProcessError.UnknownError }).1.m_environment.unset
              "TERM".toList } : ConsoleProcess).m_process.state = ProcessState.NotRunning := by
        show (stubServerListen h _).1.m_process.state = _
        rw [f4]; exact hstate
      have h1 := startEnvironment_timers hst hs hr
      refine ⟨h1.1, ?_⟩
      rw [h1.2]
      show (stubServerListen h _).1.orphanedTimers
        ++ (stubServerListen h _).1.m_stubConnectTimer.toList = _
      rw [ft.1, ft.2]

/-- `stubConnectionAvailable` deletes the timer that `m_stubConnectTimer`
points to, and no other one. -/
theorem stubConnectionAvailable_timers (pending : LocalSocket) (c : ConsoleProcess) :
    (stubConnectionAvailable pending c).m_stubConnectTimer = none ∧
    (stubConnectionAvailable pending c).orphanedTimers = c.orphanedTimers ∧
    timeoutPending (stubConnectionAvailable pending c)
      = c.orphanedTimers.any (fun t => t.active) :=
  ⟨rfl, rfl, rfl⟩

/-- C22 on a session that is started again.  `start`, `stopProcess` by the
owner and `start` again leave two active watchdog timers: the second `start`
overwrites `m_stubConnectTimer` without deleting the first timer.  The stub
connects and reports the pid 5: `stubConnectionAvailable` deletes the second
timer only.  The `timeout` of the first then runs `stopProcess` on the running
session: `k` and `s` are written, the socket is gone and the terminal
process is terminated. -/
theorem orphaned_watchdog_stops_running_session :
    (runSteps (fun _ => []) (restartSteps.take 1) runPipeSession).map
        (fun c => (c.m_stubConnectTimer, c.orphanedTimers))
      = some (some ⟨true, 10000, true⟩, []) ∧
    (runSteps (fun _ => []) (restartSteps.take 3) runPipeSession).map
        (fun c => (c.m_stubConnectTimer, c.orphanedTimers))
      = some (some ⟨true, 10000, true⟩, [⟨true, 10000, true⟩]) ∧
    (runSteps (fun _ => []) restartSteps runPipeSession).map
        (fun c => (c.m_stubConnectTimer, c.orphanedTimers, c.m_processId, isRunning c,
          c.m_stubSocket.isSome, timeoutPending c))
      = some (none, [⟨true, 10000, true⟩], 5, true, true, true) ∧
    ((runSteps (fun _ => []) restartSteps runPipeSession).bind
        (orphanedTimeout (fun _ => []) true true 0)).map
        (fun c => (c.written, c.m_stubSocket, c.m_processId, c.m_process.state,
          c.m_process.terminateCalls, c.m_stubServer.listening, timeoutPending c))
      = some (['k', 's'], none, 0, ProcessState.NotRunning, 2, false, false) := by
  refine ⟨by rfl, by rfl, by rfl, by rfl⟩

end Utils

namespace LanguageServerProtocol

/-! ## The key registry -/

/-- C24: the key registry supplies every field name of the JSON-RPC 2.0
envelope with its exact wire spelling: `jsonRpcVersionKey` is `jsonrpc`,
`idKey` is `id`, `methodKey` is `method`, `paramsKey` is `params`, `resultKey`
is `result` and `errorKey` is `error`. -/
theorem envelope_keys :
    keyValue "jsonRpcVersionKey" = some "jsonrpc" ∧ keyValue "idKey" = some "id" ∧
    keyValue "methodKey" = some "method" ∧ keyValue "paramsKey" = some "params" ∧
    keyValue "resultKey" = some "result" ∧ keyValue "errorKey" = some "error" ∧
    (jsonRpcVersionKey = "jsonrpc" ∧ idKey = "id" ∧ methodKey = "method" ∧
      paramsKey = "params" ∧ resultKey = "result" ∧ errorKey = "error") := by
  decide

/-- In a list of strings in strictly ascending order every string is less
than the strings after it. -/
theorem pairwise_of_strictlyAscending : ∀ (l : List String), strictlyAscending l = true →
    l.Pairwise (fun a b => Utils.unitsLess (codePoints a) (codePoints b) = true)
  | [], _ => List.Pairwise.nil
  | [_], _ => List.pairwise_singleton _ _
  | a :: b :: rest, h => by
    simp only [strictlyAscending, Bool.and_eq_true] at h
    have ih := pairwise_of_strictlyAscending (b :: rest) h.2
    refine List.pairwise_cons.mpr ⟨?_, ih⟩
    intro c hc
    rcases List.mem_cons.mp hc with hc | hc
    · rw [hc]; exact h.1
    · exact Utils.unitsLess_trans _ _ _ h.1 ((List.pairwise_cons.mp ih).1 c hc)

/-- The identifiers of the table stand in strictly ascending order. -/
theorem keyTable_ascending : strictlyAscending (keyTable.map (fun entry => entry.1)) = true := by
  decide!

theorem keyTable_identifiers_nodup : (keyTable.map (fun entry => entry.1)).Nodup :=
  (pairwise_of_strictlyAscending _ keyTable_ascending).imp (fun {a b} h e => by
    rw [e, Utils.unitsLess_irrefl] at h
    exact Bool.noConfusion h)

theorem irregularKeys_eq :
    irregularKeys = [("contentKey", "value"), ("jsonRpcVersionKey", "jsonrpc")] := by
  decide!

theorem identifiersOf_value : identifiersOf "value" = ["contentKey", "valueKey"] := by
  decide!

theorem identifiersOf_jsonrpc : identifiersOf "jsonrpc" = ["jsonRpcVersionKey"] := by
  decide!

theorem mem_identifiersOf (entry : String × Key) (h : entry ∈ keyTable) :
    entry.1 ∈ identifiersOf entry.2 :=
  List.mem_map.mpr ⟨entry, List.mem_filter.mpr ⟨h, by simp⟩, rfl⟩

/-- An entry of the table is named after its value, or it is one of the two
others. -/
theorem keyTable_regular (entry : String × Key) (he : entry ∈ keyTable) :
    entry.1 = entry.2 ++ "Key" ∨
      entry = ("contentKey", "value") ∨ entry = ("jsonRpcVersionKey", "jsonrpc") := by
  by_cases h : entry.1 = entry.2 ++ "Key"
  · exact Or.inl h
  · right
    have hi : entry ∈ irregularKeys := by
      unfold irregularKeys
      rw [List.mem_filter]
      exact ⟨he, by simp [h]⟩
    rw [irregularKeys_eq] at hi
    rcases List.mem_cons.mp hi with h1 | h1
    · exact Or.inl h1
    · exact Or.inr (List.mem_singleton.mp h1)

/-- In a table without a repeated identifier an identifier has one value,
which the lookup returns. -/
theorem find_of_nodup (table : List (String × Key))
    (hn : (table.map (fun entry => entry.1)).Nodup) (name : String) (v : Key)
    (hm : (name, v) ∈ table) :
    (table.find? (fun entry => entry.1 == name)).map (fun entry => entry.2) = some v := by
  induction table with
  | nil => exact absurd hm (List.not_mem_nil _)
  | cons e rest ih =>
    rw [List.map_cons, List.nodup_cons] at hn
    rcases List.mem_cons.mp hm with h | h
    · rw [← h]
      simp [List.find?]
    · have hne : e.1 ≠ name := by
        intro he
        apply hn.1
        rw [he]
        exact List.mem_map.mpr ⟨(name, v), h, rfl⟩
      have hb : (e.1 == name) = false := by simp [hne]
      rw [List.find?, hb]
      exact ih hn.2 h

/-- C25: in the key registry every identifier is declared exactly once with
one value, so that resolving an identifier is a function of the table; two
different identifiers have different values, except for `contentKey` and
`valueKey`, which both have the value `value`, the only value that more than
one identifier has. -/
theorem key_registry_unique :
    (keyTable.map (fun entry => entry.1)).Nodup ∧
    (∀ name v w, (name, v) ∈ keyTable → (name, w) ∈ keyTable → v = w) ∧
    (∀ name v, (name, v) ∈ keyTable → keyValue name = some v) ∧
    (∀ a ∈ keyTable, ∀ b ∈ keyTable, a.1 ≠ b.1 → a.2 = b.2 →
      a.2 = "value" ∧ (a.1 = "contentKey" ∨ a.1 = "valueKey")) ∧
    identifiersOf "value" = ["contentKey", "valueKey"] ∧
    keyTable.length = 222 := by
  have hfind := find_of_nodup keyTable keyTable_identifiers_nodup
  refine ⟨keyTable_identifiers_nodup, ?_, fun name v h => hfind name v h, ?_,
    identifiersOf_value, by rfl⟩
  · intro name v w hv hw
    have h1 := hfind name v hv
    rw [hfind name w hw] at h1
    exact (Option.some.inj h1).symm
  · intro a ha b hb hne heq
    have hvalue : ∀ e ∈ keyTable, e.2 = "value" → e.1 = "contentKey" ∨ e.1 = "valueKey" := by
      intro e he hv
      have hm := mem_identifiersOf e he
      rw [hv, identifiersOf_value] at hm
      rcases List.mem_cons.mp hm with h | h
      · exact Or.inl h
      · exact Or.inr (List.mem_singleton.mp h)
    have hjson : ∀ e ∈ keyTable, e.2 = "jsonrpc" → e.1 = "jsonRpcVersionKey" := by
      intro e he hv
      have hm := mem_identifiersOf e he
      rw [hv, identifiersOf_jsonrpc] at hm
      exact List.mem_singleton.mp hm
    rcases keyTable_regular a ha with ra | ra | ra
    · rcases keyTable_regular b hb with rb | rb | rb
      · exact absurd (by rw [ra, rb, heq]) hne
      · have hv : a.2 = "value" := by rw [heq, rb]
        exact ⟨hv, hvalue a ha hv⟩
      · have hv : a.2 = "jsonrpc" := by rw [heq, rb]
        exact absurd ((hjson a ha hv).trans (by rw [rb])) hne
    · have hv : a.2 = "value" := by rw [ra]
      exact ⟨hv, hvalue a ha hv⟩
    · have hv : b.2 = "jsonrpc" := by rw [← heq, ra]
      exact absurd ((by rw [ra] : a.1 = "jsonRpcVersionKey").trans (hjson b hb hv).symm) hne

/-- C29: every constant of the registry is named as its value followed by
`Key` (`rangeKey` is `range`, `uriKey` is `uri`, `capabilitiesKey` is
`capabilities`), with exactly two exceptions: `contentKey`, whose value is
`value`, and `jsonRpcVersionKey`, whose value is `jsonrpc`. -/
theorem key_identifiers_follow_values :
    (∀ entry ∈ keyTable, entry.1 = entry.2 ++ "Key" ∨
      entry = ("contentKey", "value") ∨ entry = ("jsonRpcVersionKey", "jsonrpc")) ∧
    irregularKeys = [("contentKey", "value"), ("jsonRpcVersionKey", "jsonrpc")] ∧
    (("contentKey", "value") ∈ keyTable ∧ "contentKey" ≠ "value" ++ "Key") ∧
    (("jsonRpcVersionKey", "jsonrpc") ∈ keyTable ∧ "jsonRpcVersionKey" ≠ "jsonrpc" ++ "Key") ∧
    keyValue "rangeKey" = some "range" ∧ keyValue "uriKey" = some "uri" ∧
    keyValue "capabilitiesKey" = some "capabilities" := by
  refine ⟨?_, irregularKeys_eq, ⟨by decide!, by decide⟩, ⟨by decide!, by decide⟩, by decide,
    by decide, by decide⟩
  exact fun entry he => keyTable_regular entry he

/-! ## The round trip of the messages -/

theorem envelope_key_values :
    jsonRpcVersionKey = "jsonrpc" ∧ idKey = "id" ∧ methodKey = "method" ∧
      paramsKey = "params" ∧ resultKey = "result" ∧ errorKey = "error" := by
  decide

theorem MessageId.fromJson_toJson (id : MessageId) : MessageId.fromJson id.toJson = some id := by
  cases id <;> rfl

/-- In an object without a repeated key a field has the value it is listed
with. -/
theorem field_of_mem (fields : List (Key × JsonValue))
    (hn : (fields.map (fun f => f.1)).Nodup) (key : Key) (v : JsonValue)
    (hm : (key, v) ∈ fields) : field fields key = some v := by
  induction fields with
  | nil => exact absurd hm (List.not_mem_nil _)
  | cons f rest ih =>
    rw [List.map_cons, List.nodup_cons] at hn
    rcases List.mem_cons.mp hm with h | h
    · rw [← h]
      simp only [field, if_true]
    · have hne : f.1 ≠ key := by
        intro he
        apply hn.1
        rw [he]
        exact List.mem_map.mpr ⟨(key, v), h, rfl⟩
      simp only [field, hne, if_false]
      exact ih hn.2 h

theorem field_of_not_mem (fields : List (Key × JsonValue)) (key : Key)
    (hm : key ∉ fields.map (fun f => f.1)) : field fields key = none := by
  induction fields with
  | nil => rfl
  | cons f rest ih =>
    rw [List.map_cons, List.mem_cons, not_or] at hm
    have hne : f.1 ≠ key := fun e => hm.1 e.symm
    simp only [field, hne, if_false]
    exact ih hm.2

theorem serializeFields_keys (m : Message) :
    ((serializeFields m).map (fun f => f.1)).Nodup := by
  obtain ⟨h1, h2, h3, h4, h5, h6⟩ := envelope_key_values
  cases m with
  | request id method params =>
    simp only [serializeFields, List.map_cons, List.map_nil, h1, h2, h3, h4]
    decide
  | response id outcome =>
    cases outcome with
    | result value =>
      simp only [serializeFields, List.map_cons, List.map_nil, h1, h2, h5]
      decide
    | error value =>
      simp only [serializeFields, List.map_cons, List.map_nil, h1, h2, h6]
      decide
  | notification method params =>
    simp only [serializeFields, List.map_cons, List.map_nil, h1, h3, h4]
    decide

/-- C26: for every `Request`, `Response` (with a result or with an error)
and `Notification` value `m` of the message model, parsing the serialized
message gives `m` back, and so does parsing any object that holds the same
fields in another order. -/
theorem parse_serialize (m : Message) :
    parse (serialize m) = Except.ok m ∧
    ∀ fields : List (Key × JsonValue), fields.Perm (serializeFields m) →
      parse (JsonValue.object fields) = Except.ok m := by
  have hperm : ∀ fields : List (Key × JsonValue), fields.Perm (serializeFields m) →
      parse (JsonValue.object fields) = Except.ok m := by
    intro fields hp
    have hn : (fields.map (fun f => f.1)).Nodup :=
      (List.Perm.nodup_iff (hp.map _)).mpr (serializeFields_keys m)
    have hin : ∀ key v, (key, v) ∈ serializeFields m → field fields key = some v :=
      fun key v h => field_of_mem fields hn key v (hp.mem_iff.mpr h)
    have hout : ∀ key, key ∉ (serializeFields m).map (fun f => f.1) → field fields key = none :=
      fun key h => field_of_not_mem fields key (fun h' => h ((hp.map _).mem_iff.mp h'))
    obtain ⟨h1, h2, h3, h4, h5, h6⟩ := envelope_key_values
    cases m with
    | request id method params =>
      have f1 := hin jsonRpcVersionKey (JsonValue.string "2.0") (by simp [serializeFields])
      have f2 := hin idKey id.toJson (by simp [serializeFields])
      have f3 := hin methodKey (JsonValue.string method) (by simp [serializeFields])
      have f4 := hin paramsKey params (by simp [serializeFields])
      simp only [parse, parseCall, f1, f2, f3, f4, MessageId.fromJson_toJson]
    | response id outcome =>
      cases outcome with
      | result value =>
        have f1 := hin jsonRpcVersionKey (JsonValue.string "2.0") (by simp [serializeFields])
        have f2 := hin idKey id.toJson (by simp [serializeFields])
        have f3 := hin resultKey value (by simp [serializeFields])
        have f4 := hout methodKey (by
          simp only [serializeFields, List.map_cons, List.map_nil, h1, h2, h3, h5]
          decide)
        have f5 := hout errorKey (by
          simp only [serializeFields, List.map_cons, List.map_nil, h1, h2, h5, h6]
          decide)
        simp only [parse, parseResponse, f1, f2, f3, f4, f5, MessageId.fromJson_toJson]
      | error value =>
        have f1 := hin jsonRpcVersionKey (JsonValue.string "2.0") (by simp [serializeFields])
        have f2 := hin idKey id.toJson (by simp [serializeFields])
        have f3 := hin errorKey value (by simp [serializeFields])
        have f4 := hout methodKey (by
          simp only [serializeFields, List.map_cons, List.map_nil, h1, h2, h3, h6]
          decide)
        have f5 := hout resultKey (by
          simp only [serializeFields, List.map_cons, List.map_nil, h1, h2, h5, h6]
          decide)
        simp only [parse, parseResponse, f1, f2, f3, f4, f5, MessageId.fromJson_toJson]
    | notification method params =>
      have f1 := hin jsonRpcVersionKey (JsonValue.string "2.0") (by simp [serializeFields])
      have f3 := hin methodKey (JsonValue.string method) (by simp [serializeFields])
      have f4 := hin paramsKey params (by simp [serializeFields])
      have f2 := hout idKey (by
        simp only [serializeFields, List.map_cons, List.map_nil, h1, h2, h3, h4]
        decide)
      simp only [parse, parseCall, f1, f2, f3, f4]
  exact ⟨hperm _ (List.Perm.refl _), hperm⟩

/-- Scenario D: an object with `method` and `params` and without `id` is
parsed as a notification. -/
theorem parse_hoverNotification :
    parse hoverNotification = Except.ok (Message.notification "textDocument/hover"
      (JsonValue.object [("position", JsonValue.object
        [("line", JsonValue.number 3), ("character", JsonValue.number 7)])])) := by
  rfl

end LanguageServerProtocol
